import Mathlib

/-!
Proxyserver: a shallow embedding of the HTTP proxy and proofs about it.

C++ `std::string` values are modelled as `List Char` (one `Char` per byte), sizes and
counters as `Nat`, signed results as `Int`.  A C++ exception escaping a function is
modelled by the result `none`.  `Signaler::done` (the SIGINT flag) is a parameter or a
field of the state and is constant during one call.

Part I holds the definitions (translated from `src/*.cpp`), Part II the theorems.
-/

namespace Proxy

/-! ## Part I: definitions -/

/-- A `std::string`: a sequence of bytes. -/
abbrev Str := List Char

/-! ### utils.cpp and the `std::string` / stream operations the sources use -/

/-- The C function `std::toupper` in the default "C" locale. -/
def toupper (c : Char) : Char := c.toUpper

/-- The C function `std::tolower` in the default "C" locale. -/
def tolower (c : Char) : Char := c.toLower

/-- The C function `isspace` in the "C" locale: space, \t, \n, \v, \f, \r. -/
def isspace (c : Char) : Bool :=
  c == ' ' || c == '\t' || c == '\n' || c == Char.ofNat 11 || c == Char.ofNat 12 || c == '\r'

/-- Source `lower` (utils.cpp 10-16). -/
def lower (str : Str) : Str := str.map tolower

/-- The member `std::string::find(pat)` from position 0: index of the first occurrence,
`none` for `npos`. -/
def find : Str → Str → Option Nat
  | [], pat => if pat.isEmpty then some 0 else none
  | c :: cs, pat =>
    if pat.isPrefixOf (c :: cs) then some 0 else (find cs pat).map (· + 1)

/-- The member `std::string::find_last_of(chars)`: index of the last character that is
one of `chars`. -/
def find_last_of : Str → Str → Option Nat
  | [], _ => none
  | c :: cs, chars =>
    match find_last_of cs chars with
    | some i => some (i + 1)
    | none => if chars.contains c then some 0 else none

/-- The member `std::string::find_first_not_of(chars)`. -/
def find_first_not_of : Str → Str → Option Nat
  | [], _ => none
  | c :: cs, chars =>
    if chars.contains c then (find_first_not_of cs chars).map (· + 1) else some 0

/-- The member `std::string::find_last_not_of(chars)`. -/
def find_last_not_of : Str → Str → Option Nat
  | [], _ => none
  | c :: cs, chars =>
    match find_last_not_of cs chars with
    | some i => some (i + 1)
    | none => if chars.contains c then none else some 0

/-- The member `std::string::substr(pos, len)` for `pos <= size()`. -/
def substr (s : Str) (pos len : Nat) : Str := (s.drop pos).take len

/-- The member `std::string::operator[]` at index 0: the first byte, `\0` when the
string is empty. -/
def at0 (s : Str) : Char := s.headD (Char.ofNat 0)

/-- Source `strip` (utils.cpp 45-51). -/
def strip (str chars : Str) : Str :=
  match find_first_not_of str chars, find_last_not_of str chars with
  | some start, some e => if start > e then [] else substr str start (e - start + 1)
  | _, _ => []

/-- The loop of `normalize_field_name` (utils.cpp 63-73); the flag is `next_caps`. -/
def normalize_loop : Bool → Str → Str
  | _, [] => []
  | next_caps, c :: cs =>
    let c1 := if next_caps then toupper c else tolower c
    c1 :: normalize_loop (c1 == '-') cs

/-- Source `normalize_field_name` (utils.cpp 60-75). -/
def normalize_field_name (str : Str) : Str := normalize_loop true str

/-- The successive results of `std::getline(stream, line)` on a stream holding `s`, until it
fails: the text is cut at every `\n`, and a final `\n` starts no further line. -/
def getlines : Str → List Str
  | [] => []
  | c :: cs =>
    if c = '\n' then [] :: getlines cs
    else
      match getlines cs with
      | [] => [[c]]
      | l :: ls => (c :: l) :: ls

/-- The call `std::getline(stream, key, delim)` followed by `std::getline(stream, value)` on a
stream holding one line `s` (no `\n`): the text before the first `delim` and the text after
it; a string that is not extracted stays empty. -/
def split_at_delim (delim : Char) (s : Str) : Str × Str :=
  (s.takeWhile (· != delim), (s.dropWhile (· != delim)).drop 1)

/-- The extraction `stream >> token` into a `std::string`: leading white space is skipped
and the token runs up to the next white space; the result is the token (empty when the
extraction fails) and what is left in the stream. -/
def read_token (s : Str) : Str × Str :=
  let t := s.dropWhile isspace
  (t.takeWhile (fun c => !isspace c), t.dropWhile (fun c => !isspace c))

/-- Value of a byte as a digit (`0-9`, `a-z`, `A-Z`), as in `strtol`. -/
def digit_val (c : Char) : Option Nat :=
  if '0' ≤ c ∧ c ≤ '9' then some (c.toNat - 48)
  else if 'a' ≤ c ∧ c ≤ 'z' then some (c.toNat - 97 + 10)
  else if 'A' ≤ c ∧ c ≤ 'Z' then some (c.toNat - 65 + 10)
  else none

/-- Whether `c` is a digit of the given base. -/
def is_digit (base : Nat) (c : Char) : Bool :=
  match digit_val c with
  | some d => decide (d < base)
  | none => false

/-- Value of a digit string in the given base. -/
def digits_value (base : Nat) (ds : Str) : Nat :=
  ds.foldl (fun acc c => acc * base + (digit_val c).getD 0) 0

/-- The optional sign of the subject sequence of `strtol`/`strtoull`: whether it is a minus,
and the text after it. -/
def strip_sign (t : Str) : Bool × Str :=
  match t with
  | '-' :: r => (true, r)
  | '+' :: r => (false, r)
  | _ => (false, t)

/-- The optional prefix `0x`/`0X` of the subject sequence for base 16, skipped when a hex
digit follows it. -/
def skip_hex_marker (base : Nat) (t : Str) : Str :=
  match t with
  | '0' :: x :: d :: r =>
    if base = 16 ∧ (x = 'x' ∨ x = 'X') ∧ is_digit 16 d then d :: r else t
  | _ => t

/-- The subject sequence of `strtol`/`strtoull`: white space, an optional sign, for base 16
an optional `0x`/`0X`, then the longest run of digits.  The result is the sign and the
magnitude, `none` when there is no digit. -/
def strto_parts (base : Nat) (s : Str) : Option (Bool × Nat) :=
  let t := strip_sign (s.dropWhile isspace)
  let ds := (skip_hex_marker base t.2).takeWhile (is_digit base)
  if ds.isEmpty then none else some (t.1, digits_value base ds)

/-- The function `std::stoull(s, nullptr, base)`: `none` stands for the exception
(`invalid_argument` without a digit, `out_of_range` beyond 64 bits); a minus sign negates
modulo 2^64 as `strtoull` does. -/
def stoull (s : Str) (base : Nat) : Option Nat :=
  match strto_parts base s with
  | none => none
  | some (neg, v) =>
    if v ≥ 2 ^ 64 then none
    else if neg then some ((2 ^ 64 - v) % 2 ^ 64) else some v

/-- The function `std::stoi(s)`: `none` stands for the exception (`invalid_argument`
without a digit, `out_of_range` outside the range of `int`). -/
def stoi (s : Str) : Option Int :=
  match strto_parts 10 s with
  | none => none
  | some (neg, v) =>
    let i : Int := if neg then -(v : Int) else (v : Int)
    if -(2 : Int) ^ 31 ≤ i ∧ i < (2 : Int) ^ 31 then some i else none

/-- Decimal text of an unsigned number (`std::to_string`, `operator<<`). -/
def to_string_nat (n : Nat) : Str := Nat.toDigits 10 n

/-- Decimal text of an `int`. -/
def to_string_int (i : Int) : Str :=
  if i < 0 then '-' :: Nat.toDigits 10 i.natAbs else Nat.toDigits 10 i.natAbs

/-! ### types.cpp -/

/-- The record `ProxyURI` (its declaration in types.h is not among the sources): the fields
that types.cpp and the other sources read and write, `uri` being the path. -/
structure ProxyURI where
  host : Str
  port : Str
  uri : Str
  ip : Str
deriving DecidableEq, Repr

/-- A `ProxyURI` whose strings are all empty: a default-constructed `ProxyURI` when the
structure declares no default member values (the sources test `port.empty()`, `uri.empty()`
and `host.empty()` before they fill in "80" and "/"). -/
def empty_uri : ProxyURI := ⟨[], [], [], []⟩

/-- Modelled from the spec: the declaration of `ProxyURI` (types.h) is missing; the spec gives
"Default `port = "80"`, default `path = "/"`", which is a default-constructed `ProxyURI` if
these are default member values of the structure. -/
def spec_default_uri : ProxyURI := ⟨[], ['8', '0'], ['/'], []⟩

/-- The member `ProxyURI::absolute()` as the spec gives it: `host:port + path`. -/
def ProxyURI.absolute (u : ProxyURI) : Str := u.host ++ ':' :: u.port ++ u.uri

/-- Source `parse_uri` (types.cpp 227-293).  The value of a default-constructed `ProxyURI`
(declared in the missing types.h) is the parameter `dflt`: it is what `ProxyURI uri_info;`
starts from. -/
def parse_uri (dflt : ProxyURI) (absolute_uri : Str) (base : ProxyURI) : ProxyURI :=
  let uri_info := dflt
  if absolute_uri.isEmpty then { uri_info with uri := ['/'] }
  else
    -- split section, if present
    let url :=
      match find absolute_uri ['#'] with
      | some section_idx => substr absolute_uri 0 section_idx
      | none => absolute_uri
    match find url [':', '/', '/'] with
    | some split_idx =>
      -- absolute URI
      let url := url.drop (split_idx + 3)
      let (path, url) :=
        match find url ['/'] with
        | none => (['/'], url)
        | some i => (url.drop i, substr url 0 i)
      match find url [':'] with
      | none => { uri_info with host := url, port := ['8', '0'], uri := path }
      | some i => { uri_info with host := substr url 0 i, port := url.drop (i + 1), uri := path }
    | none =>
      -- relative URI; the test reads `uri_info.uri[0]`, the path of the fresh record
      let path :=
        if at0 uri_info.uri != '/' then
          match find_last_of base.uri ['/'] with
          | some split_idx => substr base.uri 0 (split_idx + 1) ++ url
          | none => '/' :: url
        else url
      { host := base.host, port := base.port, uri := path, ip := base.ip }

/-- The enumeration `RequestMethod` (types.cpp 158-205). -/
inductive RequestMethod where
  | GET
  | HEAD
  | POST
  | CONNECT
  | UNKNOWN
deriving DecidableEq, Repr

/-- Source `operator>>(std::istream&, RequestMethod&)` (types.cpp 158-175), applied to the
token that was read. -/
def parse_method (str_method : Str) : RequestMethod :=
  if str_method = "GET".toList then RequestMethod.GET
  else if str_method = "HEAD".toList then RequestMethod.HEAD
  else if str_method = "POST".toList then RequestMethod.POST
  else if str_method = "CONNECT".toList then RequestMethod.CONNECT
  else RequestMethod.UNKNOWN

/-! ### The header map

The map from field name to value of a request or response.  Its declaration is in the
missing headers; it is modelled as an association list with one entry for each key, in
order of first insertion (the order in which C++ iterates is that of the container and no
theorem below depends on it). -/

/-- The header map of a request or a response. -/
abbrev Headers := List (Str × Str)

/-- The helper `contains(headers, key)`. -/
def contains (hs : Headers) (key : Str) : Bool := hs.any (fun kv => decide (kv.1 = key))

/-- The assignment `headers[key] = value`: replaces the value of an existing key, inserts a
new entry otherwise. -/
def set_header (hs : Headers) (key value : Str) : Headers :=
  if contains hs key then hs.map (fun kv => if kv.1 = key then (kv.1, value) else kv)
  else hs ++ [(key, value)]

/-- The call `headers.erase(key)`. -/
def erase_header (hs : Headers) (key : Str) : Headers :=
  hs.filter (fun kv => decide (kv.1 ≠ key))

/-- The value read by `headers[key]` or `headers.at(key)`: empty when the key is absent. -/
def get_header (hs : Headers) (key : Str) : Str :=
  match hs.find? (fun kv => decide (kv.1 = key)) with
  | some kv => kv.2
  | none => []

/-- The header loop shared by both constructors (HTTPRequest.cpp 22-28, HTTPResponse.cpp
19-25): every line up to the first line that is exactly "\r" is split at its first ':',
the key is normalised and the value stripped of blanks and carriage returns. -/
def read_headers : List Str → Headers → Headers
  | [], hs => hs
  | line :: rest, hs =>
    if line = ['\r'] then hs
    else
      read_headers rest
        (set_header hs (normalize_field_name (split_at_delim ':' line).1)
          (strip (split_at_delim ':' line).2 [' ', '\r']))

/-- The header map a header block gives: the lines after the first one. -/
def block_headers (message : Str) : Headers := read_headers (getlines message).tail []

/-! ### HTTPRequest.cpp -/

/-- The class `HTTPRequest`. -/
structure HTTPRequest where
  method : RequestMethod
  version : Str
  proxy_uri : ProxyURI
  headers : Headers
deriving DecidableEq, Repr

/-- Source `HTTPRequest::HTTPRequest(const std::string&)` (HTTPRequest.cpp 8-56).  The call
`parse_uri(uri)` passes a default-constructed base, `dflt`. -/
def HTTPRequest.parse (dflt : ProxyURI) (message : Str) : HTTPRequest :=
  let line := (getlines message).headD []
  -- split first line
  let method := parse_method (read_token line).1
  let uri := (read_token (read_token line).2).1
  let version := (read_token (read_token (read_token line).2).2).1
  let headers := block_headers message
  -- add default headers
  let headers :=
    if !contains headers "Connection".toList then
      set_header headers "Connection".toList
        (if version = "HTTP/1.1".toList then "Keep-Alive".toList else "Close".toList)
    else headers
  let headers :=
    if !contains headers "Proxy-Connection".toList then
      set_header headers "Proxy-Connection".toList "Keep-Alive".toList
    else headers
  -- remove bad headers
  let headers := erase_header headers "Upgrade-Insecure-Requests".toList
  let uri := if method = RequestMethod.CONNECT then "http://".toList ++ uri else uri
  let proxy_uri := parse_uri dflt uri dflt
  let proxy_uri := if proxy_uri.uri.isEmpty then { proxy_uri with uri := ['/'] } else proxy_uri
  let proxy_uri :=
    if proxy_uri.port.isEmpty then { proxy_uri with port := ['8', '0'] } else proxy_uri
  if proxy_uri.host.isEmpty then
    -- `headers["Host"]` is read: an absent key is inserted with an empty value
    let headers :=
      if contains headers "Host".toList then headers else headers ++ [("Host".toList, [])]
    { method := method, version := version,
      proxy_uri := { proxy_uri with host := get_header headers "Host".toList },
      headers := headers }
  else
    { method := method, version := version, proxy_uri := proxy_uri,
      headers := set_header headers "Host".toList (proxy_uri.host ++ ':' :: proxy_uri.port) }

/-- The key under which `Connection::connect` looks the address up (Connection.cpp 9):
`host + ":" + port`. -/
def connect_key (u : ProxyURI) : Str := u.host ++ ':' :: u.port

/-! ### HTTPResponse.cpp -/

/-- The class `HTTPResponse` (members as HTTPResponse.cpp uses them); `code` is the `int`
under the enumeration `ResponseCode`. -/
structure HTTPResponse where
  version : Str
  code : Int
  msg : Str
  headers : Headers
  body : Str
  content_length : Nat
  chunked : Bool
  has_content_length : Bool
  content_type : Str
  proxy_uri : ProxyURI
deriving DecidableEq, Repr

/-- Modelled from the spec: the declaration of the member `has_content_length_`
(HTTPResponse.h) is missing and no source file assigns it; the spec says that `dump()`
re-serializes "with emitted `Content-Length: N`", so the member is taken to be true. -/
def has_content_length_default : Bool := true

/-- The default headers of a response (HTTPResponse.cpp 27-36): `Proxy-Connection` and
`Connection` are added when absent, `Host` is overwritten from the URI. -/
def HTTPResponse.default_headers (version : Str) (proxy_uri : ProxyURI) (hs : Headers) :
    Headers :=
  let hs :=
    if !contains hs "Proxy-Connection".toList then
      set_header hs "Proxy-Connection".toList "keep-alive".toList
    else hs
  let hs :=
    if version = "HTTP/1.0".toList ∧ !contains hs "Connection".toList then
      set_header hs "Connection".toList "close".toList
    else if version = "HTTP/1.1".toList ∧ !contains hs "Connection".toList then
      set_header hs "Connection".toList "keep-alive".toList
    else hs
  set_header hs "Host".toList
    (proxy_uri.host ++ ':' :: (if proxy_uri.port.isEmpty then ['8', '0'] else proxy_uri.port))

/-- The content type of a response (HTTPResponse.cpp 49-54): the `Content-Type` value up
to its first ';'. -/
def HTTPResponse.read_content_type (hs : Headers) : Str :=
  if contains hs "Content-Type".toList then
    match find (get_header hs "Content-Type".toList) [';'] with
    | some ext_pos => substr (get_header hs "Content-Type".toList) 0 ext_pos
    | none => get_header hs "Content-Type".toList
  else []

/-- Source `HTTPResponse::HTTPResponse(const std::string, const ProxyURI&)`
(HTTPResponse.cpp 8-55).  The result is `none` when `std::stoi` or `std::stoull` throws
(an allocation failure of `body_.reserve` is outside the model).  The members
`content_length_`, `chunked_`, `body_`, `content_type_` start from 0, false and empty. -/
def HTTPResponse.parse (headers : Str) (proxy_uri : ProxyURI) : Option HTTPResponse :=
  let line := (getlines headers).headD []
  let version := (read_token line).1
  let code := (read_token (read_token line).2).1
  match stoi code with
  | none => none
  | some code_ =>
    -- the rest of the line (message)
    let msg := strip (read_token (read_token line).2).2 [' ', '\r']
    let hs := HTTPResponse.default_headers version proxy_uri (block_headers headers)
    -- read content length
    if contains hs "Content-Length".toList then
      match stoull (get_header hs "Content-Length".toList) 10 with
      | none => none
      | some n =>
        some
          { version := version, code := code_, msg := msg,
            headers := erase_header hs "Content-Length".toList, body := [],
            content_length := n, chunked := false,
            has_content_length := has_content_length_default,
            content_type :=
              HTTPResponse.read_content_type (erase_header hs "Content-Length".toList),
            proxy_uri := proxy_uri }
    else
      some
        { version := version, code := code_, msg := msg, headers := hs, body := [],
          content_length := 0,
          chunked :=
            contains hs "Transfer-Encoding".toList ∧
              get_header hs "Transfer-Encoding".toList = "chunked".toList,
          has_content_length := has_content_length_default,
          content_type := HTTPResponse.read_content_type hs, proxy_uri := proxy_uri }

/-- Source `HTTPResponse::append_to_body` (HTTPResponse.cpp 65-74): the returned flag and
the response afterwards.  The C++ call requires `size <= data.size()`; `data.take size` is
the range `[data.begin(), data.begin() + size)`.  Under that requirement the 64-bit sums do
not wrap (both operands are lengths of strings in memory), so they are sums of `Nat`. -/
def HTTPResponse.append_to_body (r : HTTPResponse) (data : Str) (size : Nat) :
    Bool × HTTPResponse :=
  if !r.chunked ∧ r.body.length + size > r.content_length then (false, r)
  else
    (true,
      { r with
        body := r.body ++ data.take size
        content_length := if r.chunked then r.content_length + size else r.content_length })

/-- A sequence of `append_to_body(data, size)` calls, the returned flags dropped (as the
body readers of Connection.cpp do). -/
def HTTPResponse.append_all (r : HTTPResponse) : List (Str × Nat) → HTTPResponse
  | [] => r
  | (data, size) :: calls => HTTPResponse.append_all (r.append_to_body data size).2 calls

/-- The header lines that `HTTPResponse::dump` writes (HTTPResponse.cpp 86-92), each
without its final CRLF. -/
def HTTPResponse.dump_header_lines (r : HTTPResponse) : List Str :=
  (r.headers.filter
      (fun kv => !(decide (kv.1 = "Transfer-Encoding".toList) && decide (kv.2 = "chunked".toList)))).map
      (fun kv => kv.1 ++ ':' :: ' ' :: kv.2) ++
    (if r.has_content_length then ["Content-Length: ".toList ++ to_string_nat r.content_length]
     else [])

/-- The body that `HTTPResponse::dump` writes (HTTPResponse.cpp 94-96). -/
def HTTPResponse.dump_body (r : HTTPResponse) : Str :=
  if r.content_length > 0 then r.body else []

/-- Source `HTTPResponse::dump` (HTTPResponse.cpp 81-100). -/
def HTTPResponse.dump (r : HTTPResponse) : Str :=
  r.version ++ ' ' :: to_string_int r.code ++ ' ' :: r.msg ++ ['\r', '\n'] ++
    (r.dump_header_lines.map (· ++ ['\r', '\n'])).flatten ++ ['\r', '\n'] ++ r.dump_body

/-! ### Connection.cpp: the socket and the body readers

The socket is a state: the bytes that the peer has sent and that are not consumed yet
(`pending`), and the outcomes of the successive `::recv` system calls (`script`).  When the
script is used up, or when no byte is left, `::recv` reports that the peer has closed. -/

/-- The outcome of one `::recv` system call. -/
inductive RecvEvent where
  /-- Up to `k` bytes are delivered. -/
  | data (k : Nat)
  /-- The call returns -1 with `errno` EAGAIN or EWOULDBLOCK. -/
  | eagain
  /-- The call returns -1 with another `errno`. -/
  | error
  /-- The call returns 0: the peer has closed. -/
  | closed
deriving DecidableEq, Repr

/-- The state of a `Connection` and of its socket. -/
structure Connection where
  /-- The value of `is_connected()`. -/
  connected : Bool
  /-- Whether `errno` is EWOULDBLOCK or EAGAIN. -/
  errno_again : Bool
  /-- The flag `Signaler::done`. -/
  done : Bool
  pending : Str
  script : List RecvEvent
deriving DecidableEq, Repr

/-- The bytes `bytes` stored from index `off` of a buffer. -/
def write_at (buf : Str) (off : Nat) (bytes : Str) : Str :=
  buf.take off ++ bytes ++ buf.drop (off + bytes.length)

/-- The conversion of an `int` to `std::uint64_t` or `size_t`. -/
def size_of_int (i : Int) : Nat := (i % (2 : Int) ^ 64).toNat

/-- The conversion of a `size_t` to `int` (wrapping to 32 bits). -/
def int_of_size (n : Nat) : Int := (((n + 2 ^ 31) % 2 ^ 32 : Nat) : Int) - (2 : Int) ^ 31

/-- Source `Connection::recv(char*, size_t, int, bool)` (Connection.cpp 53-70) on the buffer
position `off`, for at most `n` bytes, with or without MSG_PEEK: the returned count, the
buffer and the connection afterwards.  The scratch buffer is a string that was `resize`d:
its `size()` and its `capacity()` are both `buf.length`. -/
def Connection.recv (c : Connection) (buf : Str) (off n : Nat) (peek autoclose : Bool) :
    Int × Str × Connection :=
  if !c.connected then (-1, buf, c)
  else
    let closed : Int × Str × Connection :=
      (0, buf, { c with script := c.script.tail, connected := c.connected && !autoclose })
    match c.script with
    | [] => closed
    | RecvEvent.closed :: _ => closed
    | RecvEvent.eagain :: rest => (-1, buf, { c with script := rest, errno_again := true })
    | RecvEvent.error :: rest =>
      (-1, buf,
        { c with script := rest, errno_again := false, connected := c.connected && !autoclose })
    | RecvEvent.data k :: rest =>
      let m := min k (min n c.pending.length)
      if m = 0 then closed
      else
        ((m : Int), write_at buf off (c.pending.take m),
          { c with script := rest, pending := if peek then c.pending else c.pending.drop m })

/-- The loop of `Connection::read_n` (Connection.cpp 111-118).  Every iteration consumes an
outcome of the script or ends the loop, so `script.length + 1` iterations are enough. -/
def Connection.read_n_loop :
    Nat → Connection → Str → Nat → Nat → Nat → Int × Str × Connection
  | 0, c, buf, _, _, n_read_total => ((n_read_total : Int), buf, c)
  | fuel + 1, c, buf, off, n, n_read_total =>
    if n_read_total < n ∧ c.connected = true ∧ c.done = false then
      match c.recv buf (off + n_read_total) (n - n_read_total) false true with
      | (n_read, buf1, c1) =>
        if n_read ≤ 0 then
          if c1.errno_again then Connection.read_n_loop fuel c1 buf1 off n n_read_total
          else (n_read, buf1, c1)
        else Connection.read_n_loop fuel c1 buf1 off n (n_read_total + n_read.toNat)
    else ((n_read_total : Int), buf, c)

/-- Source `Connection::read_n(char*, int, bool)` (Connection.cpp 106-120) into the buffer
from position `off`. -/
def Connection.read_n (c : Connection) (buf : Str) (off n : Nat) : Int × Str × Connection :=
  if !c.connected then (-1, buf, c)
  else Connection.read_n_loop (c.script.length + 1) c buf off n 0

/-- How a loop of a body reader ends: by a `return` of the function, or by leaving the loop
with the last value of `n_src`. -/
inductive LoopEnd where
  | returned (value : Int)
  | left (n_src : Int)
deriving DecidableEq, Repr

/-- The loop that reads one chunk (Connection.cpp 239-255); `chunk_size` and `bytes_read`
are 64-bit unsigned.  `buf.length` stands for `buf.capacity()`: the model is about scratch
buffers whose capacity is their size, as it is for the buffers of MAXLINE and MAXBUF bytes
that the callers resize (a string of up to 15 bytes keeps the capacity 15 of its internal
buffer).  The result is `none` when an exception leaves the loop: for a last piece of one
byte the size argument `n_src - 2` is -1, converted to 2^64 - 1, the range
`[data.begin(), data.begin() + size)` of `body_.append` ends before it starts and the call
throws `std::length_error`. -/
def Connection.read_chunk_loop :
    Nat → Connection → Str → HTTPResponse → Nat → Nat → Int →
      Option (LoopEnd × Str × HTTPResponse × Connection)
  | 0, c, buf, response, _, _, n_src => some (LoopEnd.left n_src, buf, response, c)
  | fuel + 1, c, buf, response, chunk_size, bytes_read, n_src =>
    if bytes_read < (chunk_size + 2) % 2 ^ 64 ∧ c.done = false then
      let bytes_to_read := min buf.length (((chunk_size + 2) % 2 ^ 64 + 2 ^ 64 - bytes_read) % 2 ^ 64)
      match c.read_n buf 0 bytes_to_read with
      | (n_src1, buf1, c1) =>
        if n_src1 ≤ 0 then some (LoopEnd.returned n_src1, buf1, response, c1)
        else
          let bytes_read1 := (bytes_read + n_src1.toNat) % 2 ^ 64
          -- sanity check
          if bytes_read1 = (chunk_size + 2) % 2 ^ 64 then
            if n_src1 < 2 then none
            else
              Connection.read_chunk_loop fuel c1 buf1
                (response.append_to_body buf1 (size_of_int (n_src1 - 2))).2 chunk_size
                bytes_read1 n_src1
          else
            Connection.read_chunk_loop fuel c1 buf1
              (response.append_to_body buf1 (size_of_int n_src1)).2 chunk_size bytes_read1 n_src1
    else some (LoopEnd.left n_src, buf, response, c)

/-- What the first part of an iteration of the chunked reader gives (Connection.cpp
207-227): the loop is left or the function returns, `std::stoull` throws, or the chunk size
is known (with the index of the CRLF that ends the size line and the value of `n_src`). -/
inductive ChunkSize where
  | stop (how : LoopEnd)
  | throws
  | size (chunk_size_index chunk_size : Nat) (n_src : Int)
deriving DecidableEq, Repr

/-- The first part of an iteration of the chunked reader (Connection.cpp 207-227): peek, find
the CRLF, consume the size line and parse the chunk size.  A `continue` jumps to the test
`n_src > 0 && !Signaler::done` of the do-while loop, which is false there. -/
def Connection.read_chunk_size (c : Connection) (buf : Str) : ChunkSize × Str × Connection :=
  -- read chunk size
  match c.recv buf 0 buf.length true true with
  | (n_src, buf1, c1) =>
    if n_src ≤ 0 then
      if c1.errno_again then (ChunkSize.stop (LoopEnd.left n_src), buf1, c1)
      else (ChunkSize.stop (LoopEnd.returned n_src), buf1, c1)
    else
      -- parse chunk size
      match find buf1 ['\r', '\n'] with
      | none => (ChunkSize.stop (LoopEnd.returned (-1)), buf1, c1)
      | some chunk_size_index =>
        match c1.read_n buf1 0 (chunk_size_index + 2) with
        | (n_src2, buf2, c2) =>
          if n_src2 ≤ 0 then (ChunkSize.stop (LoopEnd.returned n_src2), buf2, c2)
          else
            -- check for extensions
            let cut :=
              match find buf2 [';'] with
              | some chunk_extension_index => min chunk_extension_index chunk_size_index
              | none => chunk_size_index
            match stoull (substr buf2 0 cut) 16 with
            | none => (ChunkSize.throws, buf2, c2)
            | some chunk_size => (ChunkSize.size chunk_size_index chunk_size n_src2, buf2, c2)

/-- The do-while loop of `Connection::read_http_response_body_chunked` (Connection.cpp
205-257).  The result is `none` when `std::stoull` or `append_to_body` throws.  Every
iteration consumes an outcome of the script, so `script.length + 1` iterations are enough. -/
def Connection.read_chunks_loop :
    Nat → Connection → Str → HTTPResponse → Option (LoopEnd × Str × HTTPResponse × Connection)
  | 0, c, buf, response => some (LoopEnd.left 0, buf, response, c)
  | fuel + 1, c, buf, response =>
    match c.read_chunk_size buf with
    | (ChunkSize.stop how, buf2, c2) => some (how, buf2, response, c2)
    | (ChunkSize.throws, _, _) => none
    | (ChunkSize.size chunk_size_index chunk_size n_src2, buf2, c2) =>
      if chunk_size = 0 then
        -- end of chunked encoding, read final CRLF
        match c2.read_n buf2 (chunk_size_index + 2) 2 with
        | (n_src3, buf3, c3) =>
          if n_src3 ≤ 0 then some (LoopEnd.returned n_src3, buf3, response, c3)
          else some (LoopEnd.left n_src3, buf3, response, c3)
      else
        -- read chunk
        match
          Connection.read_chunk_loop (c2.script.length + 1) c2 buf2 response chunk_size 0
            n_src2 with
        | none => none
        | some (LoopEnd.returned v, buf3, response3, c3) =>
          some (LoopEnd.returned v, buf3, response3, c3)
        | some (LoopEnd.left n_src3, buf3, response3, c3) =>
          if n_src3 > 0 ∧ c3.done = false then
            Connection.read_chunks_loop fuel c3 buf3 response3
          else some (LoopEnd.left n_src3, buf3, response3, c3)

/-- Source `Connection::read_http_response_body_chunked` (Connection.cpp 201-259): the
returned `int`, the buffer, the response and the connection afterwards; `none` when
`std::stoull` or `append_to_body` throws. -/
def Connection.read_http_response_body_chunked (c : Connection) (buf : Str)
    (response : HTTPResponse) : Option (Int × Str × HTTPResponse × Connection) :=
  match Connection.read_chunks_loop (c.script.length + 1) c buf response with
  | none => none
  | some (LoopEnd.returned v, buf1, response1, c1) => some (v, buf1, response1, c1)
  | some (LoopEnd.left _, buf1, response1, c1) =>
    some (int_of_size response1.body.length, buf1, response1, c1)

/-- A chunked body stream: every chunk, given as its size line and its data, is written as
size line, CRLF, data, CRLF, and '0 CRLF CRLF' ends the stream. -/
def chunked_stream (chunks : List (Str × Str)) : Str :=
  (chunks.map (fun ch => ch.1 ++ ['\r', '\n'] ++ ch.2 ++ ['\r', '\n'])).flatten ++
    ['0', '\r', '\n', '\r', '\n']

/-- The outcomes that a `read_n` of `n` bytes consumes when it succeeds (every delivery
brings at least one byte, EAGAIN outcomes are retried) and the outcomes left; `none` when
the script does not deliver the `n` bytes. -/
def read_n_script : List RecvEvent → Nat → Option (List RecvEvent)
  | s, 0 => some s
  | [], _ + 1 => none
  | RecvEvent.data k :: s, n + 1 =>
    if k = 0 then none else read_n_script s (n + 1 - min k (n + 1))
  | RecvEvent.eagain :: s, n + 1 => read_n_script s (n + 1)
  | _ :: _, _ + 1 => none

/-- A script under which the chunked reader receives the whole stream of the given chunks
with a buffer of `cap` bytes: for every chunk, and for the last line, the peek delivers at
least the complete chunk-size line with its CRLF, and the reads that follow deliver their
bytes. -/
def chunked_script_ok (cap : Nat) : List (Str × Str) → List RecvEvent → Bool
  | [], script =>
    match script with
    | RecvEvent.data k :: s1 =>
      decide (3 ≤ min k cap) &&
        (match read_n_script s1 3 with
         | some s2 => (read_n_script s2 2).isSome
         | none => false)
    | _ => false
  | ch :: chunks, script =>
    match script with
    | RecvEvent.data k :: s1 =>
      decide (ch.1.length + 2 ≤ min k cap) &&
        (match read_n_script s1 (ch.1.length + 2) with
         | some s2 =>
           (match read_n_script s2 (ch.2.length + 2) with
            | some s3 => chunked_script_ok cap chunks s3
            | none => false)
         | none => false)
    | _ => false

/-! ### ProxyConnection.cpp: the blacklist -/

/-- The static map `blacklist_` (every stored value is `true`): the list of its keys. -/
abbrev Blacklist := List Str

/-- The assignment `blacklist_[key] = true`. -/
def blacklist_insert (bl : Blacklist) (key : Str) : Blacklist :=
  if key ∈ bl then bl else bl ++ [key]

/-- Source `ProxyConnection::allowed` (ProxyConnection.cpp 332): `!blacklist_.count(host)`. -/
def allowed (bl : Blacklist) (host : Str) : Bool := !(decide (host ∈ bl))

/-- The test `std::regex_match(line, comment_regex)` for the pattern `#.*$`: a '#' followed by
bytes that are no line terminators (the ECMAScript `.` matches neither \n nor \r). -/
def matches_comment_regex (line : Str) : Bool :=
  match line with
  | '#' :: rest => rest.all (fun c => c != '\n' && c != '\r')
  | _ => false

/-- One alternative group of `ip_addr_regex`: one to three decimal digits or a star. -/
def is_octet_pattern (s : Str) : Bool :=
  decide (s = ['*']) || (decide (1 ≤ s.length ∧ s.length ≤ 3) && s.all Char.isDigit)

/-- The pieces of a string between its dots. -/
def split_on_dot : Str → List Str
  | [] => [[]]
  | c :: cs =>
    if c = '.' then [] :: split_on_dot cs
    else
      match split_on_dot cs with
      | [] => [[c]]
      | piece :: pieces => (c :: piece) :: pieces

/-- The test `std::regex_match(line, ip_addr_regex)` for the pattern
`(\d{1,3}|\*)\.(\d{1,3}|\*)\.(\d{1,3}|\*)\.(\d{1,3}|\*)`: the whole line is four groups
separated by three dots (no group holds a dot). -/
def matches_ip_addr_regex (line : Str) : Bool :=
  match split_on_dot line with
  | [a, b, c, d] => is_octet_pattern a && is_octet_pattern b && is_octet_pattern c && is_octet_pattern d
  | _ => false

/-- The `int` expression `1 << n`: 2^n below 31 bits and the sign bit at 31.  From 32 bits on
the C++ shift is undefined; its value there is the parameter `u` (0 if the value wraps, 1
where the processor takes the shift count modulo 32). -/
def shl_one (u : Int) (n : Nat) : Int :=
  if n < 31 then (2 : Int) ^ n else if n = 31 then -(2 : Int) ^ 31 else u

/-- The statements `pos = ip.find('*'); ip.replace(pos, 1, v)` (ProxyConnection.cpp 360-361).
The loop calls them only while a star is left. -/
def replace_first_star (ip v : Str) : Str :=
  match find ip ['*'] with
  | some pos => ip.take pos ++ v ++ ip.drop (pos + 1)
  | none => ip

/-- The inner loop of `load_blacklist` (ProxyConnection.cpp 358-362): star number `j` is
replaced by the decimal text of `(i >> (8 * j)) & 0xFF`. -/
def expand_pattern (line : Str) (num_star i : Nat) : Str :=
  (List.range num_star).foldl
    (fun ip j => replace_first_star ip (to_string_nat ((i >>> (8 * j)) &&& 0xFF))) line

/-- The body of the loop over the lines of the file (ProxyConnection.cpp 348-369). -/
def load_line (u : Int) (bl : Blacklist) (line : Str) : Blacklist :=
  if matches_comment_regex line then bl
  else if matches_ip_addr_regex line then
    -- IP address
    let num_star := line.count '*'
    if num_star = 0 then blacklist_insert bl line
    else
      (List.range (shl_one u (8 * num_star)).toNat).foldl
        (fun bl i => blacklist_insert bl (expand_pattern line num_star i)) bl
  else blacklist_insert bl line

/-- Source `ProxyConnection::load_blacklist` (ProxyConnection.cpp 339-371) on the content of
the file (`none` when it cannot be opened), from the blacklist `bl`. -/
def load_blacklist (u : Int) (done : Bool) (file : Option Str) (bl : Blacklist) : Blacklist :=
  match file with
  | none => bl
  | some content => if done then bl else (getlines content).foldl (load_line u) bl

/-- The address that a pattern denotes for given octet values: every '*' is replaced, from
left to right, by the decimal text of the next value. -/
def instantiate : Str → List Nat → Str
  | [], _ => []
  | c :: cs, [] => c :: instantiate cs []
  | c :: cs, v :: vs =>
    if c = '*' then to_string_nat v ++ instantiate cs vs else c :: instantiate cs (v :: vs)

/-! ### ProxyConnection.cpp: the timeouts -/

/-- The C++ quotient `a / b` of two `int` values: the division truncates toward zero. -/
def int_quot (a b : Int) : Int := Int.tdiv a b

/-- The members `proxy_timeout_` and `gateway_timeout_` of a worker, in seconds. -/
structure Timeouts where
  proxy_timeout : Int
  gateway_timeout : Int
  deriving DecidableEq, Repr

/-- Source: the constructor `ProxyConnection::ProxyConnection` with a timeout argument
(ProxyConnection.cpp 13-18): `proxy_timeout_ = seconds{t}` and
`gateway_timeout_ = seconds{std::max(t / 4, 1)}`. -/
def ProxyConnection.timeouts (connection_timeout_seconds : Int) : Timeouts :=
  ⟨connection_timeout_seconds, max (int_quot connection_timeout_seconds 4) 1⟩

/-- The timeout argument that `main` passes to the constructor (webproxy.cpp 57). -/
def main_connection_timeout_seconds : Int := 20

/-! ### Connection.cpp: the header reader -/

/-- The loop of `Connection::read_http_header` (Connection.cpp 143-166) and the statements
after it.  The argument `left` counts the iterations that `err_count` still allows: the
loop starts with 100, and the iteration that finds none left is the one in which
`err_count > 100` holds.  A `continue` jumps to the test of the loop. -/
def Connection.read_http_header_loop :
    Nat → Connection → Str → Str → Bool → Int × Str × Str × Connection
  | left, c, buf, header, body_found =>
    if body_found = false ∧ c.connected = true ∧ c.done = false then
      match left with
      | 0 => (if header.length > 0 then -1 else 0, buf, header, c)
      | left1 + 1 =>
        -- read from connections
        match c.recv buf 0 buf.length true true with
        | (n_src, buf1, c1) =>
          if n_src ≤ 0 then
            if c1.errno_again then Connection.read_http_header_loop left1 c1 buf1 header body_found
            else (n_src, buf1, header, c1)
          else
            -- find message body
            let body_index := find buf1 ['\r', '\n', '\r', '\n']
            let header_len_buf :=
              match body_index with
              | some i => i + 4
              | none => n_src.toNat
            -- read and append headers (possibly only a segment)
            match c1.read_n buf1 0 (int_of_size header_len_buf).toNat with
            | (n_src2, buf2, c2) =>
              if n_src2 ≤ 0 then (n_src2, buf2, header, c2)
              else
                Connection.read_http_header_loop left1 c2 buf2 (header ++ buf2.take n_src2.toNat)
                  body_index.isSome
    else if body_found = false then (-1, buf, header, c)
    else (int_of_size header.length, buf, header, c)

/-- Source `Connection::read_http_header` (Connection.cpp 130-171): the returned `int`, the
buffer, the string `header` and the connection afterwards. -/
def Connection.read_http_header (c : Connection) (buf : Str) : Int × Str × Str × Connection :=
  -- make sure connection is alive
  match c.recv buf 0 1 true true with
  | (n_src, buf1, c1) =>
    if n_src ≤ 0 ∧ c1.errno_again = false then (n_src, buf1, [], c1)
    else Connection.read_http_header_loop 100 c1 buf1 [] false

/-! ### Connection.cpp: connect and the address cache -/

/-- Modelled from the spec: a cached address (the type `AddrInfo` of the missing
Connection.h): family, socket type, protocol and the bytes of the socket address. -/
structure AddrInfo where
  ai_family : Int
  ai_socktype : Int
  ai_protocol : Int
  ai_addr : List Nat
deriving DecidableEq, Repr

/-- Modelled from the spec: the address cache (the class `Cache<AddrInfo>` of the missing
Cache.h), a map from the key "host:port" to an address, without expiry. -/
abbrev AddrCache := List (Str × AddrInfo)

/-- Modelled from the spec: the operation `get(key)` of the address cache. -/
def cache_get : AddrCache → Str → Option AddrInfo
  | [], _ => none
  | (k, v) :: rest, key => if k = key then some v else cache_get rest key

/-- Modelled from the spec: the operation `remove(key)` of the address cache. -/
def cache_remove (cache : AddrCache) (key : Str) : AddrCache :=
  cache.filter (fun kv => decide (kv.1 ≠ key))

/-- Modelled from the spec: the operation `put(key, value)` of the address cache; a put on
an existing key replaces the value. -/
def cache_put (cache : AddrCache) (key : Str) (value : AddrInfo) : AddrCache :=
  (key, value) :: cache_remove cache key

/-- What `Connection::connect` does to the world outside of the connection, in order. -/
inductive ConnectEvent where
  /-- A `socket` and `::connect` with the address; `fd` is the descriptor on success. -/
  | attempt (addr : AddrInfo) (fd : Option Nat)
  /-- The call `ip_cache_->remove(key)`. -/
  | removed (key : Str)
  /-- The call `getaddrinfo(host, port, ...)`. -/
  | resolve (host port : Str)
  /-- The call `ip_cache_->put(key, AddrInfo{rp})`. -/
  | stored (key : Str) (addr : AddrInfo)
deriving DecidableEq, Repr

/-- The state that `Connection::connect` works on: the member `sockfd_`, the URI behind
`proxy_info`, the address cache, the outcomes of the `socket` + `::connect` attempts still to
come (`some fd` for a success with that descriptor, `none` for a failure; a failure when the
list is used up), and the events so far. -/
structure ConnectState where
  sockfd : Int
  uri : ProxyURI
  cache : AddrCache
  outcomes : List (Option Nat)
  trace : List ConnectEvent
deriving DecidableEq, Repr

/-- Source `Connection::connect(ProxyURI*, addrinfo const*)` and its twin for `AddrInfo`
(Connection.cpp 293-347); the returned value is the new `sockfd_`.  `ip_text addr` is the
text that `inet_ntop` writes for the families AF_INET and AF_INET6, `none` for another
family (the member `ip` is then left as it is). -/
def Connection.connect_addr (ip_text : AddrInfo → Option Str) (s : ConnectState)
    (addr : AddrInfo) : ConnectState :=
  match s.outcomes.headD none with
  | some fd =>
    { s with
      sockfd := (fd : Int)
      uri := { s.uri with ip := (ip_text addr).getD s.uri.ip }
      outcomes := s.outcomes.tail
      trace := s.trace ++ [ConnectEvent.attempt addr (some fd)] }
  | none =>
    { s with
      sockfd := -1
      outcomes := s.outcomes.tail
      trace := s.trace ++ [ConnectEvent.attempt addr none] }

/-- The loop over the candidates of the resolver (Connection.cpp 31-38). -/
def Connection.connect_candidates (ip_text : AddrInfo → Option Str) (key : Str) :
    List AddrInfo → ConnectState → ConnectState
  | [], s => s
  | rp :: rest, s =>
    let s1 := Connection.connect_addr ip_text s rp
    if s1.sockfd = -1 then Connection.connect_candidates ip_text key rest s1
    else
      -- cache IP
      { s1 with
        cache := cache_put s1.cache key rp
        trace := s1.trace ++ [ConnectEvent.stored key rp] }

/-- The second part of `Connection::connect(ProxyURI*)` (Connection.cpp 21-40): the call of
the resolver, whose result is `resolver` (`none` when `getaddrinfo` fails), and the loop
over its candidates. -/
def Connection.connect_resolve (ip_text : AddrInfo → Option Str)
    (resolver : Option (List AddrInfo)) (key : Str) (s : ConnectState) : Int × ConnectState :=
  let s1 := { s with trace := s.trace ++ [ConnectEvent.resolve s.uri.host s.uri.port] }
  match resolver with
  | none => (-1, s1)
  | some server_info =>
    let s2 := Connection.connect_candidates ip_text key server_info s1
    (s2.sockfd, s2)

/-- Source `Connection::connect(ProxyURI*)` (Connection.cpp 7-41): the returned descriptor
and the state afterwards. -/
def Connection.connect (ip_text : AddrInfo → Option Str) (resolver : Option (List AddrInfo))
    (s : ConnectState) : Int × ConnectState :=
  let key := connect_key s.uri
  -- check cache for Host/IP mapping
  match cache_get s.cache key with
  | some addr =>
    let s1 := Connection.connect_addr ip_text s addr
    if s1.sockfd ≥ 0 then (s1.sockfd, s1)
    else
      Connection.connect_resolve ip_text resolver key
        { s1 with
          cache := cache_remove s1.cache key
          trace := s1.trace ++ [ConnectEvent.removed key] }
  | none => Connection.connect_resolve ip_text resolver key s

/-! ### ProxyConnection.cpp and Prefetcher.cpp: the handling of one request

The worker is modelled from the point where a request has been parsed (ProxyConnection.cpp
82) to the end of the body of its outer loop (187).  The calls to the client and server
connections and to the page cache are recorded in a trace; what they answer is given by
lists of outcomes, one list for every kind of call. -/

/-- The enumeration `ResponseCode`, with the enumerators that `to_string(ResponseCode)`
names (types.cpp 61-76). -/
inductive ResponseCode where
  | OK
  | BadRequest
  | Forbidden
  | NotFound
  | InternalServerError
  | GatewayTimeout
deriving DecidableEq, Repr

/-- Modelled from the spec: the values of the enumerators (their declaration in types.h is
missing), the status codes 200, 400, 403, 404, 500 and 504. -/
def ResponseCode.value : ResponseCode → Int
  | ResponseCode.OK => 200
  | ResponseCode.BadRequest => 400
  | ResponseCode.Forbidden => 403
  | ResponseCode.NotFound => 404
  | ResponseCode.InternalServerError => 500
  | ResponseCode.GatewayTimeout => 504

/-- The values that the worker gives to its string `reason`. -/
inductive Reason where
  /-- The text "write to client: " followed by the message of `errno`. -/
  | write_to_client
  /-- The text "CONNECT Tunneling Complete". -/
  | tunneling_complete
deriving DecidableEq, Repr

/-- A call that a worker or a prefetcher makes to a connection or to the page cache. -/
inductive Action where
  /-- The call `client_.send_n(response.dump())` for `HTTPResponse response(request, code)`. -/
  | send_status (code : ResponseCode)
  /-- The call `page_cache_->get(uri)`. -/
  | cache_get (uri : ProxyURI)
  /-- The call `client_.send_n(response.dump())` for a cached or an upstream response. -/
  | send_response (response : HTTPResponse)
  /-- The call `server_.close()`. -/
  | server_close
  /-- The call `server_.connect(&uri)`. -/
  | server_connect (uri : ProxyURI)
  /-- The call `server_.send_n(request.dump())`. -/
  | server_send (request : HTTPRequest)
  /-- The call `server.send_n(request)` of the prefetcher, with the text of the request. -/
  | server_send_text (request : Str)
  /-- The call `server_.read_http_response(buf, uri)`. -/
  | server_read (uri : ProxyURI)
  /-- The call `page_cache_->contains(uri)`. -/
  | cache_contains (uri : ProxyURI)
  /-- The call `page_cache_->put(uri, response)`. -/
  | cache_put (uri : ProxyURI) (response : HTTPResponse)
  /-- The call `tunnel(request)`. -/
  | tunnel (request : HTTPRequest)
deriving DecidableEq, Repr

/-- The state of a worker while it handles a request: the request (its URI receives the
resolved address), `server_.is_connected()`, `last_uri`, `reason` (`none` for the empty
string), the answers still to come and the calls made so far.  `client_sends` and
`server_sends` say whether the successive `send_n` return a positive count, `connects`
gives for the successive `server_.connect` the member `ip` afterwards when the server is
connected and `none` when it is not, `responses` are the results of the successive
`read_http_response`.  A list that is used up answers with a failure. -/
structure Worker where
  request : HTTPRequest
  server_connected : Bool
  last_uri : ProxyURI
  reason : Option Reason
  client_sends : List Bool
  connects : List (Option Str)
  server_sends : List Bool
  responses : List (Option HTTPResponse)
  trace : List Action
deriving DecidableEq, Repr

/-- A call `client_.send_n(...)`, recorded as `a`: whether the returned count is positive,
and the worker afterwards. -/
def Worker.client_send_n (w : Worker) (a : Action) : Bool × Worker :=
  (w.client_sends.headD false,
    { w with client_sends := w.client_sends.tail, trace := w.trace ++ [a] })

/-- The statements `if (client_.send_n(response.dump()) <= 0) reason = ...; else
response_sent = true; break;` of the inner loop: the value of `response_sent` and the
worker afterwards. -/
def Worker.send_and_break (w : Worker) (a : Action) : Bool × Worker :=
  match w.client_send_n a with
  | (true, w1) => (true, w1)
  | (false, w1) => (false, { w1 with reason := some Reason.write_to_client })

/-- The first part of the body of the inner loop (ProxyConnection.cpp 130-151), "reuse
connection if possible": `some response_sent` when the part ends in a `break`, `none` when
the body goes on. -/
def ProxyConnection.reconnect (bl : Blacklist) (w : Worker) : Option Bool × Worker :=
  if w.server_connected = false ∨ w.request.proxy_uri.host ≠ w.last_uri.host ∨
      w.request.proxy_uri.port ≠ w.last_uri.port then
    let w1 :=
      { w with
        connects := w.connects.tail
        trace := w.trace ++ [Action.server_close, Action.server_connect w.request.proxy_uri] }
    match w.connects.headD none with
    | none =>
      match ({ w1 with server_connected := false }).send_and_break
          (Action.send_status ResponseCode.NotFound) with
      | (response_sent, w2) => (some response_sent, w2)
    | some ip =>
      let request := { w.request with proxy_uri := { w.request.proxy_uri with ip := ip } }
      let w2 := { w1 with server_connected := true, request := request }
      -- check blacklist, IP
      if allowed bl request.proxy_uri.ip = false then
        match w2.send_and_break (Action.send_status ResponseCode.Forbidden) with
        | (response_sent, w3) => (some response_sent, w3)
      else (none, { w2 with last_uri := request.proxy_uri })
  else (none, w)

/-- The body of the inner loop (ProxyConnection.cpp 128-184): `some response_sent` when the
loop is left by a `break` or with `response_sent` true, `none` after a `continue`. -/
def ProxyConnection.forward_once (bl : Blacklist) (w : Worker) : Option Bool × Worker :=
  match ProxyConnection.reconnect bl w with
  | (some response_sent, w1) => (some response_sent, w1)
  | (none, w1) =>
    -- send request to server
    let w2 :=
      { w1 with
        server_sends := w1.server_sends.tail
        trace := w1.trace ++ [Action.server_send w1.request] }
    if w1.server_sends.headD false = false then
      (none, { w2 with server_connected := false, trace := w2.trace ++ [Action.server_close] })
    else
      -- read response
      let w3 :=
        { w2 with
          responses := w2.responses.tail
          trace := w2.trace ++ [Action.server_read w2.request.proxy_uri] }
      match w2.responses.headD none with
      | none =>
        (none, { w3 with server_connected := false, trace := w3.trace ++ [Action.server_close] })
      | some opt_response =>
        -- send (and cache) response
        match w3.client_send_n (Action.send_response opt_response) with
        | (sent, w4) =>
          let w5 :=
            if opt_response.code = ResponseCode.OK.value then
              { w4 with trace := w4.trace ++ [Action.cache_put opt_response.proxy_uri opt_response] }
            else w4
          if sent = false then (some false, { w5 with reason := some Reason.write_to_client })
          else (some true, w5)

/-- The inner do-while loop (ProxyConnection.cpp 128-184): the value of `response_sent` and
the worker afterwards.  The list holds the successive values of the test
`(now - server_conn_start < gateway_timeout_) && !Signaler::done`, which is evaluated after
a `continue`; when the list is used up the time is over. -/
def ProxyConnection.forward_loop (bl : Blacklist) : List Bool → Worker → Bool × Worker
  | [], w =>
    match ProxyConnection.forward_once bl w with
    | (some response_sent, w1) => (response_sent, w1)
    | (none, w1) => (false, w1)
  | in_time :: later, w =>
    match ProxyConnection.forward_once bl w with
    | (some response_sent, w1) => (response_sent, w1)
    | (none, w1) =>
      if in_time then ProxyConnection.forward_loop bl later w1 else (false, w1)

/-- The statements `if (client_.send_n(response.dump()) <= 0) { reason = ...; break; }
continue;` of the outer loop, and the same test at its end (without `break`): `reason` is set
when the count is not positive. -/
def Worker.send_or_break (w : Worker) (a : Action) : Worker :=
  match w.client_send_n a with
  | (true, w1) => w1
  | (false, w1) => { w1 with reason := some Reason.write_to_client }

/-- Source `ProxyConnection::operator()` (ProxyConnection.cpp 82-187): the body of the outer
loop from the parsed request on.  `cached` is the result of `page_cache_->get`, `in_time`
the values of the test of the inner loop. -/
def ProxyConnection.handle_request (bl : Blacklist) (cached : Option HTTPResponse)
    (in_time : List Bool) (w : Worker) : Worker :=
  -- check blacklist, URL
  if allowed bl w.request.proxy_uri.host = false then
    w.send_or_break (Action.send_status ResponseCode.Forbidden)
  -- check request type
  else if w.request.method ≠ RequestMethod.GET ∧ w.request.method ≠ RequestMethod.CONNECT then
    w.send_or_break (Action.send_status ResponseCode.BadRequest)
  else if w.request.method = RequestMethod.CONNECT then
    { w with
      trace := w.trace ++ [Action.tunnel w.request]
      reason := some Reason.tunneling_complete }
  else
    -- check cache
    let w1 := { w with trace := w.trace ++ [Action.cache_get w.request.proxy_uri] }
    match cached with
    | some response => w1.send_or_break (Action.send_response response)
    | none =>
      -- forward request to server, send cached response, or send error to client
      match ProxyConnection.forward_loop bl in_time w1 with
      | (true, w2) => w2
      | (false, w2) => w2.send_or_break (Action.send_status ResponseCode.GatewayTimeout)

/-- What the connection and the page cache answer to `Prefetcher::fetch`: the result of
`contains`, the descriptor that `connect` returns with the member `ip` afterwards, the
count that `send_n` returns, and the result of `read_http_response`. -/
structure FetchAnswers where
  contains : Bool
  connect : Int × Str
  send_n : Int
  response : Option HTTPResponse
deriving DecidableEq, Repr

/-- Source `Prefetcher::fetch` (Prefetcher.cpp 35-69): the returned value and the calls
made. -/
def Prefetcher.fetch (env : FetchAnswers) (proxy_uri : ProxyURI) : Bool × List Action :=
  if env.contains then (true, [Action.cache_contains proxy_uri])
  else if env.connect.1 > 0 then
    let uri1 := { proxy_uri with ip := env.connect.2 }
    let request :=
      "GET ".toList ++ uri1.uri ++ " HTTP/1.1\r\nHost: ".toList ++ uri1.host ++ ":".toList ++
        uri1.port ++ "\r\n\r\n".toList
    let calls :=
      [Action.cache_contains proxy_uri, Action.server_connect proxy_uri,
        Action.server_send_text request]
    if env.send_n ≤ 0 then (false, calls)
    else
      match env.response with
      | some opt_response =>
        if opt_response.code = ResponseCode.OK.value then
          (true, calls ++ [Action.server_read uri1, Action.cache_put uri1 opt_response])
        else (false, calls ++ [Action.server_read uri1])
      | none => (false, calls ++ [Action.server_read uri1])
  else (false, [Action.cache_contains proxy_uri, Action.server_connect proxy_uri])

/-! ### Connection.cpp: the content-length body reader and read_http_response -/

/-- How a call ends: it returns a value, an exception leaves it (`std::stoi` and
`std::stoull` throw, and no source file has a handler), or it loops for ever. -/
inductive Exit (α : Type) where
  | value (a : α)
  | throws
  | spins
deriving DecidableEq, Repr

/-- The loop of `Connection::read_http_response_body` (Connection.cpp 275-289); `maxline` is
the value of the macro MAXLINE, `body_len` and `n_src` are `int`.  An iteration whose `::recv`
is not reached because the connection is closed, with `errno` still EAGAIN, changes nothing
and runs `continue`: the loop spins.  Every other iteration consumes an outcome of the script
or returns, so `script.length + 1` iterations are enough. -/
def Connection.read_http_response_body_loop (maxline : Int) :
    Nat → Connection → Str → HTTPResponse → Int → Int →
      Exit (Int × Str × HTTPResponse × Connection)
  | 0, _, _, _, _, _ => Exit.spins
  | fuel + 1, c, buf, response, body_len, n_src =>
    if size_of_int body_len < response.content_length ∧ c.done = false then
      let buf0 := if n_src > 0 then write_at buf 0 (List.replicate n_src.toNat (Char.ofNat 0)) else buf
      if c.connected = false ∧ c.errno_again = true then Exit.spins
      else
        match
          c.recv buf0 0
            (size_of_int (min maxline (int_of_size (response.content_length - size_of_int body_len))))
            false true with
        | (n_src1, buf1, c1) =>
          if n_src1 ≤ 0 then
            if c1.errno_again then
              Connection.read_http_response_body_loop maxline fuel c1 buf1 response body_len n_src1
            else Exit.value (n_src1, buf1, response, c1)
          else
            Connection.read_http_response_body_loop maxline fuel c1 buf1
              (response.append_to_body buf1 (size_of_int n_src1)).2 (body_len + n_src1) n_src1
    else Exit.value (body_len, buf, response, c)

/-- Source `Connection::read_http_response_body` (Connection.cpp 269-291): the returned
`int`, the buffer, the response and the connection afterwards. -/
def Connection.read_http_response_body (maxline : Int) (c : Connection) (buf : Str)
    (response : HTTPResponse) : Exit (Int × Str × HTTPResponse × Connection) :=
  if response.chunked then
    match c.read_http_response_body_chunked buf response with
    | none => Exit.throws
    | some r => Exit.value r
  else
    -- read response.content_length() bytes from connection
    Connection.read_http_response_body_loop maxline (c.script.length + 1) c buf response 0 0

/-- Source `Connection::read_http_response` (Connection.cpp 173-191): the returned pointer
(`none` for `nullptr`), the buffer and the connection afterwards. -/
def Connection.read_http_response (maxline : Int) (c : Connection) (buf : Str)
    (proxy_info : ProxyURI) : Exit (Option HTTPResponse × Str × Connection) :=
  -- read response header
  match c.read_http_header buf with
  | (n_src, buf1, header, c1) =>
    if n_src ≤ 0 then Exit.value (none, buf1, c1)
    else
      -- parse response header
      match HTTPResponse.parse header proxy_info with
      | none => Exit.throws
      | some response =>
        -- read response body
        match c1.read_http_response_body maxline buf1 response with
        | Exit.throws => Exit.throws
        | Exit.spins => Exit.spins
        | Exit.value (n_src1, buf2, response1, c2) =>
          if response1.content_length > 0 ∧ n_src1 ≤ 0 then Exit.value (none, buf2, c2)
          else if response1.content_length > 0 ∧ n_src1 < 0 then Exit.value (none, buf2, c2)
          else Exit.value (some response1, buf2, c2)

/-- A byte with which no number begins that `strtol` or `strtoull` accepts in the given
base: it is no white space, no sign and no digit of the base. -/
def no_number_start (base : Nat) (c : Char) : Bool :=
  !isspace c && c != '-' && c != '+' && !is_digit base c

/-- The pointer that a call of read_http_response returns (`some none` for `nullptr`);
`none` when the call does not return. -/
def returned_response (r : Exit (Option HTTPResponse × Str × Connection)) :
    Option (Option HTTPResponse) :=
  match r with
  | Exit.value (response, _, _) => some response
  | _ => none

/-! ### Prefetcher.cpp: parse_links -/

/-- The member `std::string::find(str, pos)`: the first position at or after `pos` at which
`str` occurs, `none` for `npos` (in particular when `pos` is beyond the end). -/
def find_from (s str : Str) (pos : Nat) : Option Nat :=
  if pos ≤ s.length then (find (s.drop pos) str).map (· + pos) else none

/-- The loop of `Prefetcher::parse_links` (Prefetcher.cpp 79-94) while `Signaler::done` is
false; `cached uri` is the answer of `page_cache_->contains(uri)`.  The first argument bounds
the number of iterations: the result is `none` when they do not finish the loop. -/
def Prefetcher.parse_links_loop (dflt : ProxyURI) (cached : ProxyURI → Bool) (body : Str)
    (base : ProxyURI) : Nat → Nat → List ProxyURI → Option (List ProxyURI)
  | 0, _, _ => none
  | fuel + 1, start, links =>
    match find_from body "href=\"".toList start with
    | none => some links
    | some found =>
      match find_from body ['"'] (found + 6) with
      | some href_end =>
        let link := substr body (found + 6) (href_end - (found + 6))
        let links1 :=
          if find link "https://".toList = none then
            -- don't waste time prefetching HTTPS links
            if cached (parse_uri dflt link base) = false then
              links ++ [parse_uri dflt link base]
            else links
          else links
        Prefetcher.parse_links_loop dflt cached body base fuel (href_end + 1) links1
      | none => Prefetcher.parse_links_loop dflt cached body base fuel (found + 6 + 1) links

/-- Source `Prefetcher::parse_links` (Prefetcher.cpp 71-104) for a constant value `done` of
`Signaler::done`; the loop gets one iteration for every byte of the body and one more. -/
def Prefetcher.parse_links (dflt : ProxyURI) (cached : ProxyURI → Bool) (done : Bool)
    (response : HTTPResponse) : Option (List ProxyURI) :=
  -- only parse HTML pages
  if response.content_type ≠ "text/html".toList then some []
  else if done then some []
  else
    Prefetcher.parse_links_loop dflt cached response.body response.proxy_uri
      (response.body.length + 1) 0 []

/-- The text after the first occurrence of `pat` in a string; `none` when `pat` does not
occur. -/
def after_first (pat : Str) : Str → Option Str
  | [] => if pat.isEmpty then some [] else none
  | c :: cs =>
    if pat.isPrefixOf (c :: cs) then some ((c :: cs).drop pat.length) else after_first pat cs

/-- Whether `pat` occurs in a string. -/
def occurs (pat : Str) : Str → Bool
  | [] => pat.isEmpty
  | c :: cs => pat.isPrefixOf (c :: cs) || occurs pat cs

/-- The href values of a body as the specification describes them, from left to right: the
text between an occurrence of 'href="' and the next '"'; the search for the next occurrence
goes on behind that '"'.  The first argument bounds the number of values. -/
def href_values_upto : Nat → Str → List Str
  | 0, _ => []
  | n + 1, body =>
    match after_first "href=\"".toList body with
    | none => []
    | some rest =>
      if '"' ∈ rest then
        rest.takeWhile (fun c => c != '"') ::
          href_values_upto n ((rest.dropWhile (fun c => c != '"')).drop 1)
      else []

/-- The href values of a body (a body has fewer values than bytes). -/
def href_values (body : Str) : List Str := href_values_upto body.length body

/-- The links that the specification describes for a list of href values: the values with
"https://" are dropped, the others are resolved against the URI of the response, and the
URIs that the page cache holds are dropped. -/
def select_links (dflt : ProxyURI) (cached : ProxyURI → Bool) (base : ProxyURI)
    (values : List Str) : List ProxyURI :=
  ((values.filter (fun link => !occurs "https://".toList link)).map
    (fun link => parse_uri dflt link base)).filter (fun uri => !cached uri)

/-! ### Sample inputs -/

/-- The header block of scenario S2 (a chunked response). -/
def sample_chunked_block : Str := "HTTP/1.1 200 OK\r\nTransfer-Encoding: chunked\r\n\r\n".toList

/-- A header block with a Content-Length of 5. -/
def sample_length_block : Str := "HTTP/1.1 200 OK\r\nContent-Length: 5\r\n\r\n".toList

/-- A header block with both a Content-Length and 'Transfer-Encoding: chunked'. -/
def sample_both_block : Str :=
  "HTTP/1.1 200 OK\r\nContent-Length: 5\r\nTransfer-Encoding: chunked\r\n\r\n".toList

/-- The URI of host x.test, port 80, path "/". -/
def sample_uri : ProxyURI := ⟨"x.test".toList, "80".toList, ['/'], []⟩

/-- A fresh chunked response: what the constructor gives for the header block of scenario
S2. -/
def sample_chunked_response : HTTPResponse :=
  (HTTPResponse.parse sample_chunked_block sample_uri).getD
    ⟨[], 0, [], [], [], 0, true, true, [], sample_uri⟩

/-- The two chunks "hello" and " world" of scenario S2, with their size lines. -/
def sample_chunks : List (Str × Str) := [("5".toList, "hello".toList), ("6".toList, " world".toList)]

/-- A connection on which the chunked stream of scenario S2 is pending and every `::recv`
delivers up to 8 bytes. -/
def sample_connection : Connection :=
  ⟨true, false, false, "5\r\nhello\r\n6\r\n world\r\n0\r\n\r\n".toList,
    List.replicate 12 (RecvEvent.data 8)⟩

/-- A chunk of 4096 bytes with its size line "1000". -/
def big_chunk : Str × Str := ("1000".toList, List.replicate 4096 'a')

/-- A connection on which a chunked stream of `n` chunks of 4096 bytes is pending and every
`::recv` delivers what is asked for (three calls for every chunk and for the last line). -/
def big_connection (n : Nat) : Connection :=
  ⟨true, false, false, chunked_stream (List.replicate n big_chunk),
    (List.replicate n [RecvEvent.data 4098, RecvEvent.data 4098, RecvEvent.data 4098]).flatten ++
      [RecvEvent.data 4098, RecvEvent.data 4098, RecvEvent.data 4098]⟩

/-- A sample address record with the given last byte (family AF_INET, a stream socket, TCP). -/
def sample_addr (n : Nat) : AddrInfo := ⟨2, 1, 6, [0, 80, 10, 0, 0, n]⟩

/-- A connection state before a connect to x.test:80 whose address cache holds a record for
the key; the next two connects fail. -/
def sample_stale_state : ConnectState :=
  ⟨-1, sample_uri, [("x.test:80".toList, sample_addr 1)], [none, none], []⟩

/-- A connection state before a connect to x.test:80 with an address cache that holds another
key only; the first connect fails, the second one succeeds with descriptor 7. -/
def sample_fresh_state : ConnectState :=
  ⟨-1, sample_uri, [("y.test:80".toList, sample_addr 9)], [none, some 7, none], []⟩

/-- The response that the constructor gives for 'HTTP/1.1 200 OK' with a Content-Length
of 5, to which the five body bytes "hello" were appended. -/
def sample_ok_response : HTTPResponse :=
  (((HTTPResponse.parse sample_length_block sample_uri).getD
    ⟨[], 0, [], [], [], 0, false, true, [], sample_uri⟩).append_to_body "hello".toList 5).2

/-- A worker that has parsed the given request: no server connection yet, every send
succeeds, the connect gives the address 10.0.0.1 and the server answers with
`sample_ok_response`. -/
def sample_worker (request : HTTPRequest) : Worker :=
  ⟨request, false, empty_uri, none, [true, true], [some "10.0.0.1".toList], [true],
    [some sample_ok_response], []⟩

/-- A connection state before a connect to x.test:80 whose address cache holds a record for
the key; the connect with that record fails, the next connect succeeds with descriptor 7. -/
def sample_stale_then_good : ConnectState :=
  ⟨-1, sample_uri, [("x.test:80".toList, sample_addr 1)], [none, some 7], []⟩

/-- A zeroed scratch buffer of `n` bytes (the buffers are resized and cleared with `bzero`). -/
def zero_buffer (n : Nat) : Str := List.replicate n (Char.ofNat 0)

/-- A connection on which the response 'HTTP/1.1 abc OK' (no headers) is pending. -/
def sample_bad_status_connection : Connection :=
  ⟨true, false, false, "HTTP/1.1 abc OK\r\n\r\n".toList,
    [RecvEvent.data 1, RecvEvent.data 64, RecvEvent.data 64]⟩

/-- A connection on which the header block of a chunked response is pending, followed by the
chunk-size line "zz". -/
def sample_bad_chunk_connection : Connection :=
  ⟨true, false, false, sample_chunked_block ++ "zz\r\nhello\r\n0\r\n\r\n".toList,
    [RecvEvent.data 1, RecvEvent.data 47, RecvEvent.data 47, RecvEvent.data 64,
      RecvEvent.data 64]⟩

/-- A text/html response for the URI x.test:80/ whose body holds a relative link, an https
link, an absolute link with a port, and a last 'href="' without a closing quote. -/
def sample_html_response : HTTPResponse :=
  { sample_ok_response with
    content_type := "text/html".toList
    body :=
      "<a href=\"next\">n</a><a href=\"https://s.test/\">s</a><a href=\"http://y.test:81/p\">y</a> href=\"open".toList }

/-! ## Part II: theorems -/

/-! ### normalize_field_name -/

theorem toupper_idem (c : Char) : toupper (toupper c) = toupper c := by
  unfold toupper Char.toUpper
  simp only []
  split
  · rename_i h
    have hc : c = Char.ofNat c.toNat := (Char.ofNat_toNat c).symm
    obtain ⟨h1, h2⟩ := h
    generalize c.toNat = n at *
    subst hc
    interval_cases n <;> decide
  · rename_i h; simp [h]

theorem tolower_idem (c : Char) : tolower (tolower c) = tolower c := by
  unfold tolower Char.toLower
  simp only []
  split
  · rename_i h
    have hc : c = Char.ofNat c.toNat := (Char.ofNat_toNat c).symm
    obtain ⟨h1, h2⟩ := h
    generalize c.toNat = n at *
    subst hc
    interval_cases n <;> decide
  · rename_i h; simp [h]

theorem normalize_loop_idem (b : Bool) (s : Str) :
    normalize_loop b (normalize_loop b s) = normalize_loop b s := by
  induction s generalizing b with
  | nil => rfl
  | cons c cs ih =>
    cases b
    · simp only [normalize_loop, Bool.false_eq_true, if_false, tolower_idem, ih]
    · simp only [normalize_loop, if_true, toupper_idem, ih]

/-- C3: normalize_field_name is idempotent, normalize_field_name (normalize_field_name x) =
normalize_field_name x for every string x, and normalize_field_name "content-TYPE" is
"Content-Type". -/
theorem C3_normalize_field_name_idempotent :
    (∀ x : Str, normalize_field_name (normalize_field_name x) = normalize_field_name x) ∧
      normalize_field_name "content-TYPE".toList = "Content-Type".toList :=
  ⟨fun x => normalize_loop_idem true x, by decide⟩

/-! ### std::string::find -/

theorem find_char_not_mem (c : Char) (s : Str) (h : c ∉ s) : find s [c] = none := by
  induction s with
  | nil => simp [find]
  | cons d ds ih =>
    have hd : c ≠ d := fun e => h (by simp [e])
    have hds : c ∉ ds := fun e => h (by simp [e])
    simp [find, List.isPrefixOf, hd, ih hds]

theorem find_char_first (c : Char) (pre rest : Str) (h : c ∉ pre) :
    find (pre ++ c :: rest) [c] = some pre.length := by
  induction pre with
  | nil => simp [find, List.isPrefixOf]
  | cons d ds ih =>
    have hd : c ≠ d := fun e => h (by simp [e])
    have hds : c ∉ ds := fun e => h (by simp [e])
    simp [find, List.isPrefixOf, hd, ih hds]

theorem substr_zero_append (pre rest : Str) : substr (pre ++ rest) 0 pre.length = pre := by
  simp [substr]

/-! ### parse_uri -/

theorem parse_uri_with_port (dflt : ProxyURI) (h p a : Str) (base : ProxyURI)
    (hh : ':' ∉ h ∧ '/' ∉ h ∧ '#' ∉ h) (hp : '/' ∉ p ∧ '#' ∉ p)
    (ha : a.head? = some '/') (ha2 : '#' ∉ a) :
    parse_uri dflt ("http://".toList ++ h ++ ':' :: p ++ a) base = ⟨h, p, a, dflt.ip⟩ := by
  obtain ⟨h1, h2, h3⟩ := hh
  obtain ⟨p2, p3⟩ := hp
  obtain ⟨a', rfl⟩ : ∃ a', a = '/' :: a' := by
    cases a with
    | nil => simp at ha
    | cons c cs => simp at ha; exact ⟨cs, by rw [ha]⟩
  have hsec : find ("http://".toList ++ h ++ ':' :: p ++ '/' :: a') ['#'] = none := by
    apply find_char_not_mem
    have ha3 : '#' ∉ a' := fun e => ha2 (by simp [e])
    simp [String.toList, h3, p3, ha3]
  have hscheme : find ("http://".toList ++ h ++ ':' :: p ++ '/' :: a') [':', '/', '/'] = some 4 := by
    simp [String.toList, find, List.isPrefixOf]
  have hdrop : ("http://".toList ++ h ++ ':' :: p ++ '/' :: a').drop (4 + 3)
      = (h ++ ':' :: p) ++ '/' :: a' := by
    simp [String.toList]
  have hslash : find ((h ++ ':' :: p) ++ '/' :: a') ['/'] = some (h ++ ':' :: p).length := by
    apply find_char_first
    simp [h2, p2]
  have hcolon : find (h ++ ':' :: p) [':'] = some h.length := find_char_first _ _ _ h1
  have hne : ("http://".toList ++ h ++ ':' :: p ++ '/' :: a').isEmpty = false := by
    simp [String.toList]
  unfold parse_uri
  simp only [hne, hsec, hscheme, hdrop, hslash, substr_zero_append, hcolon]
  simp [substr]

theorem parse_uri_without_port (dflt : ProxyURI) (h a : Str) (base : ProxyURI)
    (hh : ':' ∉ h ∧ '/' ∉ h ∧ '#' ∉ h) (ha : a.head? = some '/') (ha2 : '#' ∉ a) :
    parse_uri dflt ("http://".toList ++ h ++ a) base = ⟨h, ['8', '0'], a, dflt.ip⟩ := by
  obtain ⟨h1, h2, h3⟩ := hh
  obtain ⟨a', rfl⟩ : ∃ a', a = '/' :: a' := by
    cases a with
    | nil => simp at ha
    | cons c cs => simp at ha; exact ⟨cs, by rw [ha]⟩
  have hsec : find ("http://".toList ++ h ++ '/' :: a') ['#'] = none := by
    apply find_char_not_mem
    have ha3 : '#' ∉ a' := fun e => ha2 (by simp [e])
    simp [String.toList, h3, ha3]
  have hscheme : find ("http://".toList ++ h ++ '/' :: a') [':', '/', '/'] = some 4 := by
    simp [String.toList, find, List.isPrefixOf]
  have hdrop : ("http://".toList ++ h ++ '/' :: a').drop (4 + 3) = h ++ '/' :: a' := by
    simp [String.toList]
  have hslash : find (h ++ '/' :: a') ['/'] = some h.length := find_char_first _ _ _ h2
  have hcolon : find h [':'] = none := find_char_not_mem _ _ h1
  have hne : ("http://".toList ++ h ++ '/' :: a').isEmpty = false := by
    simp [String.toList]
  unfold parse_uri
  simp only [hne, hsec, hscheme, hdrop, hslash, substr_zero_append, hcolon]
  simp

/-- C4: for every host h and port p containing none of ':', '/', '#' and every path a that
begins with '/' and contains no '#', parse_uri of "http://" + h + ":" + p + a yields host h,
port p and path a, and parse_uri of "http://" + h + a yields host h, port "80" and path a
(for every base URI and every value of a default-constructed ProxyURI). -/
theorem C4_parse_uri_absolute (dflt : ProxyURI) (h p a : Str) (base : ProxyURI)
    (hh : ':' ∉ h ∧ '/' ∉ h ∧ '#' ∉ h) (hp : ':' ∉ p ∧ '/' ∉ p ∧ '#' ∉ p)
    (ha : a.head? = some '/') (ha2 : '#' ∉ a) :
    ((parse_uri dflt ("http://".toList ++ h ++ ':' :: p ++ a) base).host = h ∧
      (parse_uri dflt ("http://".toList ++ h ++ ':' :: p ++ a) base).port = p ∧
      (parse_uri dflt ("http://".toList ++ h ++ ':' :: p ++ a) base).uri = a) ∧
    ((parse_uri dflt ("http://".toList ++ h ++ a) base).host = h ∧
      (parse_uri dflt ("http://".toList ++ h ++ a) base).port = "80".toList ∧
      (parse_uri dflt ("http://".toList ++ h ++ a) base).uri = a) := by
  rw [parse_uri_with_port dflt h p a base hh ⟨hp.2.1, hp.2.2⟩ ha ha2,
    parse_uri_without_port dflt h a base hh ha ha2]
  exact ⟨⟨rfl, rfl, rfl⟩, rfl, rfl, rfl⟩

/-- Witness of C4 at h = "example.org", p = "8080", a = "/a/b.html". -/
theorem C4_parse_uri_absolute_witness :
    ((parse_uri empty_uri "http://example.org:8080/a/b.html".toList empty_uri).host
        = "example.org".toList ∧
      (parse_uri empty_uri "http://example.org:8080/a/b.html".toList empty_uri).port
        = "8080".toList ∧
      (parse_uri empty_uri "http://example.org:8080/a/b.html".toList empty_uri).uri
        = "/a/b.html".toList) ∧
    ((parse_uri empty_uri "http://example.org/a/b.html".toList empty_uri).host
        = "example.org".toList ∧
      (parse_uri empty_uri "http://example.org/a/b.html".toList empty_uri).port = "80".toList ∧
      (parse_uri empty_uri "http://example.org/a/b.html".toList empty_uri).uri
        = "/a/b.html".toList) :=
  C4_parse_uri_absolute empty_uri "example.org".toList "8080".toList "/a/b.html".toList empty_uri
    (by decide) (by decide) (by decide) (by decide)

/-- The reference "/b" against the base with host "h", port "80" and path "/a/", for the two
values of a default-constructed ProxyURI: with an empty path the result is "/a//b", with the
path "/" it is "/b". -/
theorem parse_uri_slash_b_examples :
    (parse_uri empty_uri "/b".toList ⟨"h".toList, "80".toList, "/a/".toList, []⟩).uri
        = "/a//b".toList ∧
      (parse_uri spec_default_uri "/b".toList ⟨"h".toList, "80".toList, "/a/".toList, []⟩).uri
        = "/b".toList := by
  decide

theorem parse_uri_slash_b_path (dflt : ProxyURI) (h ip : Str) :
    (parse_uri dflt "/b".toList ⟨h, "80".toList, "/a/".toList, ip⟩).uri ≠ "/a/b".toList := by
  by_cases hd : at0 dflt.uri = '/' <;>
    simp [parse_uri, String.toList, find, List.isPrefixOf, hd, find_last_of, substr]

/-- The reference "b", without the leading slash, gives the path "/a/b" against the base path
"/a/" when the path of a default-constructed ProxyURI does not begin with '/'. -/
theorem parse_uri_b_path (dflt : ProxyURI) (h ip : Str) (hd : at0 dflt.uri ≠ '/') :
    parse_uri dflt "b".toList ⟨h, "80".toList, "/a/".toList, ip⟩
      = ⟨h, "80".toList, "/a/b".toList, ip⟩ := by
  simp [parse_uri, String.toList, find, List.isPrefixOf, hd, find_last_of, substr]

/-- C5, failing input: parse_uri("/b", base) with base = (host h, port "80", path "/a/"), for
every host h and every value of a default-constructed ProxyURI.  Host and port are those of
the base, but the path is never "/a/b": the relative branch tests the first byte of the path
of the fresh record `uri_info` instead of the first byte of the reference, so with a fresh path
that does not begin with '/' (an empty one) the reference is appended to the base path cut
after its last '/', which gives "/a//b", and with a fresh path "/" the reference is copied,
which gives "/b". -/
theorem C5_relative_reference_path (dflt : ProxyURI) (h ip : Str) :
    (parse_uri dflt "/b".toList ⟨h, "80".toList, "/a/".toList, ip⟩).host = h ∧
      (parse_uri dflt "/b".toList ⟨h, "80".toList, "/a/".toList, ip⟩).port = "80".toList ∧
      (parse_uri dflt "/b".toList ⟨h, "80".toList, "/a/".toList, ip⟩).uri =
        (if at0 dflt.uri = '/' then "/b".toList else "/a//b".toList) ∧
      (parse_uri dflt "/b".toList ⟨h, "80".toList, "/a/".toList, ip⟩).uri ≠ "/a/b".toList ∧
      (parse_uri empty_uri "/b".toList ⟨"h".toList, "80".toList, "/a/".toList, []⟩).uri
        = "/a//b".toList ∧
      (parse_uri spec_default_uri "/b".toList ⟨"h".toList, "80".toList, "/a/".toList, []⟩).uri
        = "/b".toList := by
  refine ⟨?_, ?_, ?_, parse_uri_slash_b_path dflt h ip, by decide, by decide⟩ <;>
    by_cases hd : at0 dflt.uri = '/' <;>
    simp [parse_uri, String.toList, find, List.isPrefixOf, hd, find_last_of, substr]

theorem getlines_line (line rest : Str) (h : '\n' ∉ line) :
    getlines (line ++ '\n' :: rest) = line :: getlines rest := by
  induction line with
  | nil => simp [getlines]
  | cons c cs ih =>
    have hc : c ≠ '\n' := fun e => h (by simp [e])
    have hcs : '\n' ∉ cs := fun e => h (by simp [e])
    simp [getlines, hc, ih hcs]

theorem takeWhile_append_stop (f : Char → Bool) (pre rest : Str) (d : Char)
    (hpre : ∀ c ∈ pre, f c = true) (hd : f d = false) :
    (pre ++ d :: rest).takeWhile f = pre := by
  induction pre with
  | nil => simp [List.takeWhile, hd]
  | cons c cs ih =>
    have hc : f c = true := hpre c (by simp)
    have hcs : ∀ x ∈ cs, f x = true := fun x hx => hpre x (by simp [hx])
    simp [List.takeWhile, hc, ih hcs]

theorem dropWhile_append_stop (f : Char → Bool) (pre rest : Str) (d : Char)
    (hpre : ∀ c ∈ pre, f c = true) (hd : f d = false) :
    (pre ++ d :: rest).dropWhile f = d :: rest := by
  induction pre with
  | nil => simp [List.dropWhile, hd]
  | cons c cs ih =>
    have hc : f c = true := hpre c (by simp)
    have hcs : ∀ x ∈ cs, f x = true := fun x hx => hpre x (by simp [hx])
    simp [List.dropWhile, hc, ih hcs]

theorem parse_uri_host_port (dflt : ProxyURI) (h p : Str) (base : ProxyURI)
    (hh : ':' ∉ h ∧ '/' ∉ h ∧ '#' ∉ h) (hp : '/' ∉ p ∧ '#' ∉ p) :
    parse_uri dflt ("http://".toList ++ h ++ ':' :: p) base = ⟨h, p, ['/'], dflt.ip⟩ := by
  obtain ⟨h1, h2, h3⟩ := hh
  obtain ⟨p2, p3⟩ := hp
  have hsec : find ("http://".toList ++ h ++ ':' :: p) ['#'] = none := by
    apply find_char_not_mem
    simp [String.toList, h3, p3]
  have hscheme : find ("http://".toList ++ h ++ ':' :: p) [':', '/', '/'] = some 4 := by
    simp [String.toList, find, List.isPrefixOf]
  have hdrop : ("http://".toList ++ h ++ ':' :: p).drop (4 + 3) = h ++ ':' :: p := by
    simp [String.toList]
  have hslash : find (h ++ ':' :: p) ['/'] = none := by
    apply find_char_not_mem
    simp [h2, p2]
  have hcolon : find (h ++ ':' :: p) [':'] = some h.length := find_char_first _ _ _ h1
  have hne : ("http://".toList ++ h ++ ':' :: p).isEmpty = false := by
    simp [String.toList]
  unfold parse_uri
  simp only [hne, hsec, hscheme, hdrop, hslash, hcolon]
  simp [substr]

theorem get_header_cons (kv : Str × Str) (rest : Headers) (k : Str) :
    get_header (kv :: rest) k = if kv.1 = k then kv.2 else get_header rest k := by
  by_cases hk : kv.1 = k
  · simp [get_header, List.find?, hk]
  · simp [get_header, List.find?, hk]

theorem contains_cons (kv : Str × Str) (rest : Headers) (k : Str) :
    contains (kv :: rest) k = (decide (kv.1 = k) || contains rest k) := by
  simp [contains]

theorem get_header_map_set (hs : Headers) (k v : Str) (hc : contains hs k = true) :
    get_header (hs.map (fun kv => if kv.1 = k then (kv.1, v) else kv)) k = v := by
  induction hs with
  | nil => simp [contains] at hc
  | cons kv rest ih =>
    rw [List.map_cons, get_header_cons]
    by_cases hk : kv.1 = k
    · simp [hk]
    · rw [contains_cons] at hc
      simp only [hk, decide_False, Bool.false_or] at hc
      simp only [if_false, hk]
      exact ih hc

theorem get_header_append_new (hs : Headers) (k v : Str) (hc : contains hs k = false) :
    get_header (hs ++ [(k, v)]) k = v := by
  induction hs with
  | nil => simp [get_header_cons, get_header]
  | cons kv rest ih =>
    rw [contains_cons] at hc
    have hk : ¬ kv.1 = k := by
      intro e; simp [e] at hc
    simp only [hk, decide_False, Bool.false_or] at hc
    rw [List.cons_append, get_header_cons]
    simp only [hk, if_false]
    exact ih hc

theorem get_set_header (hs : Headers) (k v : Str) : get_header (set_header hs k v) k = v := by
  unfold set_header
  split
  · rename_i hc; exact get_header_map_set hs k v hc
  · rename_i hc; exact get_header_append_new hs k v (by simpa using hc)


theorem read_token_connect (tail : Str) :
    read_token ("CONNECT ".toList ++ tail) = ("CONNECT".toList, ' ' :: tail) := by
  simp [read_token, String.toList, isspace, List.dropWhile, List.takeWhile]

theorem read_token_target (t tail : Str) (ht : ∀ c ∈ t, isspace c = false) (hne : t ≠ []) :
    read_token (' ' :: (t ++ ' ' :: tail)) = (t, ' ' :: tail) := by
  have hsp : isspace ' ' = true := by decide
  cases t with
  | nil => exact absurd rfl hne
  | cons c cs =>
    have hc : isspace c = false := ht c (by simp)
    have h1 : ((c :: cs) ++ ' ' :: tail).takeWhile (fun x => !isspace x) = c :: cs :=
      takeWhile_append_stop _ _ _ _ (fun x hx => by simp [ht x hx]) (by simp [hsp])
    have h2 : ((c :: cs) ++ ' ' :: tail).dropWhile (fun x => !isspace x) = ' ' :: tail :=
      dropWhile_append_stop _ _ _ _ (fun x hx => by simp [ht x hx]) (by simp [hsp])
    have h0 : (' ' :: ((c :: cs) ++ ' ' :: tail)).dropWhile isspace = (c :: cs) ++ ' ' :: tail := by
      simp [List.dropWhile, hsp, hc]
    simp only [read_token, h0, h1, h2]


/-! ### HTTPRequest -/

/-- C6 (the code at the failing input): the origin-form request 'GET / HTTP/1.1' with the
header 'Host: x.test:80' is parsed to URI host "x.test:80" (the whole header value) and URI
port "80", so the connect key is "x.test:80:80" and not "x.test:80"; this holds for the
all-empty default-constructed ProxyURI and for the one with the defaults of the spec. -/
theorem C6_origin_form_host_header :
    ((HTTPRequest.parse empty_uri
          "GET / HTTP/1.1\r\nHost: x.test:80\r\n\r\n".toList).proxy_uri.host
        = "x.test:80".toList ∧
      (HTTPRequest.parse empty_uri
          "GET / HTTP/1.1\r\nHost: x.test:80\r\n\r\n".toList).proxy_uri.port
        = "80".toList ∧
      connect_key
          (HTTPRequest.parse empty_uri
            "GET / HTTP/1.1\r\nHost: x.test:80\r\n\r\n".toList).proxy_uri
        = "x.test:80:80".toList) ∧
    ((HTTPRequest.parse spec_default_uri
          "GET / HTTP/1.1\r\nHost: x.test:80\r\n\r\n".toList).proxy_uri.host
        = "x.test:80".toList ∧
      (HTTPRequest.parse spec_default_uri
          "GET / HTTP/1.1\r\nHost: x.test:80\r\n\r\n".toList).proxy_uri.port
        = "80".toList ∧
      connect_key
          (HTTPRequest.parse spec_default_uri
            "GET / HTTP/1.1\r\nHost: x.test:80\r\n\r\n".toList).proxy_uri
        = "x.test:80:80".toList) := by
  decide

/-- Counterexample to C7 as stated: with h = "example.org" and the empty port p the request line
'CONNECT example.org: HTTP/1.1' is parsed to URI port "80", which is not p. -/
theorem C7_counterexample :
    (HTTPRequest.parse empty_uri "CONNECT example.org: HTTP/1.1\r\n\r\n".toList).proxy_uri.port
        = "80".toList ∧
      (HTTPRequest.parse empty_uri ("CONNECT ".toList ++ "example.org".toList ++ ':' :: [] ++
        " HTTP/1.1\r\n".toList ++ "\r\n".toList)).proxy_uri.port ≠ [] ∧
      (HTTPRequest.parse spec_default_uri ("CONNECT ".toList ++ "example.org".toList ++
        ':' :: [] ++ " HTTP/1.1\r\n".toList ++ "\r\n".toList)).proxy_uri.port ≠ [] := by
  decide

/-- C7 (amended): for every request line 'CONNECT h:p HTTP/1.1' where h and p are not empty and
contain none of ':', '/', '#' or white space, followed by any header text, the parsed
HTTPRequest has method CONNECT, URI host h, URI port p, URI path "/", and its Host header
equals "h:p" (for every value of a default-constructed ProxyURI). -/
theorem C7_connect_request (dflt : ProxyURI) (h p rest : Str)
    (hh : ∀ c ∈ h, c ≠ ':' ∧ c ≠ '/' ∧ c ≠ '#' ∧ isspace c = false)
    (hp : ∀ c ∈ p, c ≠ ':' ∧ c ≠ '/' ∧ c ≠ '#' ∧ isspace c = false)
    (hne : h ≠ []) (pne : p ≠ []) :
    (HTTPRequest.parse dflt
        ("CONNECT ".toList ++ h ++ ':' :: p ++ " HTTP/1.1\r\n".toList ++ rest)).method
        = RequestMethod.CONNECT ∧
      (HTTPRequest.parse dflt
        ("CONNECT ".toList ++ h ++ ':' :: p ++ " HTTP/1.1\r\n".toList ++ rest)).proxy_uri.host
        = h ∧
      (HTTPRequest.parse dflt
        ("CONNECT ".toList ++ h ++ ':' :: p ++ " HTTP/1.1\r\n".toList ++ rest)).proxy_uri.port
        = p ∧
      (HTTPRequest.parse dflt
        ("CONNECT ".toList ++ h ++ ':' :: p ++ " HTTP/1.1\r\n".toList ++ rest)).proxy_uri.uri
        = ['/'] ∧
      get_header
        (HTTPRequest.parse dflt
          ("CONNECT ".toList ++ h ++ ':' :: p ++ " HTTP/1.1\r\n".toList ++ rest)).headers
        "Host".toList = h ++ ':' :: p := by
  have hmsg : "CONNECT ".toList ++ h ++ ':' :: p ++ " HTTP/1.1\r\n".toList ++ rest
      = ("CONNECT ".toList ++ ((h ++ ':' :: p) ++ ' ' :: "HTTP/1.1\r".toList)) ++ '\n' :: rest := by
    simp [String.toList]
  have hnl : '\n' ∉ "CONNECT ".toList ++ ((h ++ ':' :: p) ++ ' ' :: "HTTP/1.1\r".toList) := by
    have h1 : '\n' ∉ h := fun e => by have := (hh _ e).2.2.2; simp [isspace] at this
    have h2 : '\n' ∉ p := fun e => by have := (hp _ e).2.2.2; simp [isspace] at this
    simp [String.toList, h1, h2]
  have htok : ∀ c ∈ h ++ ':' :: p, isspace c = false := by
    intro c hc
    rcases List.mem_append.1 hc with hc | hc
    · exact (hh c hc).2.2.2
    · rcases List.mem_cons.1 hc with hc | hc
      · subst hc; decide
      · exact (hp c hc).2.2.2
  have huri : parse_uri dflt ("http://".toList ++ (h ++ ':' :: p)) dflt
      = ⟨h, p, ['/'], dflt.ip⟩ := by
    have := parse_uri_host_port dflt h p dflt
      ⟨fun e => (hh _ e).1 rfl, fun e => (hh _ e).2.1 rfl, fun e => (hh _ e).2.2.1 rfl⟩
      ⟨fun e => (hp _ e).2.1 rfl, fun e => (hp _ e).2.2.1 rfl⟩
    simpa using this
  have hm : parse_method "CONNECT".toList = RequestMethod.CONNECT := by decide
  have hhe : h.isEmpty = false := by cases h <;> simp at hne ⊢
  have hpe : p.isEmpty = false := by cases p <;> simp at pne ⊢
  rw [hmsg]
  unfold HTTPRequest.parse
  simp only [getlines_line _ _ hnl, List.headD, read_token_connect,
    read_token_target _ _ htok (by simp), hm, if_true, huri]
  simp [hhe, hpe, get_set_header]

/-- Witness of C7 at h = "x.test", p = "443" and an empty header block. -/
theorem C7_connect_request_witness :
    (HTTPRequest.parse empty_uri ("CONNECT ".toList ++ "x.test".toList ++ ':' :: "443".toList ++
        " HTTP/1.1\r\n".toList ++ "\r\n".toList)).method = RequestMethod.CONNECT ∧
      (HTTPRequest.parse empty_uri ("CONNECT ".toList ++ "x.test".toList ++ ':' :: "443".toList ++
        " HTTP/1.1\r\n".toList ++ "\r\n".toList)).proxy_uri.host = "x.test".toList ∧
      (HTTPRequest.parse empty_uri ("CONNECT ".toList ++ "x.test".toList ++ ':' :: "443".toList ++
        " HTTP/1.1\r\n".toList ++ "\r\n".toList)).proxy_uri.port = "443".toList ∧
      (HTTPRequest.parse empty_uri ("CONNECT ".toList ++ "x.test".toList ++ ':' :: "443".toList ++
        " HTTP/1.1\r\n".toList ++ "\r\n".toList)).proxy_uri.uri = ['/'] ∧
      get_header
        (HTTPRequest.parse empty_uri ("CONNECT ".toList ++ "x.test".toList ++
          ':' :: "443".toList ++ " HTTP/1.1\r\n".toList ++ "\r\n".toList)).headers
        "Host".toList = "x.test".toList ++ ':' :: "443".toList :=
  C7_connect_request empty_uri "x.test".toList "443".toList "\r\n".toList (by decide) (by decide)
    (by decide) (by decide)

/-! ### The header map -/

theorem contains_append_single (hs : Headers) (k v k' : Str) :
    contains (hs ++ [(k, v)]) k' = (contains hs k' || decide (k = k')) := by
  simp [contains]

theorem contains_map_set (hs : Headers) (k v k' : Str) :
    contains (hs.map (fun kv => if kv.1 = k then (kv.1, v) else kv)) k' = contains hs k' := by
  induction hs with
  | nil => rfl
  | cons kv rest ih =>
    rw [List.map_cons, contains_cons, contains_cons, ih]
    by_cases hk : kv.1 = k <;> simp [hk]

theorem contains_set_header (hs : Headers) (k v k' : Str) :
    contains (set_header hs k v) k' = (contains hs k' || decide (k = k')) := by
  unfold set_header
  split
  · rename_i hc
    rw [contains_map_set]
    by_cases hk : k = k'
    · subst hk; simp [hc]
    · simp [hk]
  · exact contains_append_single hs k v k'

theorem get_header_map_ne (hs : Headers) (k v k' : Str) (hne : k ≠ k') :
    get_header (hs.map (fun kv => if kv.1 = k then (kv.1, v) else kv)) k' = get_header hs k' := by
  induction hs with
  | nil => rfl
  | cons kv rest ih =>
    rw [List.map_cons, get_header_cons, get_header_cons, ih]
    by_cases hk : kv.1 = k
    · have : ¬ kv.1 = k' := fun e => hne (hk.symm.trans e)
      have hk' : ¬ k = k' := hne
      simp [hk, this, hk']
    · simp [hk]

theorem get_header_append_ne (hs : Headers) (k v k' : Str) (hne : k ≠ k') :
    get_header (hs ++ [(k, v)]) k' = get_header hs k' := by
  induction hs with
  | nil => simp [get_header_cons, hne, get_header]
  | cons kv rest ih =>
    rw [List.cons_append, get_header_cons, get_header_cons, ih]

theorem get_header_set_header_ne (hs : Headers) (k v k' : Str) (hne : k ≠ k') :
    get_header (set_header hs k v) k' = get_header hs k' := by
  unfold set_header
  split
  · exact get_header_map_ne hs k v k' hne
  · exact get_header_append_ne hs k v k' hne

theorem contains_of_get_header_ne_nil (hs : Headers) (k : Str) (h : get_header hs k ≠ []) :
    contains hs k = true := by
  induction hs with
  | nil => simp [get_header] at h
  | cons kv rest ih =>
    rw [get_header_cons] at h
    rw [contains_cons]
    by_cases hk : kv.1 = k
    · simp [hk]
    · simp only [hk, if_false] at h
      simp [ih h]

theorem contains_default_headers (version : Str) (uri : ProxyURI) (hs : Headers) (k : Str)
    (h1 : "Proxy-Connection".toList ≠ k) (h2 : "Connection".toList ≠ k)
    (h3 : "Host".toList ≠ k) :
    contains (HTTPResponse.default_headers version uri hs) k = contains hs k := by
  unfold HTTPResponse.default_headers
  simp only [contains_set_header, h3, decide_False, Bool.or_false]
  split_ifs <;> simp only [contains_set_header, h1, h2, decide_False, Bool.or_false]

theorem get_header_default_headers (version : Str) (uri : ProxyURI) (hs : Headers) (k : Str)
    (h1 : "Proxy-Connection".toList ≠ k) (h2 : "Connection".toList ≠ k)
    (h3 : "Host".toList ≠ k) :
    get_header (HTTPResponse.default_headers version uri hs) k = get_header hs k := by
  unfold HTTPResponse.default_headers
  simp only [get_header_set_header_ne _ _ _ _ h3]
  split_ifs <;>
    simp only [get_header_set_header_ne _ _ _ _ h1, get_header_set_header_ne _ _ _ _ h2]

/-- C8 (amended): for every response header block that the constructor parses, chunked is true
if and only if the header map read from the block has no Content-Length entry and its
Transfer-Encoding entry has the value 'chunked' (Content-Length takes precedence). -/
theorem C8_chunked_iff (hdrs : Str) (uri : ProxyURI) (r : HTTPResponse)
    (h : HTTPResponse.parse hdrs uri = some r) :
    r.chunked = true ↔
      (contains (block_headers hdrs) "Content-Length".toList = false ∧
        get_header (block_headers hdrs) "Transfer-Encoding".toList = "chunked".toList) := by
  have hcl := contains_default_headers (read_token ((getlines hdrs).headD [])).1 uri
    (block_headers hdrs) "Content-Length".toList (by decide) (by decide) (by decide)
  have hte := contains_default_headers (read_token ((getlines hdrs).headD [])).1 uri
    (block_headers hdrs) "Transfer-Encoding".toList (by decide) (by decide) (by decide)
  have hg := get_header_default_headers (read_token ((getlines hdrs).headD [])).1 uri
    (block_headers hdrs) "Transfer-Encoding".toList (by decide) (by decide) (by decide)
  unfold HTTPResponse.parse at h
  simp only [hcl, hte, hg] at h
  split at h
  · exact absurd h (by simp)
  · split at h
    · rename_i hc
      split at h
      · exact absurd h (by simp)
      · simp only [Option.some.injEq] at h
        subst h
        constructor
        · intro hx; exact absurd hx (by simp)
        · intro hx; rw [hc] at hx; exact absurd hx.1 (by simp)
    · rename_i hc
      simp only [Option.some.injEq] at h
      subst h
      have hc' : contains (block_headers hdrs) "Content-Length".toList = false := by
        simpa using hc
      simp only [hc', true_and, decide_eq_true_eq]
      constructor
      · exact fun h => h.2
      · intro hv
        refine ⟨contains_of_get_header_ne_nil _ _ ?_, hv⟩
        rw [hv]; decide


/-! ### Bytes that parsing never introduces -/

theorem case_map_ne (c x : Char)
    (hx : ¬ (65 ≤ x.toNat ∧ x.toNat ≤ 90) ∧ ¬ (97 ≤ x.toNat ∧ x.toNat ≤ 122)) (hc : c ≠ x) :
    toupper c ≠ x ∧ tolower c ≠ x := by
  constructor
  · unfold toupper Char.toUpper
    simp only []
    split
    · rename_i h
      have hcn : c = Char.ofNat c.toNat := (Char.ofNat_toNat c).symm
      obtain ⟨h1, h2⟩ := h
      generalize c.toNat = n at *
      clear hcn hc
      interval_cases n <;> (intro e; rw [← e] at hx; revert hx; decide)
    · exact hc
  · unfold tolower Char.toLower
    simp only []
    split
    · rename_i h
      obtain ⟨h1, h2⟩ := h
      generalize c.toNat = n at *
      clear hc
      interval_cases n <;> (intro e; rw [← e] at hx; revert hx; decide)
    · exact hc

theorem not_mem_normalize_loop (x : Char)
    (hx : ¬ (65 ≤ x.toNat ∧ x.toNat ≤ 90) ∧ ¬ (97 ≤ x.toNat ∧ x.toNat ≤ 122))
    (b : Bool) (s : Str) (h : x ∉ s) : x ∉ normalize_loop b s := by
  induction s generalizing b with
  | nil => simp [normalize_loop]
  | cons c cs ih =>
    have hc : c ≠ x := fun e => h (by simp [e])
    have hcs : x ∉ cs := fun e => h (by simp [e])
    have h1 := (case_map_ne c x hx hc).1
    have h2 := (case_map_ne c x hx hc).2
    simp only [normalize_loop, List.mem_cons, not_or]
    refine ⟨?_, ih _ hcs⟩
    cases b
    · simpa using fun e => h2 e.symm
    · simpa using fun e => h1 e.symm

theorem getlines_no_newline (s : Str) : ∀ l ∈ getlines s, '\n' ∉ l := by
  induction s with
  | nil => simp [getlines]
  | cons c cs ih =>
    unfold getlines
    split
    · intro l hl
      rcases List.mem_cons.1 hl with hl | hl
      · subst hl; simp
      · exact ih l hl
    · rename_i hc
      split
      · intro l hl
        simp only [List.mem_singleton] at hl
        subst hl
        simpa using fun e => hc e.symm
      · rename_i l0 ls heq
        intro l hl
        rcases List.mem_cons.1 hl with hl | hl
        · subst hl
          have := ih l0 (by rw [heq]; simp)
          simp only [List.mem_cons, not_or]
          exact ⟨fun e => hc e.symm, this⟩
        · exact ih l (by rw [heq]; simp [hl])

theorem not_mem_substr (x : Char) (s : Str) (pos len : Nat) (h : x ∉ s) :
    x ∉ substr s pos len :=
  fun e => h (List.mem_of_mem_drop (List.mem_of_mem_take e))

theorem not_mem_strip (x : Char) (s chars : Str) (h : x ∉ s) : x ∉ strip s chars := by
  unfold strip
  split
  · split
    · simp
    · exact not_mem_substr x s _ _ h
  · simp

theorem not_mem_split_fst (x delim : Char) (s : Str) (h : x ∉ s) :
    x ∉ (split_at_delim delim s).1 :=
  fun e => h (( List.takeWhile_prefix _).subset e)

theorem not_mem_split_snd (x delim : Char) (s : Str) (h : x ∉ s) :
    x ∉ (split_at_delim delim s).2 :=
  fun e => h ((List.dropWhile_suffix _).subset (List.mem_of_mem_drop e))

theorem delim_not_mem_split_fst (delim : Char) (s : Str) :
    delim ∉ (split_at_delim delim s).1 := by
  intro e
  have := List.mem_takeWhile_imp e
  simp at this

theorem not_mem_read_token_fst (x : Char) (s : Str) (h : x ∉ s) : x ∉ (read_token s).1 :=
  fun e => h ((List.dropWhile_suffix _).subset (( List.takeWhile_prefix _).subset e))

theorem not_mem_read_token_snd (x : Char) (s : Str) (h : x ∉ s) : x ∉ (read_token s).2 :=
  fun e => h ((List.dropWhile_suffix _).subset ((List.dropWhile_suffix _).subset e))

theorem digitChar_lt_ten (d : Nat) (h : d < 10) : (Nat.digitChar d).isDigit = true := by
  interval_cases d <;> decide

theorem toDigitsCore_digits (fuel n : Nat) (acc : List Char)
    (hacc : ∀ c ∈ acc, c.isDigit = true) :
    ∀ c ∈ Nat.toDigitsCore 10 fuel n acc, c.isDigit = true := by
  induction fuel generalizing n acc with
  | zero => simpa [Nat.toDigitsCore] using hacc
  | succ f ih =>
    have hd : (Nat.digitChar (n % 10)).isDigit = true :=
      digitChar_lt_ten _ (Nat.mod_lt _ (by decide))
    have hacc' : ∀ c ∈ Nat.digitChar (n % 10) :: acc, c.isDigit = true := by
      intro c hc
      rcases List.mem_cons.1 hc with hc | hc
      · rw [hc]; exact hd
      · exact hacc c hc
    unfold Nat.toDigitsCore
    simp only []
    split
    · exact hacc'
    · exact ih _ _ hacc'

theorem to_string_nat_digits (n : Nat) : ∀ c ∈ to_string_nat n, c.isDigit = true :=
  toDigitsCore_digits _ _ _ (by simp)

theorem newline_not_mem_to_string_int (i : Int) : '\n' ∉ to_string_int i := by
  have hd : ∀ n, '\n' ∉ Nat.toDigits 10 n := fun n e => by
    have := to_string_nat_digits n _ e
    revert this; decide
  unfold to_string_int
  split
  · simp only [List.mem_cons, not_or]
    exact ⟨by decide, hd _⟩
  · exact hd _


/-! ### Well-formed header maps: no ':' in a key, no line feed in a key or a value -/

theorem set_header_wf (hs : Headers) (k v : Str)
    (hhs : ∀ kv ∈ hs, ':' ∉ kv.1 ∧ '\n' ∉ kv.1 ∧ '\n' ∉ kv.2)
    (hk : ':' ∉ k ∧ '\n' ∉ k) (hv : '\n' ∉ v) :
    ∀ kv ∈ set_header hs k v, ':' ∉ kv.1 ∧ '\n' ∉ kv.1 ∧ '\n' ∉ kv.2 := by
  unfold set_header
  split
  · intro kv hkv
    obtain ⟨kv0, h0, rfl⟩ := List.mem_map.1 hkv
    split
    · exact ⟨(hhs kv0 h0).1, (hhs kv0 h0).2.1, hv⟩
    · exact hhs kv0 h0
  · intro kv hkv
    rcases List.mem_append.1 hkv with h0 | h0
    · exact hhs kv h0
    · simp only [List.mem_singleton] at h0
      subst h0
      exact ⟨hk.1, hk.2, hv⟩

theorem read_headers_wf (lines : List Str) (hs : Headers)
    (hlines : ∀ l ∈ lines, '\n' ∉ l)
    (hhs : ∀ kv ∈ hs, ':' ∉ kv.1 ∧ '\n' ∉ kv.1 ∧ '\n' ∉ kv.2) :
    ∀ kv ∈ read_headers lines hs, ':' ∉ kv.1 ∧ '\n' ∉ kv.1 ∧ '\n' ∉ kv.2 := by
  induction lines generalizing hs with
  | nil => exact hhs
  | cons line rest ih =>
    have hl : '\n' ∉ line := hlines line (by simp)
    unfold read_headers
    split
    · exact hhs
    · apply ih _ (fun l h => hlines l (by simp [h]))
      apply set_header_wf _ _ _ hhs
      · exact ⟨not_mem_normalize_loop ':' (by decide) _ _ (delim_not_mem_split_fst ':' line),
          not_mem_normalize_loop '\n' (by decide) _ _ (not_mem_split_fst '\n' ':' line hl)⟩
      · exact not_mem_strip _ _ _ (not_mem_split_snd '\n' ':' line hl)

theorem block_headers_wf (message : Str) :
    ∀ kv ∈ block_headers message, ':' ∉ kv.1 ∧ '\n' ∉ kv.1 ∧ '\n' ∉ kv.2 := by
  apply read_headers_wf
  · intro l hl
    exact getlines_no_newline message l (List.mem_of_mem_tail hl)
  · simp

theorem default_headers_wf (version : Str) (uri : ProxyURI) (hs : Headers)
    (huri : '\n' ∉ uri.host ∧ '\n' ∉ uri.port)
    (hhs : ∀ kv ∈ hs, ':' ∉ kv.1 ∧ '\n' ∉ kv.1 ∧ '\n' ∉ kv.2) :
    ∀ kv ∈ HTTPResponse.default_headers version uri hs,
      ':' ∉ kv.1 ∧ '\n' ∉ kv.1 ∧ '\n' ∉ kv.2 := by
  have hhost : '\n' ∉ uri.host ++ ':' :: (if uri.port.isEmpty then ['8', '0'] else uri.port) := by
    simp only [List.mem_append, List.mem_cons, not_or]
    refine ⟨huri.1, by decide, ?_⟩
    split
    · decide
    · exact huri.2
  have h1 : ∀ kv ∈ (if (!contains hs "Proxy-Connection".toList) = true then
      set_header hs "Proxy-Connection".toList "keep-alive".toList else hs),
      ':' ∉ kv.1 ∧ '\n' ∉ kv.1 ∧ '\n' ∉ kv.2 := by
    split
    · exact set_header_wf _ _ _ hhs (by decide) (by decide)
    · exact hhs
  unfold HTTPResponse.default_headers
  simp only []
  generalize (if (!contains hs "Proxy-Connection".toList) = true then
      set_header hs "Proxy-Connection".toList "keep-alive".toList else hs) = hs1 at h1 ⊢
  apply set_header_wf _ _ _ _ (by decide) hhost
  split
  · exact set_header_wf _ _ _ h1 (by decide) (by decide)
  · split
    · exact set_header_wf _ _ _ h1 (by decide) (by decide)
    · exact h1

theorem contains_erase_header (hs : Headers) (k : Str) :
    contains (erase_header hs k) k = false := by
  simp [contains, erase_header]

theorem mem_erase_header (hs : Headers) (k : Str) (kv : Str × Str)
    (h : kv ∈ erase_header hs k) : kv ∈ hs :=
  List.mem_of_mem_filter h


/-! ### HTTPResponse: the constructor, append_to_body and dump -/

theorem headD_getlines_no_newline (s : Str) : '\n' ∉ (getlines s).headD [] := by
  cases h : getlines s with
  | nil => simp
  | cons l ls => exact getlines_no_newline s l (by rw [h]; simp)

theorem parse_spec (hdrs : Str) (uri : ProxyURI) (r : HTTPResponse)
    (h : HTTPResponse.parse hdrs uri = some r) (huri : '\n' ∉ uri.host ∧ '\n' ∉ uri.port) :
    r.body = [] ∧ r.has_content_length = true ∧ '\n' ∉ r.version ∧ '\n' ∉ r.msg ∧
      (∀ kv ∈ r.headers, ':' ∉ kv.1 ∧ '\n' ∉ kv.1 ∧ '\n' ∉ kv.2) ∧
      contains r.headers "Content-Length".toList = false := by
  have hline := headD_getlines_no_newline hdrs
  have hv : '\n' ∉ (read_token ((getlines hdrs).headD [])).1 := not_mem_read_token_fst _ _ hline
  have hm : '\n' ∉ strip (read_token (read_token ((getlines hdrs).headD [])).2).2 [' ', '\r'] :=
    not_mem_strip _ _ _ (not_mem_read_token_snd _ _ (not_mem_read_token_snd _ _ hline))
  have hwf := default_headers_wf (read_token ((getlines hdrs).headD [])).1 uri
    (block_headers hdrs) huri (block_headers_wf hdrs)
  unfold HTTPResponse.parse at h
  simp only [] at h
  split at h
  · exact absurd h (by simp)
  · split at h
    · split at h
      · exact absurd h (by simp)
      · simp only [Option.some.injEq] at h
        subst h
        exact ⟨rfl, rfl, hv, hm, fun kv hkv => hwf kv (mem_erase_header _ _ _ hkv),
          contains_erase_header _ _⟩
    · rename_i hc
      simp only [Option.some.injEq] at h
      subst h
      exact ⟨rfl, rfl, hv, hm, hwf, by simpa using hc⟩

theorem parse_fresh (hdrs : Str) (uri : ProxyURI) (r : HTTPResponse)
    (h : HTTPResponse.parse hdrs uri = some r) :
    r.body = [] ∧ (r.chunked = true → r.content_length = 0) := by
  unfold HTTPResponse.parse at h
  simp only [] at h
  split at h
  · exact absurd h (by simp)
  · split at h
    · split at h
      · exact absurd h (by simp)
      · simp only [Option.some.injEq] at h
        subst h
        exact ⟨rfl, fun e => absurd e (by simp)⟩
    · simp only [Option.some.injEq] at h
      subst h
      exact ⟨rfl, fun _ => rfl⟩

theorem append_to_body_fields (r : HTTPResponse) (data : Str) (size : Nat) :
    (r.append_to_body data size).2.version = r.version ∧
      (r.append_to_body data size).2.code = r.code ∧
      (r.append_to_body data size).2.msg = r.msg ∧
      (r.append_to_body data size).2.headers = r.headers ∧
      (r.append_to_body data size).2.has_content_length = r.has_content_length ∧
      (r.append_to_body data size).2.chunked = r.chunked := by
  unfold HTTPResponse.append_to_body
  split <;> simp

theorem append_to_body_chunked (r : HTTPResponse) (data : Str) (size : Nat)
    (hch : r.chunked = true) (hsize : size ≤ data.length) :
    r.append_to_body data size =
      (true, { r with body := r.body ++ data.take size,
                      content_length := r.content_length + size }) ∧
      (data.take size).length = size := by
  unfold HTTPResponse.append_to_body
  simp [hch, hsize]

theorem append_to_body_plain (r : HTTPResponse) (data : Str) (size : Nat)
    (hch : r.chunked = false) :
    (r.content_length < r.body.length + size → r.append_to_body data size = (false, r)) ∧
      (r.body.length + size ≤ r.content_length →
        r.append_to_body data size = (true, { r with body := r.body ++ data.take size })) := by
  unfold HTTPResponse.append_to_body
  constructor
  · intro h; simp [hch, h]
  · intro h
    have : ¬ (r.content_length < r.body.length + size) := by omega
    simp [hch, this]

theorem append_all_fields (r : HTTPResponse) (calls : List (Str × Nat)) :
    (r.append_all calls).version = r.version ∧ (r.append_all calls).code = r.code ∧
      (r.append_all calls).msg = r.msg ∧ (r.append_all calls).headers = r.headers ∧
      (r.append_all calls).has_content_length = r.has_content_length ∧
      (r.append_all calls).chunked = r.chunked := by
  induction calls generalizing r with
  | nil => simp [HTTPResponse.append_all]
  | cons c cs ih =>
    obtain ⟨data, size⟩ := c
    have h1 := append_to_body_fields r data size
    have h2 := ih (r.append_to_body data size).2
    simp only [HTTPResponse.append_all]
    exact ⟨h2.1.trans h1.1, h2.2.1.trans h1.2.1, h2.2.2.1.trans h1.2.2.1,
      h2.2.2.2.1.trans h1.2.2.2.1, h2.2.2.2.2.1.trans h1.2.2.2.2.1,
      h2.2.2.2.2.2.trans h1.2.2.2.2.2⟩

theorem append_all_chunked_length (r : HTTPResponse) (calls : List (Str × Nat))
    (hch : r.chunked = true) (hinv : r.content_length = r.body.length)
    (hcalls : ∀ c ∈ calls, c.2 ≤ c.1.length) :
    (r.append_all calls).content_length = (r.append_all calls).body.length := by
  induction calls generalizing r with
  | nil => simpa [HTTPResponse.append_all] using hinv
  | cons c cs ih =>
    obtain ⟨data, size⟩ := c
    have hs : size ≤ data.length := hcalls (data, size) (by simp)
    have h1 := append_to_body_chunked r data size hch hs
    simp only [HTTPResponse.append_all]
    apply ih
    · rw [h1.1]; exact hch
    · rw [h1.1]; simp [hinv, h1.2]
    · exact fun c hc => hcalls c (by simp [hc])

theorem append_all_plain_bound (r : HTTPResponse) (calls : List (Str × Nat))
    (hch : r.chunked = false) (hinv : r.body.length ≤ r.content_length) :
    (r.append_all calls).body.length ≤ (r.append_all calls).content_length ∧
      (r.append_all calls).content_length = r.content_length := by
  induction calls generalizing r with
  | nil => simpa [HTTPResponse.append_all] using hinv
  | cons c cs ih =>
    obtain ⟨data, size⟩ := c
    simp only [HTTPResponse.append_all]
    by_cases h : r.content_length < r.body.length + size
    · rw [(append_to_body_plain r data size hch).1 h]
      exact ih r hch hinv
    · have h' : r.body.length + size ≤ r.content_length := by omega
      rw [(append_to_body_plain r data size hch).2 h']
      have := ih { r with body := r.body ++ data.take size } hch
        (by simp only [List.length_append, List.length_take]; omega)
      exact this


theorem key_of_line (k v pre rest : Str) (hk : ':' ∉ k) (hpre : ':' ∉ pre)
    (h : k ++ ':' :: v = pre ++ ':' :: rest) : k = pre ∧ v = rest := by
  induction k generalizing pre with
  | nil =>
    cases pre with
    | nil => simpa using h
    | cons p ps =>
      simp only [List.nil_append, List.cons_append, List.cons.injEq] at h
      exact absurd h.1 (fun e => hpre (by rw [e]; simp))
  | cons c cs ih =>
    cases pre with
    | nil =>
      simp only [List.nil_append, List.cons_append, List.cons.injEq] at h
      exact absurd h.1 (fun e => hk (by rw [← e]; simp))
    | cons p ps =>
      simp only [List.cons_append, List.cons.injEq] at h
      have := ih ps (fun e => hk (by simp [e])) (fun e => hpre (by simp [e])) h.2
      exact ⟨by rw [h.1, this.1], this.2⟩

theorem header_line_not_content_length (kv : Str × Str) (hk : ':' ∉ kv.1)
    (hne : kv.1 ≠ "Content-Length".toList) :
    "Content-Length:".toList.isPrefixOf (kv.1 ++ ':' :: ' ' :: kv.2) = false := by
  cases hp : "Content-Length:".toList.isPrefixOf (kv.1 ++ ':' :: ' ' :: kv.2) with
  | false => rfl
  | true =>
    obtain ⟨t, ht⟩ := List.isPrefixOf_iff_prefix.1 hp
    have h1 : kv.1 ++ ':' :: (' ' :: kv.2) = "Content-Length".toList ++ ':' :: t := by
      rw [← ht]; simp [String.toList]
    exact absurd (key_of_line _ _ _ _ hk (by decide) h1).1 hne

theorem not_contains_imp_ne (hs : Headers) (k : Str) (h : contains hs k = false) :
    ∀ kv ∈ hs, kv.1 ≠ k := by
  intro kv hkv e
  have : contains hs k = true := by
    simp only [contains, List.any_eq_true, decide_eq_true_eq]
    exact ⟨kv, hkv, e⟩
  rw [h] at this
  exact absurd this (by simp)

theorem dump_header_lines_spec (r : HTTPResponse)
    (hwf : ∀ kv ∈ r.headers, ':' ∉ kv.1 ∧ '\n' ∉ kv.1 ∧ '\n' ∉ kv.2)
    (hcl : contains r.headers "Content-Length".toList = false)
    (hhas : r.has_content_length = true) :
    (∀ l ∈ r.dump_header_lines, l ≠ [] ∧ '\n' ∉ l) ∧
      r.dump_header_lines.filter (fun l => "Content-Length:".toList.isPrefixOf l)
        = ["Content-Length: ".toList ++ to_string_nat r.content_length] ∧
      "Transfer-Encoding: chunked".toList ∉ r.dump_header_lines := by
  have hne := not_contains_imp_ne _ _ hcl
  have hnum : '\n' ∉ to_string_nat r.content_length := fun e => by
    have := to_string_nat_digits _ _ e
    revert this; decide
  unfold HTTPResponse.dump_header_lines
  simp only [hhas, if_true]
  refine ⟨?_, ?_, ?_⟩
  · intro l hl
    rcases List.mem_append.1 hl with hl | hl
    · obtain ⟨kv, hkv, rfl⟩ := List.mem_map.1 hl
      have hkv' := hwf kv (List.mem_of_mem_filter hkv)
      refine ⟨by simp, ?_⟩
      simp only [List.mem_append, List.mem_cons, not_or]
      exact ⟨hkv'.2.1, by decide, by decide, hkv'.2.2⟩
    · simp only [List.mem_singleton] at hl
      subst hl
      refine ⟨by simp [String.toList], ?_⟩
      simp only [List.mem_append, not_or]
      exact ⟨by decide, hnum⟩
  · rw [List.filter_append]
    have h1 : List.filter (fun l => "Content-Length:".toList.isPrefixOf l)
        ((r.headers.filter (fun kv => !(decide (kv.1 = "Transfer-Encoding".toList) &&
          decide (kv.2 = "chunked".toList)))).map (fun kv => kv.1 ++ ':' :: ' ' :: kv.2)) = [] := by
      rw [List.filter_eq_nil_iff]
      intro l hl
      obtain ⟨kv, hkv, rfl⟩ := List.mem_map.1 hl
      have hkv' := List.mem_of_mem_filter hkv
      rw [header_line_not_content_length kv (hwf kv hkv').1 (hne kv hkv')]
      simp
    have h2 : List.filter (fun l => "Content-Length:".toList.isPrefixOf l)
        ["Content-Length: ".toList ++ to_string_nat r.content_length]
        = ["Content-Length: ".toList ++ to_string_nat r.content_length] := by
      simp [String.toList, List.isPrefixOf]
    rw [h1, h2, List.nil_append]
  · intro hmem
    rcases List.mem_append.1 hmem with hl | hl
    · obtain ⟨kv, hkv, he⟩ := List.mem_map.1 hl
      have hkv' := List.mem_of_mem_filter hkv
      have hp := (List.mem_filter.1 hkv).2
      have h1 : kv.1 ++ ':' :: (' ' :: kv.2)
          = "Transfer-Encoding".toList ++ ':' :: (' ' :: "chunked".toList) := by
        rw [he]; simp [String.toList]
      have h2 := key_of_line _ _ _ _ (hwf kv hkv').1 (by decide) h1
      have h3 : kv.2 = "chunked".toList := by simpa using h2.2
      simp [h2.1, h3] at hp
    · simp only [List.mem_singleton] at hl
      simp [String.toList] at hl


/-- Counterexample to C8 as stated: a block with 'Content-Length: 5' and 'Transfer-Encoding:
chunked' is parsed to a response that is not chunked, although the block holds a
Transfer-Encoding header whose value is 'chunked'. -/
theorem C8_counterexample :
    (HTTPResponse.parse sample_both_block sample_uri).map (fun r => r.chunked) = some false ∧
      get_header (block_headers sample_both_block) "Transfer-Encoding".toList
        = "chunked".toList := by
  decide

/-- Witness of C8 at the chunked header block of scenario S2. -/
theorem C8_chunked_iff_witness :
    ((HTTPResponse.parse sample_chunked_block sample_uri).get (by decide)).chunked = true ↔
      (contains (block_headers sample_chunked_block) "Content-Length".toList = false ∧
        get_header (block_headers sample_chunked_block) "Transfer-Encoding".toList
          = "chunked".toList) :=
  C8_chunked_iff sample_chunked_block sample_uri _ (Option.some_get _).symm

/-- C9: for every non-chunked HTTPResponse (its body not longer than content_length, as after
construction, where the body is empty) and every sequence of append_to_body calls,
content_length >= body length holds after the calls and content_length is unchanged; a
further call (with size at most the length of its data) whose size would make the body
exceed content_length returns false and leaves the response unchanged, and every other call
returns true and appends exactly the first `size` characters of the data. -/
theorem C9_append_to_body_bound (r0 : HTTPResponse) (calls : List (Str × Nat)) (data : Str)
    (size : Nat) (hch : r0.chunked = false) (hinv : r0.body.length ≤ r0.content_length)
    (hsize : size ≤ data.length) :
    (r0.append_all calls).body.length ≤ (r0.append_all calls).content_length ∧
      (r0.append_all calls).content_length = r0.content_length ∧
      ((r0.append_all calls).content_length < (r0.append_all calls).body.length + size →
        (r0.append_all calls).append_to_body data size = (false, r0.append_all calls)) ∧
      ((r0.append_all calls).body.length + size ≤ (r0.append_all calls).content_length →
        (r0.append_all calls).append_to_body data size
            = (true, { r0.append_all calls with
                        body := (r0.append_all calls).body ++ data.take size }) ∧
          (data.take size).length = size) := by
  have hb := append_all_plain_bound r0 calls hch hinv
  have hc : (r0.append_all calls).chunked = false :=
    (append_all_fields r0 calls).2.2.2.2.2.trans hch
  have hp := append_to_body_plain (r0.append_all calls) data size hc
  exact ⟨hb.1, hb.2, hp.1, fun h => ⟨hp.2 h, by simp [hsize]⟩⟩

/-- Witness of C9: the response parsed from a block with Content-Length 5, after appending
"hel", accepts the two bytes "lo" of "lo!". -/
theorem C9_append_to_body_bound_witness :
    ((((HTTPResponse.parse sample_length_block sample_uri).get (by decide)).append_all
        [("hello".toList, 3)]).append_to_body "lo!".toList 2).1 = true ∧
      ((((HTTPResponse.parse sample_length_block sample_uri).get (by decide)).append_all
        [("hello".toList, 3)]).append_to_body "lo!".toList 2).2.body = "hello".toList := by
  have h := C9_append_to_body_bound
    ((HTTPResponse.parse sample_length_block sample_uri).get (by decide))
    [("hello".toList, 3)] "lo!".toList 2 (by decide) (by decide) (by decide)
  have h2 := (h.2.2.2 (by decide)).1
  rw [h2]
  exact ⟨rfl, by decide⟩

/-- Counterexample to C1 as stated.  (1) The block with 'Content-Length: 5' after three body
bytes "hel" have been appended: dump() writes 'Content-Length: 5' and then a body of length
3.  (2) A URI whose host holds a line break: dump() writes two lines that begin with
'Content-Length:'. -/
theorem C1_counterexample :
    (HTTPResponse.parse sample_length_block sample_uri).map
        (fun r => (r.append_all [("hello".toList, 3)]).dump)
      = some ("HTTP/1.1 200 OK\r\nProxy-Connection: keep-alive\r\nConnection: keep-alive\r\n" ++
          "Host: x.test:80\r\nContent-Length: 5\r\n\r\nhel").toList ∧
    (HTTPResponse.parse "HTTP/1.1 200 OK\r\n\r\n".toList
        ⟨"a\r\nContent-Length: 7".toList, [], [], []⟩).map (fun r => r.dump)
      = some ("HTTP/1.1 200 OK\r\nProxy-Connection: keep-alive\r\nConnection: keep-alive\r\n" ++
          "Host: a\r\nContent-Length: 7:80\r\nContent-Length: 0\r\n\r\n").toList := by
  decide

/-- C1 (amended): for every response header block parsed by the HTTPResponse constructor, with
a URI whose host and port hold no line feed, and every body then accumulated through
append_to_body (each call with size at most the length of its data), if the body is complete
(the response is chunked, or the body length equals content_length), then the string
returned by dump() is a status line, header lines and the body, each line ended by CRLF and
the header lines followed by an empty line; exactly one header line begins with
'Content-Length:', it is 'Content-Length: N' with N the length of the body that dump() emits,
and no header line is 'Transfer-Encoding: chunked'. -/
theorem C1_dump_content_length (hdrs : Str) (uri : ProxyURI) (r : HTTPResponse)
    (calls : List (Str × Nat)) (hparse : HTTPResponse.parse hdrs uri = some r)
    (huri : '\n' ∉ uri.host ∧ '\n' ∉ uri.port) (hcalls : ∀ c ∈ calls, c.2 ≤ c.1.length)
    (hcomplete : (r.append_all calls).chunked = true ∨
      (r.append_all calls).body.length = (r.append_all calls).content_length) :
    ∃ (status : Str) (lines : List Str) (body : Str),
      (r.append_all calls).dump
          = status ++ ['\r', '\n'] ++ (lines.map (· ++ ['\r', '\n'])).flatten ++ ['\r', '\n'] ++ body ∧
        '\n' ∉ status ∧ (∀ l ∈ lines, l ≠ [] ∧ '\n' ∉ l) ∧
        body = (r.append_all calls).body ∧
        lines.filter (fun l => "Content-Length:".toList.isPrefixOf l)
          = ["Content-Length: ".toList ++ to_string_nat body.length] ∧
        "Transfer-Encoding: chunked".toList ∉ lines := by
  obtain ⟨hbody, hhas, hver, hmsg, hwf, hcl⟩ := parse_spec hdrs uri r hparse huri
  have hfresh := parse_fresh hdrs uri r hparse
  obtain ⟨fv, fc, fm, fh, fhas, fch⟩ := append_all_fields r calls
  have hlen : (r.append_all calls).content_length = (r.append_all calls).body.length := by
    rcases hcomplete with hc | hc
    · have hc0 : r.chunked = true := fch ▸ hc
      exact append_all_chunked_length r calls hc0 (by rw [hfresh.2 hc0, hbody]; rfl) hcalls
    · exact hc.symm
  have hlines := dump_header_lines_spec (r.append_all calls) (by rw [fh]; exact hwf)
    (by rw [fh]; exact hcl) (by rw [fhas]; exact hhas)
  have hdb : (r.append_all calls).dump_body = (r.append_all calls).body := by
    unfold HTTPResponse.dump_body
    split
    · rfl
    · rename_i h0
      have : (r.append_all calls).body.length = 0 := by omega
      exact (List.length_eq_zero.1 this).symm
  refine ⟨(r.append_all calls).version ++ ' ' :: to_string_int (r.append_all calls).code ++
      ' ' :: (r.append_all calls).msg, (r.append_all calls).dump_header_lines,
      (r.append_all calls).dump_body, ?_, ?_, hlines.1, hdb, ?_, hlines.2.2⟩
  · simp [HTTPResponse.dump]
  · rw [fv, fc, fm]
    simp only [List.mem_append, List.mem_cons, not_or]
    exact ⟨⟨hver, by decide, newline_not_mem_to_string_int _⟩, by decide, hmsg⟩
  · rw [hlines.2.1, hdb, hlen]

/-- Witness of C1: the chunked header block of scenario S2 with the two chunks "hello" and
" world" appended. -/
theorem C1_dump_content_length_witness :
    ∃ (status : Str) (lines : List Str) (body : Str),
      (((HTTPResponse.parse sample_chunked_block sample_uri).get (by decide)).append_all
          [("hello\r\n".toList, 5), (" world\r\n".toList, 6)]).dump
          = status ++ ['\r', '\n'] ++ (lines.map (· ++ ['\r', '\n'])).flatten ++ ['\r', '\n'] ++ body ∧
        '\n' ∉ status ∧ (∀ l ∈ lines, l ≠ [] ∧ '\n' ∉ l) ∧
        body = (((HTTPResponse.parse sample_chunked_block sample_uri).get (by decide)).append_all
          [("hello\r\n".toList, 5), (" world\r\n".toList, 6)]).body ∧
        lines.filter (fun l => "Content-Length:".toList.isPrefixOf l)
          = ["Content-Length: ".toList ++ to_string_nat body.length] ∧
        "Transfer-Encoding: chunked".toList ∉ lines :=
  C1_dump_content_length sample_chunked_block sample_uri _
    [("hello\r\n".toList, 5), (" world\r\n".toList, 6)] (Option.some_get _).symm
    (by decide) (by decide) (Or.inl (by decide))

/-! ### The blacklist -/

/-- C10 (the code at the failing input): after loading the single pattern line '*.*.*.*'
(four stars, so the loop bound is the undefined `1 << 32`) the address 1.2.3.4, which
replaces the stars by 1, 2, 3 and 4, is still allowed, whether the shift yields 0 (at most
no entry is added) or 1 (only 0.0.0.0 is added). -/
theorem C10_four_stars_not_expanded :
    matches_ip_addr_regex "*.*.*.*".toList = true ∧
      instantiate "*.*.*.*".toList [1, 2, 3, 4] = "1.2.3.4".toList ∧
      allowed (load_blacklist 0 false (some "*.*.*.*\n".toList) []) "1.2.3.4".toList = true ∧
      allowed (load_blacklist 1 false (some "*.*.*.*\n".toList) []) "1.2.3.4".toList = true ∧
      load_blacklist 1 false (some "*.*.*.*\n".toList) [] = ["0.0.0.0".toList] := by
  decide



theorem mem_blacklist_insert_self (bl : Blacklist) (k : Str) : k ∈ blacklist_insert bl k := by
  unfold blacklist_insert
  split
  · assumption
  · simp

theorem mem_blacklist_insert_of_mem (bl : Blacklist) (k x : Str) (h : x ∈ bl) :
    x ∈ blacklist_insert bl k := by
  unfold blacklist_insert
  split
  · exact h
  · simp [h]

theorem mem_foldl_insert_of_mem (g : Nat → Str) (l : List Nat) (bl : Blacklist) (x : Str)
    (h : x ∈ bl) : x ∈ l.foldl (fun bl i => blacklist_insert bl (g i)) bl := by
  induction l generalizing bl with
  | nil => exact h
  | cons i is ih => exact ih _ (mem_blacklist_insert_of_mem _ _ _ h)

theorem mem_foldl_insert (g : Nat → Str) (l : List Nat) (bl : Blacklist) (i : Nat)
    (h : i ∈ l) : g i ∈ l.foldl (fun bl i => blacklist_insert bl (g i)) bl := by
  induction l generalizing bl with
  | nil => simp at h
  | cons j js ih =>
    rcases List.mem_cons.1 h with h | h
    · subst h
      exact mem_foldl_insert_of_mem g js _ _ (mem_blacklist_insert_self _ _)
    · exact ih _ h

theorem mem_load_line_of_mem (u : Int) (bl : Blacklist) (line x : Str) (h : x ∈ bl) :
    x ∈ load_line u bl line := by
  unfold load_line
  split
  · exact h
  · split
    · simp only []
      split
      · exact mem_blacklist_insert_of_mem _ _ _ h
      · exact mem_foldl_insert_of_mem _ _ _ _ h
    · exact mem_blacklist_insert_of_mem _ _ _ h

theorem mem_foldl_load_line_of_mem (u : Int) (lines : List Str) (bl : Blacklist) (x : Str)
    (h : x ∈ bl) : x ∈ lines.foldl (load_line u) bl := by
  induction lines generalizing bl with
  | nil => exact h
  | cons l ls ih => exact ih _ (mem_load_line_of_mem u bl l x h)

theorem mem_foldl_load_line (u : Int) (lines : List Str) (bl : Blacklist) (line x : Str)
    (hl : line ∈ lines) (hx : ∀ bl, x ∈ load_line u bl line) :
    x ∈ lines.foldl (load_line u) bl := by
  induction lines generalizing bl with
  | nil => simp at hl
  | cons l ls ih =>
    rcases List.mem_cons.1 hl with h | h
    · subst h
      exact mem_foldl_load_line_of_mem u ls _ x (hx bl)
    · exact ih _ h

theorem star_not_mem_to_string_nat (v : Nat) : '*' ∉ to_string_nat v := fun e => by
  have := to_string_nat_digits v _ e
  revert this; decide

theorem instantiate_nil (s : Str) : instantiate s [] = s := by
  induction s with
  | nil => rfl
  | cons c cs ih => simp [instantiate, ih]

theorem replace_first_star_append (pre rest v : Str) (h : '*' ∉ pre) :
    replace_first_star (pre ++ '*' :: rest) v = pre ++ v ++ rest := by
  unfold replace_first_star
  rw [find_char_first '*' pre rest h]
  simp

theorem foldl_replace_eq_instantiate (s : Str) :
    ∀ (vs : List Nat) (pre : Str), '*' ∉ pre → vs.length ≤ s.count '*' →
      vs.foldl (fun ip v => replace_first_star ip (to_string_nat v)) (pre ++ s)
        = pre ++ instantiate s vs := by
  induction s with
  | nil =>
    intro vs pre _ hlen
    have : vs = [] := by
      simp only [List.count_nil, Nat.le_zero, List.length_eq_zero] at hlen
      exact hlen
    subst this
    simp [instantiate]
  | cons c cs ih =>
    intro vs pre hpre hlen
    cases vs with
    | nil => simp [instantiate_nil]
    | cons v vs' =>
      by_cases hc : c = '*'
      · subst hc
        simp only [List.foldl_cons, replace_first_star_append pre cs _ hpre, instantiate, if_true]
        have hpre' : '*' ∉ pre ++ to_string_nat v := by
          simp only [List.mem_append, not_or]
          exact ⟨hpre, star_not_mem_to_string_nat v⟩
        have hlen' : vs'.length ≤ cs.count '*' := by
          simp only [List.length_cons, List.count_cons_self] at hlen
          omega
        rw [ih vs' _ hpre' hlen']
        simp
      · have hpre' : '*' ∉ pre ++ [c] := by
          simp only [List.mem_append, List.mem_singleton, not_or]
          exact ⟨hpre, fun e => hc e.symm⟩
        have hlen' : (v :: vs').length ≤ cs.count '*' := by
          rw [List.count_cons_of_ne (fun e => hc e.symm)] at hlen
          exact hlen
        have := ih (v :: vs') (pre ++ [c]) hpre' hlen'
        simp only [List.append_assoc, List.singleton_append] at this
        rw [this]
        simp [instantiate, hc]

theorem exists_loop_counter (vs : List Nat) (h : ∀ v ∈ vs, v < 256) :
    ∃ i, i < 256 ^ vs.length ∧
      (List.range vs.length).map (fun j => (i >>> (8 * j)) &&& 0xFF) = vs := by
  induction vs with
  | nil => exact ⟨0, by simp⟩
  | cons v vs ih =>
    obtain ⟨i, hi, hmap⟩ := ih (fun x hx => h x (by simp [hx]))
    have hv : v < 256 := h v (by simp)
    refine ⟨v + 256 * i, ?_, ?_⟩
    · rw [List.length_cons, pow_succ]
      nlinarith
    · rw [List.length_cons, List.range_succ_eq_map, List.map_cons, List.map_map]
      have h0 : ((v + 256 * i) >>> (8 * 0)) &&& 0xFF = v := by
        have : (0xFF : Nat) = 2 ^ 8 - 1 := by norm_num
        rw [this, Nat.and_pow_two_sub_one_eq_mod]
        simp
        omega
      have hs : ∀ j, ((v + 256 * i) >>> (8 * (j + 1))) &&& 0xFF = (i >>> (8 * j)) &&& 0xFF := by
        intro j
        rw [Nat.shiftRight_eq_div_pow, Nat.shiftRight_eq_div_pow]
        congr 1
        rw [show 8 * (j + 1) = 8 + 8 * j by ring, pow_add, ← Nat.div_div_eq_div_mul]
        congr 1
        omega
      rw [h0]
      congr 1
      refine Eq.trans (List.map_congr_left ?_) hmap
      intro j _
      exact hs j

theorem expand_pattern_eq_instantiate (line : Str) (vs : List Nat)
    (hlen : vs.length = line.count '*') (h : ∀ v ∈ vs, v < 256) :
    ∃ i, i < 256 ^ line.count '*' ∧ expand_pattern line (line.count '*') i = instantiate line vs := by
  obtain ⟨i, hi, hmap⟩ := exists_loop_counter vs h
  refine ⟨i, by rw [← hlen]; exact hi, ?_⟩
  unfold expand_pattern
  rw [← hlen]
  have := List.foldl_map (fun j => (i >>> (8 * j)) &&& 0xFF)
    (fun ip v => replace_first_star ip (to_string_nat v)) (List.range vs.length) line
  rw [← this, hmap]
  have h2 := foldl_replace_eq_instantiate line vs [] (by simp) (by omega)
  simpa using h2


theorem is_octet_pattern_hash (piece : Str) : is_octet_pattern ('#' :: piece) = false := by
  simp [is_octet_pattern, Char.isDigit]

theorem not_comment_of_ip_pattern (line : Str) (h : matches_ip_addr_regex line = true) :
    matches_comment_regex line = false := by
  cases line with
  | nil => rfl
  | cons c cs =>
    by_cases hc : c = '#'
    · subst hc
      exfalso
      unfold matches_ip_addr_regex at h
      have hsplit : ∃ piece pieces, split_on_dot ('#' :: cs) = ('#' :: piece) :: pieces := by
        unfold split_on_dot
        simp only [show ¬ ('#' : Char) = '.' by decide, if_false]
        split
        · exact ⟨[], [], rfl⟩
        · exact ⟨_, _, rfl⟩
      obtain ⟨piece, pieces, hs⟩ := hsplit
      rw [hs] at h
      split at h
      · rename_i a b c d heq
        simp only [List.cons.injEq] at heq
        rw [← heq.1, is_octet_pattern_hash] at h
        simp at h
      · simp at h
    · unfold matches_comment_regex
      split
      · rename_i rest heq
        simp only [List.cons.injEq] at heq
        exact absurd heq.1 hc
      · rfl

/-- The star expansion of `load_blacklist` on one to three stars: for every file content and
every line of it that matches the IPv4 pattern with one to three octets '*', every address
obtained by replacing the stars with values 0..255 is rejected by `allowed` after the load
(whatever the value of the undefined 32-bit shift, which these patterns do not reach). -/
theorem load_blacklist_rejects_expansion (u : Int) (file : Str) (bl0 : Blacklist)
    (line : Str) (vs : List Nat) (hline : line ∈ getlines file)
    (hpat : matches_ip_addr_regex line = true)
    (hstar : 1 ≤ line.count '*' ∧ line.count '*' ≤ 3)
    (hlen : vs.length = line.count '*') (hvs : ∀ v ∈ vs, v < 256) :
    allowed (load_blacklist u false (some file) bl0) (instantiate line vs) = false := by
  have hmem : ∀ bl, instantiate line vs ∈ load_line u bl line := by
    intro bl
    obtain ⟨i, hi, hexp⟩ := expand_pattern_eq_instantiate line vs hlen hvs
    unfold load_line
    rw [not_comment_of_ip_pattern line hpat, hpat]
    have hne : ¬ line.count '*' = 0 := by omega
    simp only [Bool.false_eq_true, if_false, if_true, hne]
    rw [← hexp]
    apply mem_foldl_insert
    have hshl : shl_one u (8 * line.count '*') = (2 : Int) ^ (8 * line.count '*') := by
      unfold shl_one
      rw [if_pos (by omega)]
    rw [hshl, List.mem_range]
    have : ((2 : Int) ^ (8 * line.count '*')).toNat = 256 ^ line.count '*' := by
      rw [show (2 : Int) ^ (8 * line.count '*') = ((256 ^ line.count '*' : Nat) : Int) by
        rw [pow_mul]; norm_num]
      exact Int.toNat_ofNat _
    rw [this]
    exact hi
  unfold load_blacklist allowed
  simp only [Bool.false_eq_true, if_false]
  have := mem_foldl_load_line u (getlines file) bl0 line _ hline hmem
  simp [this]



/-- The star expansion at work: after loading a file with a comment, the pattern '10.*.0.1'
and a host name, the address 10.7.0.1 is rejected. -/
theorem load_blacklist_rejects_expansion_example :
    allowed (load_blacklist 0 false (some "# local\n10.*.0.1\nbad.test\n".toList) [])
      (instantiate "10.*.0.1".toList [7]) = false ∧
      instantiate "10.*.0.1".toList [7] = "10.7.0.1".toList :=
  ⟨load_blacklist_rejects_expansion 0 "# local\n10.*.0.1\nbad.test\n".toList []
      "10.*.0.1".toList [7] (by decide) (by decide) (by decide) (by decide) (by decide),
    by decide⟩

/-! ### The socket: recv and read_n -/

theorem write_at_nil (buf : Str) (off : Nat) : write_at buf off [] = buf := by
  simp [write_at]

theorem write_at_write_at (buf : Str) (off : Nat) (a b : Str) (h : off ≤ buf.length) :
    write_at (write_at buf off a) (off + a.length) b = write_at buf off (a ++ b) := by
  have h1 : (buf.take off).length = off := by simp [h]
  unfold write_at
  have e1 : (buf.take off ++ a ++ buf.drop (off + a.length)).take (off + a.length)
      = buf.take off ++ a := by
    rw [List.take_append_eq_append_take]
    simp [h1]
  have hX : (buf.take off ++ a).length = off + a.length := by simp [h]
  have e2 : (buf.take off ++ a ++ buf.drop (off + a.length)).drop (off + a.length + b.length)
      = buf.drop (off + (a ++ b).length) := by
    rw [← hX, List.drop_append, List.drop_drop, hX]
    congr 1
    simp only [List.length_append]
    omega
  rw [e1, e2]
  simp

theorem length_write_at (buf : Str) (off : Nat) (a : Str) (h : off + a.length ≤ buf.length) :
    (write_at buf off a).length = buf.length := by
  unfold write_at
  simp
  omega

theorem take_write_at_zero (buf a : Str) (n : Nat) (h : n ≤ a.length) :
    (write_at buf 0 a).take n = a.take n := by
  unfold write_at
  simp [List.take_append_of_le_length h]

theorem recv_data (err : Bool) (pend buf : Str) (off n k : Nat) (rest : List RecvEvent)
    (peek autoclose : Bool) (hm : 0 < min k (min n pend.length)) :
    (Connection.mk true err false pend (RecvEvent.data k :: rest)).recv buf off n peek autoclose
      = (((min k (min n pend.length) : Nat) : Int),
          write_at buf off (pend.take (min k (min n pend.length))),
          Connection.mk true err false
            (if peek then pend else pend.drop (min k (min n pend.length))) rest) := by
  unfold Connection.recv
  have hne : ¬ min k (min n pend.length) = 0 := by omega
  simp only [Bool.not_true, Bool.false_eq_true, if_false, hne]

theorem recv_eagain (err : Bool) (pend buf : Str) (off n : Nat) (rest : List RecvEvent)
    (peek autoclose : Bool) :
    (Connection.mk true err false pend (RecvEvent.eagain :: rest)).recv buf off n peek autoclose
      = (-1, buf, Connection.mk true true false pend rest) := by
  unfold Connection.recv
  simp only [Bool.not_true, Bool.false_eq_true, if_false]

theorem read_n_loop_ok (script : List RecvEvent) :
    ∀ (rem : Nat) (err : Bool) (pend buf : Str) (off n total fuel : Nat)
      (s1 : List RecvEvent),
      read_n_script script rem = some s1 → rem ≤ pend.length → total + rem = n →
      script.length + 1 ≤ fuel → off + total ≤ buf.length →
      ∃ e, Connection.read_n_loop fuel (Connection.mk true err false pend script) buf off n total
        = ((n : Int), write_at buf (off + total) (pend.take rem),
            Connection.mk true e false (pend.drop rem) s1) := by
  induction script with
  | nil =>
    intro rem err pend buf off n total fuel s1 hrs hp hn hf hb
    cases rem with
    | zero =>
      simp only [read_n_script, Option.some.injEq] at hrs
      obtain ⟨f, rfl⟩ : ∃ f, fuel = f + 1 := ⟨fuel - 1, by omega⟩
      refine ⟨err, ?_⟩
      have hn' : ¬ total < n := by omega
      simp only [Connection.read_n_loop, hn', false_and, if_false, List.take_zero, write_at_nil,
        List.drop_zero]
      rw [← hrs, ← hn]
      simp
    | succ m => simp [read_n_script] at hrs
  | cons ev evs ih =>
    intro rem err pend buf off n total fuel s1 hrs hp hn hf hb
    obtain ⟨f, rfl⟩ : ∃ f, fuel = f + 1 := ⟨fuel - 1, by omega⟩
    cases rem with
    | zero =>
      simp only [read_n_script, Option.some.injEq] at hrs
      refine ⟨err, ?_⟩
      have hn' : ¬ total < n := by omega
      simp only [Connection.read_n_loop, hn', false_and, if_false, List.take_zero, write_at_nil,
        List.drop_zero]
      rw [← hrs, ← hn]
      simp
    | succ m =>
      have hlt : total < n := by omega
      cases ev with
      | data k =>
        simp only [read_n_script] at hrs
        split at hrs
        · exact absurd hrs (by simp)
        · rename_i hk
          have hmin : min k (min (n - total) pend.length) = min k (m + 1) := by
            have : n - total = m + 1 := by omega
            rw [this, Nat.min_eq_left hp]
          have hpos : 0 < min k (min (n - total) pend.length) := by
            rw [hmin]; omega
          have hrecv := recv_data err pend buf (off + total) (n - total) k evs false true hpos
          rw [hmin] at hrecv
          simp only [Connection.read_n_loop, hlt, and_self, if_true, hrecv]
          have hj : ¬ (((min k (m + 1) : Nat) : Int) ≤ 0) := by omega
          simp only [hj, if_false, Bool.false_eq_true, Int.toNat_ofNat]
          have hjl : min k (m + 1) ≤ pend.length := by omega
          have hlen1 : (pend.take (min k (m + 1))).length = min k (m + 1) := by
            simp [hjl]
          obtain ⟨e, he⟩ := ih (m + 1 - min k (m + 1)) err (pend.drop (min k (m + 1)))
            (write_at buf (off + total) (pend.take (min k (m + 1)))) off n
            (total + min k (m + 1)) f s1 hrs
            (by simp only [List.length_drop]; omega) (by omega)
            (by simp only [List.length_cons] at hf; omega)
            (by
              unfold write_at
              simp only [List.length_append, List.length_take, List.length_drop]
              omega)
          refine ⟨e, ?_⟩
          rw [he]
          have hw := write_at_write_at buf (off + total) (pend.take (min k (m + 1)))
            ((pend.drop (min k (m + 1))).take (m + 1 - min k (m + 1))) hb
          rw [hlen1] at hw
          have htk : pend.take (min k (m + 1)) ++
              (pend.drop (min k (m + 1))).take (m + 1 - min k (m + 1))
              = pend.take (m + 1) := by
            have : m + 1 = min k (m + 1) + (m + 1 - min k (m + 1)) := by omega
            conv_rhs => rw [this]
            rw [List.take_add]
          rw [htk] at hw
          have hdr : (pend.drop (min k (m + 1))).drop (m + 1 - min k (m + 1))
              = pend.drop (m + 1) := by
            rw [List.drop_drop]
            congr 1
            omega
          simp only [Nat.add_assoc] at hw ⊢
          rw [hw, hdr]
      | eagain =>
        simp only [read_n_script] at hrs
        have hrecv := recv_eagain err pend buf (off + total) (n - total) evs false true
        simp only [Connection.read_n_loop, hlt, and_self, if_true, hrecv]
        have hj : ((-1 : Int) ≤ 0) := by omega
        simp only [hj, if_true]
        exact ih (m + 1) true pend buf off n total f s1 hrs hp hn
          (by simp only [List.length_cons] at hf; omega) hb
      | error => simp [read_n_script] at hrs
      | closed => simp [read_n_script] at hrs

theorem read_n_ok (err : Bool) (pend buf : Str) (script : List RecvEvent) (off n : Nat)
    (s1 : List RecvEvent) (hrs : read_n_script script n = some s1) (hp : n ≤ pend.length)
    (hb : off ≤ buf.length) :
    ∃ e, (Connection.mk true err false pend script).read_n buf off n
      = ((n : Int), write_at buf off (pend.take n),
          Connection.mk true e false (pend.drop n) s1) := by
  unfold Connection.read_n
  simp only [Bool.not_true, Bool.false_eq_true, if_false]
  have := read_n_loop_ok script n err pend buf off n 0 (script.length + 1) s1 hrs hp
    (by omega) (by omega) (by omega)
  simpa using this


/-! ### The chunked body reader -/

theorem hex_digit_facts (c : Char) (h : is_digit 16 c = true) :
    isspace c = false ∧ c ≠ '-' ∧ c ≠ '+' ∧ c ≠ 'x' ∧ c ≠ 'X' ∧ c ≠ '\r' ∧ c ≠ ';' := by
  refine ⟨?_, ?_, ?_, ?_, ?_, ?_, ?_⟩
  · cases hs : isspace c with
    | false => rfl
    | true =>
      exfalso
      simp only [isspace, Bool.or_eq_true, beq_iff_eq] at hs
      rcases hs with ((((hs | hs) | hs) | hs) | hs) | hs <;> (subst hs; revert h; decide)
  all_goals (intro e; subst e; revert h; decide)

theorem stoull_hex (sl : Str) (hne : sl ≠ []) (hd : ∀ x ∈ sl, is_digit 16 x = true)
    (hv : digits_value 16 sl < 2 ^ 64) : stoull sl 16 = some (digits_value 16 sl) := by
  cases sl with
  | nil => exact absurd rfl hne
  | cons c cs =>
    obtain ⟨h1, h2, h3, _, _, _, _⟩ := hex_digit_facts c (hd c (by simp))
    have hdrop : (c :: cs).dropWhile isspace = c :: cs := by
      simp [List.dropWhile, h1]
    have htake : (c :: cs).takeWhile (is_digit 16) = c :: cs :=
      List.takeWhile_eq_self_iff.2 hd
    have hsign : strip_sign (c :: cs) = (false, c :: cs) := by
      unfold strip_sign
      split
      · rename_i r heq
        simp only [List.cons.injEq] at heq
        exact absurd heq.1 h2
      · rename_i r heq
        simp only [List.cons.injEq] at heq
        exact absurd heq.1 h3
      · rfl
    have hpre : skip_hex_marker 16 (c :: cs) = c :: cs := by
      unfold skip_hex_marker
      split
      · rename_i x d r heq
        simp only [List.cons.injEq] at heq
        have hx := hex_digit_facts x (hd x (by simp [heq.2]))
        have : ¬ (x = 'x' ∨ x = 'X') := fun e => e.elim hx.2.2.2.1 hx.2.2.2.2.1
        simp [this]
      · rfl
    have hvv : ¬ digits_value 16 (c :: cs) ≥ 2 ^ 64 := by omega
    unfold stoull strto_parts
    simp only [hdrop, hsign, hpre, htake, List.isEmpty_cons, Bool.false_eq_true, if_false, hvv]

theorem find_crlf_first (pre rest : Str) (h : '\r' ∉ pre) :
    find (pre ++ '\r' :: '\n' :: rest) ['\r', '\n'] = some pre.length := by
  induction pre with
  | nil => simp [find, List.isPrefixOf]
  | cons d ds ih =>
    have hd : ¬ '\r' = d := fun e => h (by rw [e]; simp)
    have hds : '\r' ∉ ds := fun e => h (by simp [e])
    simp [find, List.isPrefixOf, hd, ih hds]

theorem find_char_cons (c d : Char) (s : Str) :
    find (d :: s) [c] = if c = d then some 0 else (find s [c]).map (· + 1) := by
  by_cases h : c = d <;> simp [find, List.isPrefixOf, h]

theorem find_char_ge (c : Char) (pre rest : Str) (e : Nat) (h : c ∉ pre)
    (hf : find (pre ++ rest) [c] = some e) : pre.length ≤ e := by
  induction pre generalizing e with
  | nil => simp
  | cons d ds ih =>
    have hd : ¬ c = d := fun x => h (by rw [x]; simp)
    have hds : c ∉ ds := fun x => h (by simp [x])
    rw [List.cons_append, find_char_cons, if_neg hd] at hf
    cases hfe : find (ds ++ rest) [c] with
    | none => rw [hfe] at hf; simp at hf
    | some e' =>
      rw [hfe] at hf
      simp only [Option.map_some', Option.some.injEq] at hf
      have := ih e' hds hfe
      simp only [List.length_cons]
      omega

theorem read_n_script_length (script : List RecvEvent) :
    ∀ (n : Nat) (s1 : List RecvEvent), read_n_script script n = some s1 →
      s1.length ≤ script.length ∧ (0 < n → s1.length < script.length) := by
  induction script with
  | nil =>
    intro n s1 h
    cases n with
    | zero => simp only [read_n_script, Option.some.injEq] at h; subst h; simp
    | succ m => simp [read_n_script] at h
  | cons ev evs ih =>
    intro n s1 h
    cases n with
    | zero => simp only [read_n_script, Option.some.injEq] at h; subst h; simp
    | succ m =>
      cases ev with
      | data k =>
        simp only [read_n_script] at h
        split at h
        · exact absurd h (by simp)
        · have := (ih _ _ h).1
          simp only [List.length_cons]
          exact ⟨by omega, fun _ => by omega⟩
      | eagain =>
        simp only [read_n_script] at h
        have := (ih _ _ h).1
        simp only [List.length_cons]
        exact ⟨by omega, fun _ => by omega⟩
      | error => simp [read_n_script] at h
      | closed => simp [read_n_script] at h

theorem read_chunk_loop_done (fuel : Nat) (c : Connection) (buf : Str) (r : HTTPResponse)
    (chunk_size bytes_read : Nat) (n_src : Int)
    (h : ¬ bytes_read < (chunk_size + 2) % 2 ^ 64) :
    Connection.read_chunk_loop fuel c buf r chunk_size bytes_read n_src
      = some (LoopEnd.left n_src, buf, r, c) := by
  cases fuel with
  | zero => rfl
  | succ f => simp only [Connection.read_chunk_loop, h, false_and, if_false]

theorem write_at_zero (buf a : Str) : write_at buf 0 a = a ++ buf.drop a.length := by
  simp [write_at]


theorem size_of_int_sub_two (n : Nat) (h : n < 2 ^ 64) :
    size_of_int (((n + 2 : Nat) : Int) - 2) = n := by
  unfold size_of_int
  have : ((n + 2 : Nat) : Int) - 2 = (n : Int) := by omega
  rw [this]
  have h2 : (n : Int) % (2 : Int) ^ 64 = (n : Int) := by
    apply Int.emod_eq_of_lt <;> omega
  rw [h2]
  simp

theorem take_chunk (d more : Str) :
    (d ++ '\r' :: '\n' :: more).take (d.length + 2) = d ++ ['\r', '\n'] := by
  rw [List.take_append]
  simp

theorem drop_chunk (d more : Str) : (d ++ '\r' :: '\n' :: more).drop (d.length + 2) = more := by
  rw [List.drop_append]
  simp

theorem read_chunk_loop_ok (err : Bool) (more buf : Str) (script s3 : List RecvEvent) (d : Str)
    (n_src : Int) (version : Str) (code : Int) (msg : Str) (hs : Headers) (body : Str)
    (cl : Nat) (hcl : Bool) (ct : Str) (uri : ProxyURI)
    (hrs : read_n_script script (d.length + 2) = some s3)
    (hcap : d.length + 2 ≤ buf.length) (hlt : buf.length < 2 ^ 31) :
    ∃ e, Connection.read_chunk_loop (script.length + 1)
        (Connection.mk true err false (d ++ '\r' :: '\n' :: more) script) buf
        (HTTPResponse.mk version code msg hs body cl true hcl ct uri) d.length 0 n_src
      = some (LoopEnd.left ((d.length + 2 : Nat) : Int), write_at buf 0 (d ++ ['\r', '\n']),
          HTTPResponse.mk version code msg hs (body ++ d) (cl + d.length) true hcl ct uri,
          Connection.mk true e false more s3) := by
  have hmod : (d.length + 2) % 2 ^ 64 = d.length + 2 := Nat.mod_eq_of_lt (by omega)
  have hbtr : min buf.length (((d.length + 2) % 2 ^ 64 + 2 ^ 64 - 0) % 2 ^ 64) = d.length + 2 := by
    rw [hmod]
    have : (d.length + 2 + 2 ^ 64 - 0) % 2 ^ 64 = d.length + 2 := by omega
    rw [this]
    omega
  obtain ⟨e, he⟩ := read_n_ok err (d ++ '\r' :: '\n' :: more) buf script 0 (d.length + 2) s3 hrs
    (by simp) (by omega)
  rw [take_chunk, drop_chunk] at he
  refine ⟨e, ?_⟩
  rw [Connection.read_chunk_loop]
  have hcond : 0 < (d.length + 2) % 2 ^ 64 ∧ (Connection.mk true err false
      (d ++ '\r' :: '\n' :: more) script).done = false := ⟨by omega, rfl⟩
  rw [if_pos hcond]
  simp only [hbtr, he]
  have hpos : ¬ (((d.length + 2 : Nat) : Int) ≤ 0) := by omega
  rw [if_neg hpos]
  have hbr : (0 + ((d.length + 2 : Nat) : Int).toNat) % 2 ^ 64 = (d.length + 2) % 2 ^ 64 := by
    rw [Int.toNat_ofNat, Nat.zero_add]
  have hge : ¬ (((d.length + 2 : Nat) : Int) < 2) := by omega
  simp only [hbr, if_true, hge, if_false]
  rw [read_chunk_loop_done _ _ _ _ _ _ _ (by omega)]
  have hsz : size_of_int (((d.length + 2 : Nat) : Int) - 2) = d.length :=
    size_of_int_sub_two _ (by omega)
  have htk : (write_at buf 0 (d ++ ['\r', '\n'])).take d.length = d := by
    rw [take_write_at_zero _ _ _ (by simp)]
    simp
  rw [hsz]
  simp [HTTPResponse.append_to_body, htk]


theorem write_take_head (buf p q : Str) (m : Nat) (h : p.length ≤ m) :
    ∃ x, write_at buf 0 ((p ++ q).take m) = p ++ x := by
  refine ⟨q.take (m - p.length) ++ buf.drop ((p ++ q).take m).length, ?_⟩
  rw [write_at_zero, List.take_append_eq_append_take, List.take_of_length_le h]
  simp

theorem read_chunk_size_ok (err : Bool) (tail buf : Str) (k : Nat) (s1 s2 : List RecvEvent)
    (sl : Str) (hne : sl ≠ []) (hd : ∀ x ∈ sl, is_digit 16 x = true)
    (hv : digits_value 16 sl < 2 ^ 64) (hk : sl.length + 2 ≤ min k buf.length)
    (hrs : read_n_script s1 (sl.length + 2) = some s2) :
    ∃ (e : Bool) (buf2 : Str),
      buf2.length = buf.length ∧
      (Connection.mk true err false (sl ++ '\r' :: '\n' :: tail)
          (RecvEvent.data k :: s1)).read_chunk_size buf
        = (ChunkSize.size sl.length (digits_value 16 sl) ((sl.length + 2 : Nat) : Int), buf2,
            Connection.mk true e false tail s2) := by
  have hcr : '\r' ∉ sl := fun x => (hex_digit_facts _ (hd _ x)).2.2.2.2.2.1 rfl
  have hsc : ';' ∉ sl := fun x => (hex_digit_facts _ (hd _ x)).2.2.2.2.2.2 rfl
  have hplen : (sl ++ '\r' :: '\n' :: tail).length = sl.length + 2 + tail.length := by
    simp; omega
  -- the peek
  have hm : sl.length + 2 ≤ min k (min buf.length (sl ++ '\r' :: '\n' :: tail).length) := by
    rw [hplen]; omega
  have hrecv := recv_data err (sl ++ '\r' :: '\n' :: tail) buf 0 buf.length k s1 true true
    (by omega)
  have hmcap : min k (min buf.length (sl ++ '\r' :: '\n' :: tail).length) ≤ buf.length := by
    omega
  generalize min k (min buf.length (sl ++ '\r' :: '\n' :: tail).length) = m at hm hrecv hmcap
  obtain ⟨x, hx⟩ := write_take_head buf (sl ++ ['\r', '\n']) tail m (by simp; omega)
  have hpq : sl ++ ['\r', '\n'] ++ tail = sl ++ '\r' :: '\n' :: tail := by simp
  rw [hpq] at hx
  have hx' : write_at buf 0 ((sl ++ '\r' :: '\n' :: tail).take m) = sl ++ '\r' :: '\n' :: x := by
    rw [hx]; simp
  have hfind := find_crlf_first sl x hcr
  -- the read of the size line
  obtain ⟨e, he⟩ := read_n_ok err (sl ++ '\r' :: '\n' :: tail) (sl ++ '\r' :: '\n' :: x) s1 0
    (sl.length + 2) s2 hrs (by rw [hplen]; omega) (by omega)
  rw [take_chunk, drop_chunk] at he
  have hb2 : write_at (sl ++ '\r' :: '\n' :: x) 0 (sl ++ ['\r', '\n'])
      = sl ++ '\r' :: '\n' :: x := by
    rw [write_at_zero]
    have : (sl ++ '\r' :: '\n' :: x).drop (sl ++ ['\r', '\n']).length = x := by
      have : (sl ++ ['\r', '\n']).length = sl.length + 2 := by simp
      rw [this, drop_chunk]
    rw [this]; simp
  rw [hb2] at he
  have hcut : (match find (sl ++ '\r' :: '\n' :: x) [';'] with
      | some chunk_extension_index => min chunk_extension_index sl.length
      | none => sl.length) = sl.length := by
    split
    · rename_i e1 heq
      exact Nat.min_eq_right (find_char_ge ';' sl _ e1 hsc heq)
    · rfl
  have hsub : substr (sl ++ '\r' :: '\n' :: x) 0 sl.length = sl := by
    simp [substr]
  refine ⟨e, sl ++ '\r' :: '\n' :: x, ?_, ?_⟩
  · rw [← hx']
    apply length_write_at
    simp only [List.length_take]
    omega
  · unfold Connection.read_chunk_size
    simp only [if_true] at hrecv
    rw [hrecv, hx']
    have hpos : ¬ ((m : Int) ≤ 0) := by omega
    simp only [hpos, if_false, hfind, he]
    have hpos2 : ¬ (((sl.length + 2 : Nat) : Int) ≤ 0) := by omega
    simp only [hpos2, if_false, hcut, hsub, stoull_hex sl hne hd hv]


theorem chunked_script_ok_nil (cap : Nat) (script : List RecvEvent)
    (h : chunked_script_ok cap [] script = true) :
    ∃ k s1 s2 s3, script = RecvEvent.data k :: s1 ∧ 3 ≤ min k cap ∧
      read_n_script s1 3 = some s2 ∧ read_n_script s2 2 = some s3 := by
  unfold chunked_script_ok at h
  split at h
  · rename_i k s1
    simp only [Bool.and_eq_true, decide_eq_true_eq] at h
    obtain ⟨hk, h2⟩ := h
    split at h2
    · rename_i s2 hs2
      obtain ⟨s3, hs3⟩ := Option.isSome_iff_exists.1 h2
      exact ⟨k, s1, s2, s3, rfl, hk, hs2, hs3⟩
    · exact absurd h2 (by simp)
  · exact absurd h (by simp)

theorem chunked_script_ok_cons (cap : Nat) (ch : Str × Str) (chunks : List (Str × Str))
    (script : List RecvEvent) (h : chunked_script_ok cap (ch :: chunks) script = true) :
    ∃ k s1 s2 s3, script = RecvEvent.data k :: s1 ∧ ch.1.length + 2 ≤ min k cap ∧
      read_n_script s1 (ch.1.length + 2) = some s2 ∧
      read_n_script s2 (ch.2.length + 2) = some s3 ∧ chunked_script_ok cap chunks s3 = true := by
  unfold chunked_script_ok at h
  split at h
  · rename_i k s1
    simp only [Bool.and_eq_true, decide_eq_true_eq] at h
    obtain ⟨hk, h2⟩ := h
    split at h2
    · rename_i s2 hs2
      split at h2
      · rename_i s3 hs3
        exact ⟨k, s1, s2, s3, rfl, hk, hs2, hs3, h2⟩
      · exact absurd h2 (by simp)
    · exact absurd h2 (by simp)
  · exact absurd h (by simp)

theorem read_chunks_loop_ok (chunks : List (Str × Str)) :
    ∀ (err : Bool) (rest buf : Str) (script : List RecvEvent) (fuel cap : Nat)
      (version : Str) (code : Int) (msg : Str) (hs : Headers) (body : Str) (cl : Nat)
      (hcl : Bool) (ct : Str) (uri : ProxyURI),
      buf.length = cap → 5 ≤ cap → cap < 2 ^ 31 →
      (∀ ch ∈ chunks, ch.1 ≠ [] ∧ (∀ x ∈ ch.1, is_digit 16 x = true) ∧
        digits_value 16 ch.1 = ch.2.length ∧ 1 ≤ ch.2.length ∧ ch.2.length + 2 ≤ cap) →
      chunked_script_ok cap chunks script = true → script.length + 1 ≤ fuel →
      ∃ (e : Bool) (buf1 : Str) (s1 : List RecvEvent) (n : Int),
        Connection.read_chunks_loop fuel
            (Connection.mk true err false (chunked_stream chunks ++ rest) script) buf
            (HTTPResponse.mk version code msg hs body cl true hcl ct uri)
          = some (LoopEnd.left n, buf1,
              HTTPResponse.mk version code msg hs (body ++ (chunks.map (·.2)).flatten)
                (cl + (chunks.map (·.2)).flatten.length) true hcl ct uri,
              Connection.mk true e false rest s1) := by
  induction chunks with
  | nil =>
    intro err rest buf script fuel cap version code msg hs body cl hcl ct uri hb h5 hlt _ hok hf
    obtain ⟨k, s1, s2, s3, rfl, hk, hs2, hs3⟩ := chunked_script_ok_nil cap script hok
    obtain ⟨f, rfl⟩ : ∃ f, fuel = f + 1 := ⟨fuel - 1, by omega⟩
    have hstream : chunked_stream [] ++ rest = ['0'] ++ '\r' :: '\n' :: ('\r' :: '\n' :: rest) := by
      simp [chunked_stream]
    obtain ⟨e, buf2, hb2, hsz⟩ := read_chunk_size_ok err ('\r' :: '\n' :: rest) buf k s1 s2 ['0']
      (by simp) (by decide) (by decide) (by rw [hb]; simpa using hk) (by simpa using hs2)
    obtain ⟨e3, h3⟩ := read_n_ok e ('\r' :: '\n' :: rest) buf2 s2 (1 + 2) 2 s3 hs3 (by simp)
      (by omega)
    have hdv : digits_value 16 ['0'] = 0 := by decide
    rw [hdv] at hsz
    refine ⟨e3, write_at buf2 (1 + 2) (('\r' :: '\n' :: rest).take 2), s3, 2, ?_⟩
    rw [hstream, Connection.read_chunks_loop, hsz]
    simp only [if_true, List.length_singleton, h3]
    simp
  | cons ch cs ih =>
    intro err rest buf script fuel cap version code msg hs body cl hcl ct uri hb h5 hlt hwf hok hf
    obtain ⟨k, s1, s2, s3, rfl, hk, hs2, hs3, hok3⟩ := chunked_script_ok_cons cap ch cs script hok
    obtain ⟨f, rfl⟩ : ∃ f, fuel = f + 1 := ⟨fuel - 1, by omega⟩
    obtain ⟨sl, d⟩ := ch
    obtain ⟨hne, hdig, hval, hd1, hdcap⟩ := hwf (sl, d) (by simp)
    simp only at hne hdig hval hd1 hdcap hk hs2 hs3
    have hstream : chunked_stream ((sl, d) :: cs) ++ rest
        = sl ++ '\r' :: '\n' :: (d ++ '\r' :: '\n' :: (chunked_stream cs ++ rest)) := by
      simp [chunked_stream]
    obtain ⟨e, buf2, hb2, hsz⟩ := read_chunk_size_ok err
      (d ++ '\r' :: '\n' :: (chunked_stream cs ++ rest)) buf k s1 s2 sl hne hdig
      (by rw [hval]; omega) (by rw [hb]; exact hk) hs2
    rw [hval] at hsz
    obtain ⟨e3, h3⟩ := read_chunk_loop_ok e (chunked_stream cs ++ rest) buf2 s2 s3 d
      ((sl.length + 2 : Nat) : Int) version code msg hs body cl hcl ct uri hs3 (by omega)
      (by omega)
    have hl1 := (read_n_script_length s1 _ s2 hs2).1
    have hl2 := (read_n_script_length s2 _ s3 hs3).1
    obtain ⟨e4, buf4, s4, n4, h4⟩ := ih e3 rest (write_at buf2 0 (d ++ ['\r', '\n'])) s3 f cap
      version code msg hs (body ++ d) (cl + d.length) hcl ct uri
      (by rw [length_write_at _ _ _ (by simp; omega)]; omega) h5 hlt
      (fun c hc => hwf c (by simp [hc])) hok3
      (by simp only [List.length_cons] at hf; omega)
    refine ⟨e4, buf4, s4, n4, ?_⟩
    rw [hstream, Connection.read_chunks_loop, hsz]
    have hnz : ¬ d.length = 0 := by omega
    simp only [hnz, if_false, h3]
    have hcond : ((d.length + 2 : Nat) : Int) > 0 ∧ True := ⟨by omega, trivial⟩
    rw [if_pos hcond, h4]
    simp [Nat.add_assoc]


theorem read_body_chunked_ok (c : Connection) (buf : Str) (response : HTTPResponse)
    (chunks : List (Str × Str)) (rest : Str)
    (hconn : c.connected = true) (hdone : c.done = false)
    (hpend : c.pending = chunked_stream chunks ++ rest)
    (hresp : response.chunked = true ∧ response.body = [] ∧ response.content_length = 0)
    (hwf : ∀ ch ∈ chunks, ch.1 ≠ [] ∧ (∀ x ∈ ch.1, is_digit 16 x = true) ∧
      digits_value 16 ch.1 = ch.2.length ∧ 1 ≤ ch.2.length ∧ ch.2.length + 2 ≤ buf.length)
    (hcap : 5 ≤ buf.length ∧ buf.length < 2 ^ 31)
    (hscript : chunked_script_ok buf.length chunks c.script = true) :
    ∃ (buf1 : Str) (c1 : Connection),
      c.read_http_response_body_chunked buf response
        = some (int_of_size (chunks.map (·.2)).flatten.length, buf1,
            { response with body := (chunks.map (·.2)).flatten,
                            content_length := (chunks.map (·.2)).flatten.length }, c1) ∧
      c1.pending = rest ∧ c1.connected = true := by
  obtain ⟨conn, err, dn, pend, script⟩ := c
  obtain ⟨version, code, msg, hs, body, cl, ch, hcl, ct, uri⟩ := response
  simp only at hconn hdone hpend hresp hscript
  obtain ⟨h1, h2, h3⟩ := hresp
  subst hconn hdone hpend h1 h2 h3
  obtain ⟨e, buf1, s1, n, h⟩ := read_chunks_loop_ok chunks err rest buf script (script.length + 1)
    buf.length version code msg hs [] 0 hcl ct uri rfl hcap.1 hcap.2 hwf hscript (by omega)
  refine ⟨buf1, Connection.mk true e false rest s1, ?_, rfl, rfl⟩
  unfold Connection.read_http_response_body_chunked
  simp only [h]
  simp


theorem big_chunk_facts :
    big_chunk.1.length = 4 ∧ big_chunk.2.length = 4096 ∧ big_chunk.1 ≠ [] ∧
      (∀ x ∈ big_chunk.1, is_digit 16 x = true) ∧ digits_value 16 big_chunk.1 = 4096 := by
  refine ⟨by decide, ?_, by decide, by decide, by decide⟩
  show (List.replicate 4096 'a').length = 4096
  exact List.length_replicate _ _

theorem read_n_script_zero (s : List RecvEvent) : read_n_script s 0 = some s := by
  cases s <;> simp [read_n_script]

theorem read_n_script_data_all (k n : Nat) (s : List RecvEvent) (hn : 0 < n) (hk : n ≤ k) :
    read_n_script (RecvEvent.data k :: s) n = some s := by
  obtain ⟨m, rfl⟩ : ∃ m, n = m + 1 := ⟨n - 1, by omega⟩
  have hk0 : ¬ k = 0 := by omega
  have hz : m + 1 - min k (m + 1) = 0 := by omega
  simp only [read_n_script, hk0, if_false, hz, read_n_script_zero]

theorem big_script_ok (n : Nat) (tail : List RecvEvent)
    (h : chunked_script_ok 4098 [] tail = true) :
    chunked_script_ok 4098 (List.replicate n big_chunk)
      ((List.replicate n
        [RecvEvent.data 4098, RecvEvent.data 4098, RecvEvent.data 4098]).flatten ++ tail)
      = true := by
  induction n with
  | zero => simpa using h
  | succ m ih =>
    rw [List.replicate_succ, List.replicate_succ, List.flatten_cons]
    unfold chunked_script_ok
    simp only [List.cons_append, List.nil_append, big_chunk_facts.1, big_chunk_facts.2.1,
      read_n_script_data_all 4098 (4 + 2) _ (by omega) (by omega),
      read_n_script_data_all 4098 (4096 + 2) _ (by omega) (by omega)]
    simpa using ih

theorem big_body_length (n : Nat) :
    ((List.replicate n big_chunk).map (·.2)).flatten.length = 4096 * n := by
  induction n with
  | zero => rfl
  | succ m ih =>
    rw [List.replicate_succ, List.map_cons, List.flatten_cons, List.length_append, ih,
      big_chunk_facts.2.1]
    omega

theorem big_connection_result (n : Nat) :
    ∃ (buf1 : Str) (c1 : Connection),
      (big_connection n).read_http_response_body_chunked (List.replicate 4098 '.')
          sample_chunked_response
        = some (int_of_size (4096 * n), buf1,
            { sample_chunked_response with
                body := ((List.replicate n big_chunk).map (·.2)).flatten,
                content_length := 4096 * n }, c1) := by
  have hlen : (List.replicate 4098 '.').length = 4098 := List.length_replicate _ _
  obtain ⟨buf1, c1, h, _, _⟩ := read_body_chunked_ok (big_connection n) (List.replicate 4098 '.')
    sample_chunked_response (List.replicate n big_chunk) [] rfl rfl (by simp [big_connection])
    (by decide)
    (by
      intro ch hch
      obtain rfl := List.eq_of_mem_replicate hch
      rw [hlen]
      obtain ⟨_, h2, h3, h4, h5⟩ := big_chunk_facts
      exact ⟨h3, h4, by rw [h5, h2], by rw [h2]; omega, by rw [h2]⟩)
    (by rw [hlen]; omega)
    (by
      rw [hlen]
      exact big_script_ok n _ (by decide))
  rw [big_body_length] at h
  exact ⟨buf1, c1, h⟩

theorem int_of_size_small (n : Nat) (h : n < 2 ^ 31) : int_of_size n = (n : Int) := by
  unfold int_of_size
  omega

/-- The chunked reader on well-formed streams: for every well-formed chunked body stream
(chunks 'hex-size CRLF data CRLF' with at least one data byte each, ended by '0 CRLF CRLF')
pending on a connected socket, a scratch buffer of at least 5 and fewer than 2^31 bytes with
size + 2 <= buffer capacity for every chunk, every peek returning at least the complete
chunk-size line and the reads delivering their bytes, read_http_response_body_chunked on a
fresh chunked response leaves the body equal to the concatenation of the chunk data in order
and content_length equal to its length, whatever that length is; the returned `int` is the
length converted from `size_t`, which is the length itself below 2^31 bytes; the bytes after
the stream stay pending. -/
theorem read_body_chunked_spec (c : Connection) (buf : Str) (response : HTTPResponse)
    (chunks : List (Str × Str)) (rest : Str)
    (hconn : c.connected = true) (hdone : c.done = false)
    (hpend : c.pending = chunked_stream chunks ++ rest)
    (hresp : response.chunked = true ∧ response.body = [] ∧ response.content_length = 0)
    (hwf : ∀ ch ∈ chunks, ch.1 ≠ [] ∧ (∀ x ∈ ch.1, is_digit 16 x = true) ∧
      digits_value 16 ch.1 = ch.2.length ∧ 1 ≤ ch.2.length ∧ ch.2.length + 2 ≤ buf.length)
    (hcap : 5 ≤ buf.length ∧ buf.length < 2 ^ 31)
    (hscript : chunked_script_ok buf.length chunks c.script = true) :
    (∃ (buf1 : Str) (c1 : Connection),
      c.read_http_response_body_chunked buf response
        = some (int_of_size (chunks.map (·.2)).flatten.length, buf1,
            { response with body := (chunks.map (·.2)).flatten,
                            content_length := (chunks.map (·.2)).flatten.length }, c1) ∧
      c1.pending = rest ∧ c1.connected = true) ∧
    ((chunks.map (·.2)).flatten.length < 2 ^ 31 →
      int_of_size (chunks.map (·.2)).flatten.length = ((chunks.map (·.2)).flatten.length : Int)) :=
  ⟨read_body_chunked_ok c buf response chunks rest hconn hdone hpend hresp hwf hcap hscript,
    int_of_size_small _⟩

/-- The stream of scenario S2: '5 CRLF hello CRLF 6 CRLF  world CRLF 0 CRLF CRLF' with a
buffer of 16 bytes gives the body 'hello world', content_length 11 and the return value
11. -/
theorem read_body_chunked_example :
    (sample_chunks.map (·.2)).flatten = "hello world".toList ∧
    (sample_connection.read_http_response_body_chunked (List.replicate 16 '.')
        sample_chunked_response).map
      (fun out => (out.1, out.2.2.1.body, out.2.2.1.content_length))
      = some (11, "hello world".toList, 11) ∧
    (∃ (buf1 : Str) (c1 : Connection),
      sample_connection.read_http_response_body_chunked (List.replicate 16 '.')
          sample_chunked_response
        = some (int_of_size (sample_chunks.map (·.2)).flatten.length, buf1,
            { sample_chunked_response with
                body := (sample_chunks.map (·.2)).flatten,
                content_length := (sample_chunks.map (·.2)).flatten.length }, c1) ∧
      c1.pending = [] ∧ c1.connected = true) :=
  ⟨by decide, by decide,
    (read_body_chunked_spec sample_connection (List.replicate 16 '.') sample_chunked_response
      sample_chunks [] (by decide) (by decide) (by decide) (by decide) (by decide) (by decide)
      (by decide)).1⟩

/-- C2, failing input: a well-formed chunked stream of 2^19 chunks of 4096 bytes, read with a
buffer of 4098 bytes (every chunk satisfies size + 2 <= capacity, every recv delivers what is
asked for).  The body is the concatenation of the chunk data, 2^31 bytes, and content_length
is 2^31, but the `int` that read_http_response_body_chunked returns is -2147483648, not the
length of the body: `return response.body().size()` converts the `size_t` to `int`. -/
theorem C2_return_value_wraps :
    ∃ (buf1 : Str) (r1 : HTTPResponse) (c1 : Connection),
      (big_connection (2 ^ 19)).read_http_response_body_chunked (List.replicate 4098 '.')
          sample_chunked_response
        = some (-2147483648, buf1, r1, c1) ∧
      r1.body = ((List.replicate (2 ^ 19) big_chunk).map (·.2)).flatten ∧
      r1.body.length = 2147483648 ∧ r1.content_length = 2147483648 := by
  obtain ⟨buf1, c1, h⟩ := big_connection_result (2 ^ 19)
  have hv : int_of_size (4096 * 2 ^ 19) = -2147483648 := by decide
  rw [hv] at h
  exact ⟨buf1, _, c1, h, rfl, by rw [big_body_length]; norm_num, by norm_num⟩

/-! ### The timeouts of a worker -/

theorem int_quot_nonpos (t : Int) (h : t ≤ 0) : int_quot t 4 ≤ 0 := by
  unfold int_quot
  obtain ⟨n, rfl⟩ : ∃ n : Nat, t = -(n : Int) := ⟨(-t).toNat, by omega⟩
  rw [Int.neg_tdiv]
  have : (0 : Int) ≤ Int.tdiv (n : Int) 4 := Int.tdiv_nonneg (by omega) (by decide)
  omega

/-- C18: for every integer timeout t given to the constructor, proxy_timeout is t seconds and
gateway_timeout is max(t / 4, 1) seconds, where t / 4 is the quotient of the C++ int division;
the value is the same with the flooring quotient, it is never below one second, and for the
timeout 20 that main passes it is 5 seconds. -/
theorem C18_gateway_timeout (t : Int) :
    (ProxyConnection.timeouts t).proxy_timeout = t ∧
      (ProxyConnection.timeouts t).gateway_timeout = max (int_quot t 4) 1 ∧
      (ProxyConnection.timeouts t).gateway_timeout = max (t / 4) 1 ∧
      1 ≤ (ProxyConnection.timeouts t).gateway_timeout ∧
      (0 ≤ t → 4 * (int_quot t 4) ≤ t ∧ t < 4 * (int_quot t 4) + 4) ∧
      (ProxyConnection.timeouts main_connection_timeout_seconds).gateway_timeout = 5 := by
  refine ⟨rfl, rfl, ?_, ?_, ?_, by decide⟩
  · show max (int_quot t 4) 1 = max (t / 4) 1
    rcases Int.lt_or_le t 0 with h | h
    · have h1 := int_quot_nonpos t (by omega)
      have h2 : t / 4 ≤ 0 := by omega
      rw [max_eq_right (by omega), max_eq_right (by omega)]
    · unfold int_quot
      rw [Int.tdiv_eq_ediv h (by decide)]
  · show 1 ≤ max (int_quot t 4) 1
    exact le_max_right _ _
  · intro h
    unfold int_quot
    rw [Int.tdiv_eq_ediv h (by decide)]
    omega

theorem C18_gateway_timeout_witness :
    (0 : Int) ≤ 20 ∧ (4 * int_quot 20 4 ≤ 20 ∧ (20 : Int) < 4 * int_quot 20 4 + 4) ∧
      (ProxyConnection.timeouts (-7)).gateway_timeout = 1 :=
  ⟨by decide, (C18_gateway_timeout 20).2.2.2.2.1 (by decide),
    by decide⟩

/-! ### Comment lines of the blacklist file -/

theorem load_line_comment (u : Int) (bl : Blacklist) (line : Str)
    (h : matches_comment_regex line = true) : load_line u bl line = bl := by
  simp [load_line, h]

theorem foldl_load_line_comments (u : Int) (lines : List Str) (bl : Blacklist)
    (h : ∀ line ∈ lines, matches_comment_regex line = true) :
    lines.foldl (load_line u) bl = bl := by
  induction lines generalizing bl with
  | nil => rfl
  | cons l ls ih =>
    rw [List.foldl_cons, load_line_comment u bl l (h l (by simp))]
    exact ih bl (fun x hx => h x (by simp [hx]))

theorem matches_comment_of_hash (line : Str) (h0 : line.head? = some '#')
    (hn : '\n' ∉ line) (hr : '\r' ∉ line) : matches_comment_regex line = true := by
  cases line with
  | nil => simp at h0
  | cons c rest =>
    simp only [List.head?_cons, Option.some.injEq] at h0
    subst h0
    simp only [matches_comment_regex, List.all_eq_true, Bool.and_eq_true, bne_iff_ne, ne_eq]
    intro x hx
    exact ⟨fun e => hn (by rw [← e]; simp [hx]), fun e => hr (by rw [← e]; simp [hx])⟩

/-- C11, as stated, fails: a blank line between two comment lines is stored as the entry "",
after which allowed("") is false; and a '#' line that ends in a carriage return (a file with
CRLF line ends) is stored as a host name. -/
theorem C11_counterexample :
    getlines "#a\n\n#b\n".toList = ["#a".toList, [], "#b".toList] ∧
      load_blacklist 0 false (some "#a\n\n#b\n".toList) [] = [[]] ∧
      allowed (load_blacklist 0 false (some "#a\n\n#b\n".toList) []) [] = false ∧
      allowed (load_blacklist 0 false (some "#a\r\n".toList) []) "#a\r".toList = false := by
  decide

/-- C11, amended: a line that begins with '#' and holds no carriage return is a comment.  A
file of such lines leaves every blacklist as it was, so from the empty blacklist allowed(s)
is true for every string s; a blank line is no comment, it stores the entry "". -/
theorem C11_comment_lines (u : Int) (file : Str) (bl : Blacklist)
    (h : ∀ line ∈ getlines file, line.head? = some '#' ∧ '\r' ∉ line) :
    load_blacklist u false (some file) bl = bl ∧
      (∀ s, allowed (load_blacklist u false (some file) []) s = true) ∧
      load_line u bl [] = blacklist_insert bl [] := by
  have hc : ∀ line ∈ getlines file, matches_comment_regex line = true := fun line hl =>
    matches_comment_of_hash line (h line hl).1 (getlines_no_newline file line hl) (h line hl).2
  refine ⟨?_, ?_, ?_⟩
  · exact foldl_load_line_comments u _ bl hc
  · intro s
    have : load_blacklist u false (some file) [] = [] := foldl_load_line_comments u _ [] hc
    rw [this]
    rfl
  · simp [load_line, matches_comment_regex, matches_ip_addr_regex, split_on_dot]

theorem C11_comment_lines_witness :
    (∀ line ∈ getlines "#hosts\n# 10.*.*.* is off\n".toList,
        line.head? = some '#' ∧ '\r' ∉ line) ∧
      load_blacklist 0 false (some "#hosts\n# 10.*.*.* is off\n".toList) ["bad.test".toList] =
        ["bad.test".toList] ∧
      (∀ s, allowed (load_blacklist 0 false (some "#hosts\n# 10.*.*.* is off\n".toList) []) s
        = true) ∧
      load_line 0 ["bad.test".toList] [] = blacklist_insert ["bad.test".toList] [] :=
  ⟨by decide, C11_comment_lines 0 "#hosts\n# 10.*.*.* is off\n".toList ["bad.test".toList]
    (by decide)⟩

/-! ### The header reader and the pieces of a chunk -/

/-- C19, failing input: the header block "A: b CRLF CRLF" followed by the body bytes "xyz",
delivered in the two segments "A: b CRLF" and "CRLF xyz" to a zeroed buffer of 16 bytes.  No
peek shows the four bytes CRLFCRLF together, so the reader takes the second segment for a
piece of the header: the output holds the three body bytes as well, they are consumed from
the socket, and the function returns 0 when the peer closes. -/
theorem C19_boundary_across_segments :
    Connection.read_http_header
        ⟨true, false, false, "A: b\r\n\r\nxyz".toList,
          [RecvEvent.data 1, RecvEvent.data 6, RecvEvent.data 6, RecvEvent.data 5,
            RecvEvent.data 5]⟩
        (List.replicate 16 (Char.ofNat 0)) =
      (0, "\r\nxyz\n".toList ++ List.replicate 10 (Char.ofNat 0), "A: b\r\n\r\nxyz".toList,
        ⟨false, false, false, [], []⟩) ∧
      find "A: b\r\n\r\nxyz".toList ['\r', '\n', '\r', '\n'] = some 4 ∧
      find (List.replicate 16 (Char.ofNat 0)) ['\r', '\n', '\r', '\n'] = none := by
  decide

set_option maxRecDepth 100000 in
/-- C20, failing input: a scratch buffer of 64 bytes and a chunk of 63 data bytes, '3f CRLF',
63 times 'a', CRLF (s + 2 = 65 bytes, read as a piece of 64 bytes and a piece of 1 byte).  The
first piece holds the 63 data bytes and the carriage return; it is not the last piece, so all
64 bytes are appended: after the first iteration of the loop the body is the data followed by
the carriage return.  The last piece is the single line feed, for which the size argument
`n_src - 2` is -1, converted to 2^64 - 1: the append throws and the exception leaves
read_http_response_body_chunked. -/
theorem C20_carriage_return_appended :
    (Connection.read_chunk_loop 1
        ⟨true, false, false, List.replicate 63 'a' ++ "\r\n0\r\n\r\n".toList,
          [RecvEvent.data 64, RecvEvent.data 64]⟩
        ("3f\r\n".toList ++ List.replicate 60 'a') sample_chunked_response 63 0 4).map
          (fun r => (r.1, r.2.2.1.body)) =
        some (LoopEnd.left 64, List.replicate 63 'a' ++ ['\r']) ∧
      size_of_int (1 - 2) = 2 ^ 64 - 1 ∧
      Connection.read_http_response_body_chunked
        ⟨true, false, false,
          "3f\r\n".toList ++ List.replicate 63 'a' ++ "\r\n0\r\n\r\n".toList,
          List.replicate 12 (RecvEvent.data 64)⟩
        (zero_buffer 64) sample_chunked_response = none := by
  decide

/-! ### connect and the address cache -/

theorem cache_get_remove (cache : AddrCache) (key : Str) :
    cache_get (cache_remove cache key) key = none := by
  induction cache with
  | nil => rfl
  | cons kv rest ih =>
    obtain ⟨k, v⟩ := kv
    by_cases h : k = key
    · simpa [cache_remove, List.filter_cons, h] using ih
    · simpa [cache_remove, List.filter_cons, h, cache_get] using ih

theorem cache_get_put (cache : AddrCache) (key : Str) (value : AddrInfo) :
    cache_get (cache_put cache key value) key = some value := by
  simp [cache_put, cache_get]

theorem connect_addr_sockfd (ip_text : AddrInfo → Option Str) (s : ConnectState)
    (addr : AddrInfo) :
    (Connection.connect_addr ip_text s addr).sockfd = -1 ∨
      0 ≤ (Connection.connect_addr ip_text s addr).sockfd := by
  unfold Connection.connect_addr
  split
  · right; simp
  · left; rfl

theorem connect_addr_cache (ip_text : AddrInfo → Option Str) (s : ConnectState)
    (addr : AddrInfo) : (Connection.connect_addr ip_text s addr).cache = s.cache := by
  unfold Connection.connect_addr
  split <;> rfl

theorem connect_addr_key (ip_text : AddrInfo → Option Str) (s : ConnectState)
    (addr : AddrInfo) :
    connect_key (Connection.connect_addr ip_text s addr).uri = connect_key s.uri := by
  unfold Connection.connect_addr
  split <;> rfl

theorem connect_candidates_failed (ip_text : AddrInfo → Option Str) (key : Str)
    (l : List AddrInfo) (s : ConnectState)
    (h : (Connection.connect_candidates ip_text key l s).sockfd < 0) :
    (Connection.connect_candidates ip_text key l s).cache = s.cache := by
  induction l generalizing s with
  | nil => rfl
  | cons rp rest ih =>
    simp only [Connection.connect_candidates] at h ⊢
    split at h
    · rename_i h1
      rw [if_pos h1, ih _ h, connect_addr_cache]
    · rename_i h1
      exfalso
      rcases connect_addr_sockfd ip_text s rp with h2 | h2
      · exact h1 h2
      · simp only at h
        omega

theorem connect_resolve_failed (ip_text : AddrInfo → Option Str)
    (resolver : Option (List AddrInfo)) (key : Str) (s : ConnectState)
    (h : (Connection.connect_resolve ip_text resolver key s).1 < 0) :
    (Connection.connect_resolve ip_text resolver key s).2.cache = s.cache := by
  unfold Connection.connect_resolve at h ⊢
  cases resolver with
  | none => rfl
  | some server_info =>
    simp only at h ⊢
    rw [connect_candidates_failed ip_text key server_info _ h]

theorem connect_candidates_trace (ip_text : AddrInfo → Option Str) (key : Str)
    (l : List AddrInfo) (s : ConnectState) :
    ∃ later, (Connection.connect_candidates ip_text key l s).trace = s.trace ++ later := by
  induction l generalizing s with
  | nil => exact ⟨[], by simp [Connection.connect_candidates]⟩
  | cons rp rest ih =>
    simp only [Connection.connect_candidates]
    have h0 : ∃ ev, (Connection.connect_addr ip_text s rp).trace = s.trace ++ [ev] := by
      unfold Connection.connect_addr
      split
      · exact ⟨_, rfl⟩
      · exact ⟨_, rfl⟩
    obtain ⟨ev, h0⟩ := h0
    split
    · obtain ⟨later, hl⟩ := ih (Connection.connect_addr ip_text s rp)
      exact ⟨ev :: later, by rw [hl, h0]; simp⟩
    · exact ⟨[ev, ConnectEvent.stored key rp], by simp [h0]⟩

theorem connect_resolve_trace (ip_text : AddrInfo → Option Str)
    (resolver : Option (List AddrInfo)) (key : Str) (s : ConnectState) :
    ∃ later,
      (Connection.connect_resolve ip_text resolver key s).2.trace =
        s.trace ++ ConnectEvent.resolve s.uri.host s.uri.port :: later := by
  unfold Connection.connect_resolve
  cases resolver with
  | none => exact ⟨[], rfl⟩
  | some server_info =>
    obtain ⟨later, hl⟩ := connect_candidates_trace ip_text key server_info
      { s with trace := s.trace ++ [ConnectEvent.resolve s.uri.host s.uri.port] }
    exact ⟨later, by simp only [hl]; simp⟩

theorem connect_candidates_first_success (ip_text : AddrInfo → Option Str) (key : Str)
    (fails : List AddrInfo) (good : AddrInfo) (rest : List AddrInfo) (fd : Nat)
    (more : List (Option Nat)) (sockfd : Int) (uri : ProxyURI) (cache : AddrCache)
    (trace : List ConnectEvent) :
    Connection.connect_candidates ip_text key (fails ++ good :: rest)
        ⟨sockfd, uri, cache, List.replicate fails.length none ++ some fd :: more, trace⟩ =
      ⟨(fd : Int), { uri with ip := (ip_text good).getD uri.ip }, cache_put cache key good, more,
        trace ++ fails.map (fun a => ConnectEvent.attempt a none) ++
          [ConnectEvent.attempt good (some fd), ConnectEvent.stored key good]⟩ := by
  induction fails generalizing sockfd trace with
  | nil =>
    have : ¬ ((fd : Int) = -1) := by omega
    simp [Connection.connect_candidates, Connection.connect_addr, this]
  | cons a fails ih =>
    simp only [List.cons_append, Connection.connect_candidates, Connection.connect_addr,
      List.length_cons, List.replicate_succ, List.headD_cons, List.tail_cons, if_true]
    refine (ih (-1) (trace ++ [ConnectEvent.attempt a none])).trans ?_
    simp

/-- C16: for every address cache, resolver result and outcomes of the socket connects, when
Connection::connect returns a negative descriptor the address cache afterwards holds no
entry for the key host + ":" + port; and when the cached record's connect fails, the events
that follow the failed attempt are the removal of the key and then the call of the resolver,
which works on a cache without an entry for the key. -/
theorem C16_failed_connect_leaves_no_entry (ip_text : AddrInfo → Option Str)
    (resolver : Option (List AddrInfo)) (s : ConnectState)
    (h : (Connection.connect ip_text resolver s).1 < 0) :
    cache_get (Connection.connect ip_text resolver s).2.cache (connect_key s.uri) = none ∧
      (∀ addr, cache_get s.cache (connect_key s.uri) = some addr →
        ∃ later,
          (Connection.connect ip_text resolver s).2.trace =
            s.trace ++ ConnectEvent.attempt addr none ::
              ConnectEvent.removed (connect_key s.uri) ::
              ConnectEvent.resolve s.uri.host s.uri.port :: later) := by
  unfold Connection.connect at h ⊢
  cases hc : cache_get s.cache (connect_key s.uri) with
  | none =>
    simp only [hc] at h ⊢
    refine ⟨?_, fun addr ha => by cases ha⟩
    rw [connect_resolve_failed ip_text resolver _ s h]
    exact hc
  | some addr =>
    simp only [hc] at h ⊢
    have hfail : ¬ (Connection.connect_addr ip_text s addr).sockfd ≥ 0 := by
      intro hge
      rw [if_pos hge] at h
      simp only at h
      omega
    rw [if_neg hfail] at h ⊢
    have hs1 : Connection.connect_addr ip_text s addr =
        { s with outcomes := s.outcomes.tail, sockfd := -1,
                 trace := s.trace ++ [ConnectEvent.attempt addr none] } := by
      unfold Connection.connect_addr at hfail ⊢
      split
      · rename_i fd hfd
        rw [hfd] at hfail
        simp at hfail
      · rfl
    refine ⟨?_, ?_⟩
    · rw [connect_resolve_failed ip_text resolver _ _ h]
      simp only [connect_addr_cache]
      exact cache_get_remove s.cache _
    · intro addr1 ha
      cases ha
      obtain ⟨later, hl⟩ := connect_resolve_trace ip_text resolver (connect_key s.uri)
        { Connection.connect_addr ip_text s addr with
          cache := cache_remove (Connection.connect_addr ip_text s addr).cache (connect_key s.uri)
          trace := (Connection.connect_addr ip_text s addr).trace ++
            [ConnectEvent.removed (connect_key s.uri)] }
      refine ⟨later, ?_⟩
      rw [hl, hs1]
      simp

theorem C16_failed_connect_leaves_no_entry_witness :
    (Connection.connect (fun _ => none) (some [sample_addr 2]) sample_stale_state).1 < 0 ∧
      (cache_get (Connection.connect (fun _ => none) (some [sample_addr 2])
          sample_stale_state).2.cache (connect_key sample_stale_state.uri) = none ∧
        (∀ addr, cache_get sample_stale_state.cache (connect_key sample_stale_state.uri)
            = some addr →
          ∃ later,
            (Connection.connect (fun _ => none) (some [sample_addr 2])
                sample_stale_state).2.trace =
              sample_stale_state.trace ++ ConnectEvent.attempt addr none ::
                ConnectEvent.removed (connect_key sample_stale_state.uri) ::
                ConnectEvent.resolve sample_stale_state.uri.host sample_stale_state.uri.port ::
                later)) :=
  ⟨by decide,
    C16_failed_connect_leaves_no_entry (fun _ => none) (some [sample_addr 2]) sample_stale_state
      (by decide)⟩

theorem cache_put_remove (cache : AddrCache) (key : Str) (value : AddrInfo) :
    cache_put (cache_remove cache key) key value = cache_put cache key value := by
  simp [cache_put, cache_remove, List.filter_filter]

/-- The events of the attempt with a cached record that fails: the attempt and the removal
of the key; none when the cache holds no record. -/
theorem connect_stale_part (ip_text : AddrInfo → Option Str) (cands : List AddrInfo)
    (stale : Option AddrInfo) (tail : List (Option Nat)) (sockfd : Int) (uri : ProxyURI)
    (cache : AddrCache) (trace : List ConnectEvent)
    (hget : cache_get cache (connect_key uri) = stale) :
    Connection.connect ip_text (some cands)
        ⟨sockfd, uri, cache, stale.toList.map (fun _ => none) ++ tail, trace⟩ =
      Connection.connect_resolve ip_text (some cands) (connect_key uri)
        ⟨if stale.isSome then -1 else sockfd, uri,
          if stale.isSome then cache_remove cache (connect_key uri) else cache, tail,
          trace ++ (stale.toList.map (fun a =>
            [ConnectEvent.attempt a none, ConnectEvent.removed (connect_key uri)])).flatten⟩ := by
  cases stale with
  | none => simp [Connection.connect, hget]
  | some a => simp [Connection.connect, hget, Connection.connect_addr]

/-- C17: when the address cache has no usable entry for the key host + ":" + port (no record,
or a record `stale` whose connect fails and which is removed) and the resolver gives the
candidates fails ++ good :: rest, of which those of `fails` fail to connect and `good`
connects, Connection::connect calls the resolver, tries the candidates of `fails` in their
order and then `good`, tries none of `rest`, returns the descriptor and stores `good` under
the key.  A later connect with the same key on that cache tries `good` first and, when it
succeeds, returns without a call of the resolver; after remove(key) the first event of a
connect is the call of the resolver again. -/
theorem C17_connect_caches_first_success (ip_text : AddrInfo → Option Str)
    (stale : Option AddrInfo) (fails : List AddrInfo) (good : AddrInfo) (rest : List AddrInfo)
    (fd fd2 : Nat) (more more2 : List (Option Nat)) (resolver2 : Option (List AddrInfo))
    (s : ConnectState)
    (hget : cache_get s.cache (connect_key s.uri) = stale)
    (hout : s.outcomes =
      stale.toList.map (fun _ => none) ++
        (List.replicate fails.length none ++ some fd :: more)) :
    (Connection.connect ip_text (some (fails ++ good :: rest)) s).1 = (fd : Int) ∧
      (Connection.connect ip_text (some (fails ++ good :: rest)) s).2.trace =
        s.trace ++
          (stale.toList.map (fun a =>
            [ConnectEvent.attempt a none, ConnectEvent.removed (connect_key s.uri)])).flatten ++
          ConnectEvent.resolve s.uri.host s.uri.port ::
          fails.map (fun a => ConnectEvent.attempt a none) ++
          [ConnectEvent.attempt good (some fd), ConnectEvent.stored (connect_key s.uri) good] ∧
      (Connection.connect ip_text (some (fails ++ good :: rest)) s).2.outcomes = more ∧
      (Connection.connect ip_text (some (fails ++ good :: rest)) s).2.cache =
        cache_put s.cache (connect_key s.uri) good ∧
      (∀ s2 : ConnectState,
        s2.cache = (Connection.connect ip_text (some (fails ++ good :: rest)) s).2.cache →
        connect_key s2.uri = connect_key s.uri → s2.outcomes = some fd2 :: more2 →
        (Connection.connect ip_text resolver2 s2).1 = (fd2 : Int) ∧
          (Connection.connect ip_text resolver2 s2).2.trace =
            s2.trace ++ [ConnectEvent.attempt good (some fd2)]) ∧
      (∀ s3 : ConnectState,
        s3.cache =
          cache_remove (Connection.connect ip_text (some (fails ++ good :: rest)) s).2.cache
            (connect_key s.uri) →
        connect_key s3.uri = connect_key s.uri →
        ∃ later,
          (Connection.connect ip_text resolver2 s3).2.trace =
            s3.trace ++ ConnectEvent.resolve s3.uri.host s3.uri.port :: later) := by
  have hr : Connection.connect ip_text (some (fails ++ good :: rest)) s =
      ((fd : Int),
        ⟨(fd : Int), { s.uri with ip := (ip_text good).getD s.uri.ip },
          cache_put s.cache (connect_key s.uri) good, more,
          s.trace ++
            (stale.toList.map (fun a =>
              [ConnectEvent.attempt a none, ConnectEvent.removed (connect_key s.uri)])).flatten ++
            ConnectEvent.resolve s.uri.host s.uri.port ::
            fails.map (fun a => ConnectEvent.attempt a none) ++
            [ConnectEvent.attempt good (some fd), ConnectEvent.stored (connect_key s.uri) good]⟩) := by
    obtain ⟨sockfd, uri, cache, outcomes, trace⟩ := s
    simp only at hout hget
    subst hout
    rw [connect_stale_part ip_text _ stale _ sockfd uri cache trace hget]
    simp only [Connection.connect_resolve]
    rw [connect_candidates_first_success]
    cases stale with
    | none => simp
    | some a => simp [cache_put_remove]
  rw [hr]
  refine ⟨rfl, rfl, rfl, rfl, ?_, ?_⟩
  · intro s2 hc hk ho
    simp only at hc
    have hg : cache_get s2.cache (connect_key s2.uri) = some good := by
      rw [hc, hk]; exact cache_get_put _ _ _
    have hge : (fd2 : Int) ≥ 0 := by omega
    simp [Connection.connect, hg, Connection.connect_addr, ho, hge]
  · intro s3 hc hk
    simp only at hc
    have hg : cache_get s3.cache (connect_key s3.uri) = none := by
      rw [hc, hk]; exact cache_get_remove _ _
    simp only [Connection.connect, hg]
    exact connect_resolve_trace ip_text resolver2 _ s3

theorem C17_connect_caches_first_success_witness :
    cache_get sample_fresh_state.cache (connect_key sample_fresh_state.uri) = none ∧
      (Connection.connect (fun _ => none) (some [sample_addr 1, sample_addr 2, sample_addr 3])
          sample_fresh_state).1 = 7 ∧
      (Connection.connect (fun _ => none) (some [sample_addr 1, sample_addr 2, sample_addr 3])
          sample_fresh_state).2.trace =
        [ConnectEvent.resolve "x.test".toList "80".toList,
          ConnectEvent.attempt (sample_addr 1) none, ConnectEvent.attempt (sample_addr 2) (some 7),
          ConnectEvent.stored "x.test:80".toList (sample_addr 2)] ∧
      (Connection.connect (fun _ => none) none
          ⟨-1, sample_uri,
            (Connection.connect (fun _ => none)
              (some [sample_addr 1, sample_addr 2, sample_addr 3]) sample_fresh_state).2.cache,
            [some 8], []⟩).2.trace = [ConnectEvent.attempt (sample_addr 2) (some 8)] ∧
      (Connection.connect (fun _ => none) (some [sample_addr 2]) sample_stale_then_good).2.trace =
        [ConnectEvent.attempt (sample_addr 1) none, ConnectEvent.removed "x.test:80".toList,
          ConnectEvent.resolve "x.test".toList "80".toList,
          ConnectEvent.attempt (sample_addr 2) (some 7),
          ConnectEvent.stored "x.test:80".toList (sample_addr 2)] :=
  have h := C17_connect_caches_first_success (fun _ => none) none [sample_addr 1] (sample_addr 2)
    [sample_addr 3] 7 8 [none] [] none sample_fresh_state (by decide) (by decide)
  ⟨by decide, h.1, h.2.1,
    (h.2.2.2.2.1
      ⟨-1, sample_uri,
        (Connection.connect (fun _ => none)
          (some [sample_addr 1, sample_addr 2, sample_addr 3]) sample_fresh_state).2.cache,
        [some 8], []⟩ rfl rfl rfl).2,
    (C17_connect_caches_first_success (fun _ => none) (some (sample_addr 1)) [] (sample_addr 2)
      [] 7 8 [] [] none sample_stale_then_good (by decide) (by decide)).2.1⟩

/-! ### The handling of one request -/

theorem trace_client_send_n (w : Worker) (a : Action) :
    (w.client_send_n a).2.trace = w.trace ++ [a] := rfl

theorem trace_send_or_break (w : Worker) (a : Action) :
    (w.send_or_break a).trace = w.trace ++ [a] := by
  unfold Worker.send_or_break
  split <;> rename_i h <;> rw [← trace_client_send_n w a, h]

theorem trace_send_and_break (w : Worker) (a : Action) :
    (w.send_and_break a).2.trace = w.trace ++ [a] := by
  unfold Worker.send_and_break
  split <;> rename_i h <;> rw [← trace_client_send_n w a, h]

/-- C13: for every request whose URI host is in the blacklist, whatever its method and
whatever the connections and the page cache would answer, the only call that the worker makes
for the request is the sending of a 403 Forbidden response to the client: it makes no
page-cache lookup, no upstream connect and no tunnel. -/
theorem C13_blacklisted_host_forbidden (bl : Blacklist) (cached : Option HTTPResponse)
    (in_time : List Bool) (w : Worker) (h : w.request.proxy_uri.host ∈ bl) :
    (ProxyConnection.handle_request bl cached in_time w).trace =
        w.trace ++ [Action.send_status ResponseCode.Forbidden] ∧
      ResponseCode.Forbidden.value = 403 ∧
      (∀ a ∈ [Action.send_status ResponseCode.Forbidden],
        (∀ uri, a ≠ Action.cache_get uri) ∧ (∀ uri, a ≠ Action.server_connect uri) ∧
          (∀ request, a ≠ Action.tunnel request)) := by
  have hna : allowed bl w.request.proxy_uri.host = false := by simp [allowed, h]
  refine ⟨?_, rfl, ?_⟩
  · unfold ProxyConnection.handle_request
    rw [if_pos hna]
    exact trace_send_or_break w _
  · intro a ha
    simp only [List.mem_singleton] at ha
    subst ha
    exact ⟨fun _ e => (by cases e), fun _ e => (by cases e), fun _ e => (by cases e)⟩

theorem C13_blacklisted_host_forbidden_witness :
    (sample_worker (HTTPRequest.parse empty_uri
        "GET http://bad.test/ HTTP/1.1\r\n\r\n".toList)).request.proxy_uri.host ∈
        ["bad.test".toList] ∧
      (ProxyConnection.handle_request ["bad.test".toList] (some sample_ok_response) [true]
        (sample_worker (HTTPRequest.parse empty_uri
          "GET http://bad.test/ HTTP/1.1\r\n\r\n".toList))).trace =
        [Action.send_status ResponseCode.Forbidden] :=
  ⟨by decide,
    (C13_blacklisted_host_forbidden ["bad.test".toList] (some sample_ok_response) [true]
      (sample_worker (HTTPRequest.parse empty_uri
        "GET http://bad.test/ HTTP/1.1\r\n\r\n".toList)) (by decide)).1⟩

theorem method_parse (dflt : ProxyURI) (message : Str) :
    (HTTPRequest.parse dflt message).method =
      parse_method (read_token ((getlines message).headD [])).1 := by
  unfold HTTPRequest.parse
  simp only [apply_ite HTTPRequest.method, ite_self]

theorem parse_method_other (token : Str) (hget : token ≠ "GET".toList)
    (hconnect : token ≠ "CONNECT".toList) :
    parse_method token = RequestMethod.HEAD ∨ parse_method token = RequestMethod.POST ∨
      parse_method token = RequestMethod.UNKNOWN := by
  unfold parse_method
  rw [if_neg hget]
  split
  · exact Or.inl rfl
  · split
    · exact Or.inr (Or.inl rfl)
    · simp only [if_neg hconnect]
      exact Or.inr (Or.inr trivial)

/-- C14: for every request that the constructor parses from a message whose method token
(the first token of the first line) is neither "GET" nor "CONNECT", and whose host is not in
the blacklist, the method is HEAD, POST or UNKNOWN and the only call that the worker makes
for the request is the sending of a 400 Bad Request response to the client: no page-cache
call, no upstream connect or send, no tunnel. -/
theorem C14_other_methods_bad_request (dflt : ProxyURI) (bl : Blacklist)
    (cached : Option HTTPResponse) (in_time : List Bool) (w : Worker) (message : Str)
    (hreq : w.request = HTTPRequest.parse dflt message)
    (hhost : w.request.proxy_uri.host ∉ bl)
    (hget : (read_token ((getlines message).headD [])).1 ≠ "GET".toList)
    (hconnect : (read_token ((getlines message).headD [])).1 ≠ "CONNECT".toList) :
    (ProxyConnection.handle_request bl cached in_time w).trace =
        w.trace ++ [Action.send_status ResponseCode.BadRequest] ∧
      ResponseCode.BadRequest.value = 400 ∧
      (w.request.method = RequestMethod.HEAD ∨ w.request.method = RequestMethod.POST ∨
        w.request.method = RequestMethod.UNKNOWN) ∧
      (∀ a ∈ [Action.send_status ResponseCode.BadRequest],
        (∀ uri, a ≠ Action.cache_get uri) ∧ (∀ uri r, a ≠ Action.cache_put uri r) ∧
          (∀ uri, a ≠ Action.server_connect uri) ∧ (∀ request, a ≠ Action.server_send request) ∧
          (∀ request, a ≠ Action.tunnel request)) := by
  have hm := parse_method_other _ hget hconnect
  rw [← method_parse dflt message, ← hreq] at hm
  have hal : ¬ (allowed bl w.request.proxy_uri.host = false) := by simp [allowed, hhost]
  have hne : w.request.method ≠ RequestMethod.GET ∧ w.request.method ≠ RequestMethod.CONNECT := by
    rcases hm with h | h | h <;> rw [h] <;> exact ⟨by decide, by decide⟩
  refine ⟨?_, rfl, hm, ?_⟩
  · unfold ProxyConnection.handle_request
    rw [if_neg hal, if_pos hne]
    exact trace_send_or_break w _
  · intro a ha
    simp only [List.mem_singleton] at ha
    subst ha
    exact ⟨fun _ e => (by cases e), fun _ _ e => (by cases e), fun _ e => (by cases e),
      fun _ e => (by cases e), fun _ e => (by cases e)⟩

theorem C14_other_methods_bad_request_witness :
    "x.test".toList ∉ ["bad.test".toList] ∧
      (read_token ((getlines "POST http://x.test/ HTTP/1.1\r\n\r\n".toList).headD [])).1
        = "POST".toList ∧
      (ProxyConnection.handle_request ["bad.test".toList] (some sample_ok_response) [true]
        (sample_worker (HTTPRequest.parse empty_uri
          "POST http://x.test/ HTTP/1.1\r\n\r\n".toList))).trace =
        [Action.send_status ResponseCode.BadRequest] :=
  ⟨by decide, by decide,
    (C14_other_methods_bad_request empty_uri ["bad.test".toList] (some sample_ok_response)
      [true]
      (sample_worker (HTTPRequest.parse empty_uri "POST http://x.test/ HTTP/1.1\r\n\r\n".toList))
      "POST http://x.test/ HTTP/1.1\r\n\r\n".toList rfl (by decide) (by decide) (by decide)).1⟩

/-- Every `put` of a trace stores a response with code 200. -/
theorem puts_ok_append_one (t : List Action) (a : Action)
    (ht : ∀ uri r, Action.cache_put uri r ∈ t → r.code = 200)
    (ha : ∀ uri r, a = Action.cache_put uri r → r.code = 200) :
    ∀ uri r, Action.cache_put uri r ∈ t ++ [a] → r.code = 200 := by
  intro uri r h
  rcases List.mem_append.1 h with h | h
  · exact ht uri r h
  · exact ha uri r (List.mem_singleton.1 h).symm

theorem puts_ok_send_and_break (w : Worker) (a : Action)
    (ht : ∀ uri r, Action.cache_put uri r ∈ w.trace → r.code = 200)
    (ha : ∀ uri r, a = Action.cache_put uri r → r.code = 200) :
    ∀ uri r, Action.cache_put uri r ∈ (w.send_and_break a).2.trace → r.code = 200 := by
  rw [trace_send_and_break]
  exact puts_ok_append_one _ _ ht ha

theorem puts_ok_reconnect (bl : Blacklist) (w : Worker)
    (ht : ∀ uri r, Action.cache_put uri r ∈ w.trace → r.code = 200) :
    ∀ uri r, Action.cache_put uri r ∈ (ProxyConnection.reconnect bl w).2.trace →
      r.code = 200 := by
  have h2 : ∀ uri r, Action.cache_put uri r ∈
      w.trace ++ [Action.server_close, Action.server_connect w.request.proxy_uri] →
      r.code = 200 := by
    intro uri r h
    rcases List.mem_append.1 h with h | h
    · exact ht uri r h
    · simp at h
  unfold ProxyConnection.reconnect
  split
  · split
    · exact puts_ok_send_and_break _ _ h2 (fun _ _ e => by cases e)
    · dsimp only
      split
      · exact puts_ok_send_and_break _ _ h2 (fun _ _ e => by cases e)
      · exact h2
  · exact ht

theorem puts_ok_forward_once (bl : Blacklist) (w : Worker)
    (ht : ∀ uri r, Action.cache_put uri r ∈ w.trace → r.code = 200) :
    ∀ uri r, Action.cache_put uri r ∈ (ProxyConnection.forward_once bl w).2.trace →
      r.code = 200 := by
  have h1 := puts_ok_reconnect bl w ht
  unfold ProxyConnection.forward_once
  split
  · rename_i b w1 heq
    rw [heq] at h1
    exact h1
  · rename_i w1 heq
    rw [heq] at h1
    simp only at h1
    have h2 := puts_ok_append_one _ (Action.server_send w1.request) h1 (fun _ _ e => by cases e)
    split
    · exact puts_ok_append_one _ Action.server_close h2 (fun _ _ e => by cases e)
    · have h3 := puts_ok_append_one _ (Action.server_read w1.request.proxy_uri) h2
        (fun _ _ e => by cases e)
      dsimp only
      split
      · exact puts_ok_append_one _ Action.server_close h3 (fun _ _ e => by cases e)
      · rename_i opt_response hresp
        have h4 := puts_ok_append_one _ (Action.send_response opt_response) h3
          (fun _ _ e => by cases e)
        simp only [Worker.client_send_n]
        by_cases hc : opt_response.code = ResponseCode.OK.value
        · have h5 := puts_ok_append_one _
            (Action.cache_put opt_response.proxy_uri opt_response) h4
            (fun uri r e => by cases e; exact hc)
          simp only [if_pos hc]
          split <;> exact h5
        · simp only [if_neg hc]
          split <;> exact h4

theorem puts_ok_forward_loop (bl : Blacklist) (in_time : List Bool) (w : Worker)
    (ht : ∀ uri r, Action.cache_put uri r ∈ w.trace → r.code = 200) :
    ∀ uri r, Action.cache_put uri r ∈ (ProxyConnection.forward_loop bl in_time w).2.trace →
      r.code = 200 := by
  induction in_time generalizing w with
  | nil =>
    have h1 := puts_ok_forward_once bl w ht
    unfold ProxyConnection.forward_loop
    split <;> rename_i heq <;> rw [heq] at h1 <;> exact h1
  | cons t later ih =>
    have h1 := puts_ok_forward_once bl w ht
    unfold ProxyConnection.forward_loop
    split
    · rename_i heq; rw [heq] at h1; exact h1
    · rename_i w1 heq
      rw [heq] at h1
      split
      · exact ih w1 h1
      · exact h1

theorem puts_ok_handle_request (bl : Blacklist) (cached : Option HTTPResponse)
    (in_time : List Bool) (w : Worker)
    (ht : ∀ uri r, Action.cache_put uri r ∈ w.trace → r.code = 200) :
    ∀ uri r, Action.cache_put uri r ∈ (ProxyConnection.handle_request bl cached in_time w).trace →
      r.code = 200 := by
  unfold ProxyConnection.handle_request
  split
  · rw [trace_send_or_break]
    exact puts_ok_append_one _ _ ht (fun _ _ e => by cases e)
  · split
    · rw [trace_send_or_break]
      exact puts_ok_append_one _ _ ht (fun _ _ e => by cases e)
    · split
      · exact puts_ok_append_one _ _ ht (fun _ _ e => by cases e)
      · have h1 := puts_ok_append_one _ (Action.cache_get w.request.proxy_uri) ht
          (fun _ _ e => by cases e)
        split
        · rw [trace_send_or_break]
          exact puts_ok_append_one _ _ h1 (fun _ _ e => by cases e)
        · have h2 := puts_ok_forward_loop bl in_time
            { w with trace := w.trace ++ [Action.cache_get w.request.proxy_uri] } h1
          dsimp only
          split
          · rename_i w2 heq
            rw [heq] at h2
            exact h2
          · rename_i w2 heq
            rw [heq] at h2
            rw [trace_send_or_break]
            exact puts_ok_append_one _ (Action.send_status ResponseCode.GatewayTimeout) h2
              (fun _ _ e => by cases e)

theorem puts_ok_fetch (env : FetchAnswers) (proxy_uri : ProxyURI) :
    ∀ uri r, Action.cache_put uri r ∈ (Prefetcher.fetch env proxy_uri).2 → r.code = 200 := by
  intro uri r h
  unfold Prefetcher.fetch at h
  split at h
  · simp at h
  · split at h
    · split at h
      · simp at h
      · split at h
        · split at h
          · rename_i hc
            simp at h
            rw [h.2]
            exact hc
          · simp at h
        · simp at h
    · simp at h

/-- C15: when a worker handles a request, every `put` into the page cache that it makes
stores a response whose code is 200, the value of ResponseCode::OK (if the same holds for the
calls recorded before, it holds for all calls afterwards); and every `put` that
Prefetcher::fetch makes stores a response whose code is 200. -/
theorem C15_cache_put_only_ok (bl : Blacklist) (cached : Option HTTPResponse)
    (in_time : List Bool) (w : Worker) (env : FetchAnswers) (proxy_uri : ProxyURI)
    (ht : ∀ uri r, Action.cache_put uri r ∈ w.trace → r.code = 200) :
    ResponseCode.OK.value = 200 ∧
      (∀ uri r,
        Action.cache_put uri r ∈ (ProxyConnection.handle_request bl cached in_time w).trace →
          r.code = 200) ∧
      (∀ uri r, Action.cache_put uri r ∈ (Prefetcher.fetch env proxy_uri).2 → r.code = 200) :=
  ⟨rfl, puts_ok_handle_request bl cached in_time w ht, puts_ok_fetch env proxy_uri⟩

theorem C15_cache_put_only_ok_witness :
    Action.cache_put sample_ok_response.proxy_uri sample_ok_response ∈
        (ProxyConnection.handle_request [] none []
          (sample_worker (HTTPRequest.parse empty_uri
            "GET http://x.test/ HTTP/1.1\r\n\r\n".toList))).trace ∧
      sample_ok_response.code = 200 ∧
      Action.cache_put { sample_uri with ip := "10.0.0.1".toList } sample_ok_response ∈
        (Prefetcher.fetch ⟨false, (5, "10.0.0.1".toList), 40, some sample_ok_response⟩
          sample_uri).2 :=
  ⟨by decide,
    (C15_cache_put_only_ok [] none []
      (sample_worker (HTTPRequest.parse empty_uri "GET http://x.test/ HTTP/1.1\r\n\r\n".toList))
      ⟨false, (5, "10.0.0.1".toList), 40, some sample_ok_response⟩ sample_uri
      (fun _ _ h => nomatch h)).2.1 sample_ok_response.proxy_uri sample_ok_response (by decide),
    by decide⟩

/-! ### The number of entries of a pattern with three stars -/

set_option maxRecDepth 100000 in
theorem to_string_nat_value : ∀ n < 256, digits_value 10 (to_string_nat n) = n := by
  decide

theorem to_string_nat_inj (a b : Nat) (ha : a < 256) (hb : b < 256)
    (h : to_string_nat a = to_string_nat b) : a = b := by
  rw [← to_string_nat_value a ha, ← to_string_nat_value b hb, h]

theorem dot_not_mem_to_string_nat (v : Nat) : '.' ∉ to_string_nat v := fun e => by
  have := to_string_nat_digits v '.' e
  simp [Char.isDigit] at this

theorem append_dot_inj (x y r s : Str) (hx : '.' ∉ x) (hy : '.' ∉ y)
    (h : x ++ '.' :: r = y ++ '.' :: s) : x = y ∧ r = s := by
  induction x generalizing y with
  | nil =>
    cases y with
    | nil => simpa using h
    | cons d y =>
      simp only [List.nil_append, List.cons_append, List.cons.injEq] at h
      exact absurd (by rw [← h.1]; simp) hy
  | cons c x ih =>
    cases y with
    | nil =>
      simp only [List.nil_append, List.cons_append, List.cons.injEq] at h
      exact absurd (by rw [h.1]; simp) hx
    | cons d y =>
      simp only [List.cons_append, List.cons.injEq] at h
      have := ih y (fun e => hx (by simp [e])) (fun e => hy (by simp [e])) h.2
      exact ⟨by rw [h.1, this.1], this.2⟩

theorem loop_counter_bytes (i : Nat) :
    (List.range 3).map (fun j => (i >>> (8 * j)) &&& 0xFF) =
      [i % 256, i / 256 % 256, i / 65536 % 256] := by
  have h255 : (0xFF : Nat) = 2 ^ 8 - 1 := by norm_num
  have hr : List.range 3 = [0, 1, 2] := by decide
  rw [hr]
  simp only [List.map_cons, List.map_nil, h255, Nat.and_pow_two_sub_one_eq_mod,
    Nat.shiftRight_eq_div_pow]
  norm_num

theorem expand_three_stars (i : Nat) :
    expand_pattern "10.*.*.*".toList 3 i =
      "10.".toList ++ to_string_nat (i % 256) ++ '.' :: to_string_nat (i / 256 % 256) ++
        '.' :: to_string_nat (i / 65536 % 256) := by
  unfold expand_pattern
  have := List.foldl_map (fun j => (i >>> (8 * j)) &&& 0xFF)
    (fun ip v => replace_first_star ip (to_string_nat v)) (List.range 3) "10.*.*.*".toList
  rw [← this, loop_counter_bytes]
  have h2 := foldl_replace_eq_instantiate "10.*.*.*".toList
    [i % 256, i / 256 % 256, i / 65536 % 256] [] (by simp)
    (by rw [show List.count '*' "10.*.*.*".toList = 3 from by decide]; simp)
  rw [List.nil_append, List.nil_append] at h2
  rw [h2]
  simp [instantiate]

theorem expand_three_stars_inj (i j : Nat) (hi : i < 2 ^ 24) (hj : j < 2 ^ 24)
    (h : expand_pattern "10.*.*.*".toList 3 i = expand_pattern "10.*.*.*".toList 3 j) :
    i = j := by
  rw [expand_three_stars, expand_three_stars] at h
  simp only [List.append_assoc] at h
  have h1 := List.append_cancel_left h
  obtain ⟨e0, h2⟩ := append_dot_inj _ _ _ _ (dot_not_mem_to_string_nat _)
    (dot_not_mem_to_string_nat _) h1
  obtain ⟨e1, e2⟩ := append_dot_inj _ _ _ _ (dot_not_mem_to_string_nat _)
    (dot_not_mem_to_string_nat _) h2
  have b0 := to_string_nat_inj _ _ (Nat.mod_lt _ (by norm_num)) (Nat.mod_lt _ (by norm_num)) e0
  have b1 := to_string_nat_inj _ _ (Nat.mod_lt _ (by norm_num)) (Nat.mod_lt _ (by norm_num)) e1
  have b2 := to_string_nat_inj _ _ (Nat.mod_lt _ (by norm_num)) (Nat.mod_lt _ (by norm_num)) e2
  norm_num at hi hj
  omega

theorem foldl_insert_eq_map (g : Nat → Str) (l : List Nat) (bl : Blacklist)
    (hnew : ∀ x ∈ l, g x ∉ bl) (hnd : (l.map g).Nodup) :
    l.foldl (fun bl i => blacklist_insert bl (g i)) bl = bl ++ l.map g := by
  induction l generalizing bl with
  | nil => simp
  | cons a l ih =>
    have ha : g a ∉ bl := hnew a (by simp)
    rw [List.map_cons, List.nodup_cons] at hnd
    rw [List.foldl_cons, blacklist_insert, if_neg ha]
    rw [ih (bl ++ [g a]) ?_ hnd.2]
    · simp
    · intro x hx
      simp only [List.mem_append, List.mem_singleton, not_or]
      refine ⟨hnew x (by simp [hx]), fun e => hnd.1 ?_⟩
      rw [← e]
      exact List.mem_map_of_mem g hx

theorem load_three_stars (u : Int) :
    load_blacklist u false (some "10.*.*.*\n".toList) [] =
      (List.range (2 ^ 24)).map (expand_pattern "10.*.*.*".toList 3) := by
  have hl : getlines "10.*.*.*\n".toList = ["10.*.*.*".toList] := by decide
  have hc : matches_comment_regex "10.*.*.*".toList = false := by decide
  have hip : matches_ip_addr_regex "10.*.*.*".toList = true := by decide
  have hn : List.count '*' "10.*.*.*".toList = 3 := by decide
  have hs : (shl_one u (8 * 3)).toNat = 2 ^ 24 := by
    have : shl_one u (8 * 3) = ((2 ^ 24 : Nat) : Int) := by
      simp [shl_one]
    rw [this, Int.toNat_natCast]
  have hfold : load_line u [] "10.*.*.*".toList =
      (List.range (2 ^ 24)).foldl
        (fun bl i => blacklist_insert bl (expand_pattern "10.*.*.*".toList 3 i)) [] := by
    unfold load_line
    rw [hc, hip, hn]
    dsimp only
    rw [if_neg (by decide : ¬ (false = true)), if_pos rfl, if_neg (by decide : ¬ (3 = 0)), hs]
  unfold load_blacklist
  dsimp only
  rw [if_neg (by decide : ¬ (false = true)), hl, List.foldl_cons, List.foldl_nil, hfold]
  rw [foldl_insert_eq_map _ _ [] (fun _ _ => List.not_mem_nil _)]
  · exact List.nil_append _
  · refine List.Nodup.map_on ?_ (List.nodup_range _)
    intro x hx y hy hxy
    exact expand_three_stars_inj x y (List.mem_range.1 hx) (List.mem_range.1 hy) hxy

theorem load_three_stars_length (u : Int) :
    (load_blacklist u false (some "10.*.*.*\n".toList) []).length = 2 ^ 24 := by
  rw [load_three_stars, List.length_map, List.length_range]

/-- C12, as stated, fails: the line '10.*.*.*' has three stars; loaded into an empty
blacklist it gives 16777216 entries, not 65536. -/
theorem C12_counterexample :
    List.count '*' "10.*.*.*".toList = 3 ∧
      (load_blacklist 0 false (some "10.*.*.*\n".toList) []).length = 16777216 ∧
      (load_blacklist 0 false (some "10.*.*.*\n".toList) []).length ≠ 65536 := by
  rw [load_three_stars_length]
  exact ⟨by decide, by norm_num, by norm_num⟩

/-- C12, amended: loading the single pattern line '10.*.*.*' into an empty blacklist, with
each '*' expanded to all 256 octet values, yields exactly 256^3 = 16777216 entries, no two of
them equal, and every address 10.a.b.c with octets below 256 is rejected afterwards. -/
theorem C12_three_stars_entries (u : Int) :
    (load_blacklist u false (some "10.*.*.*\n".toList) []).length = 256 ^ 3 ∧
      (load_blacklist u false (some "10.*.*.*\n".toList) []).Nodup ∧
      (∀ a b c, a < 256 → b < 256 → c < 256 →
        allowed (load_blacklist u false (some "10.*.*.*\n".toList) [])
          (instantiate "10.*.*.*".toList [a, b, c]) = false) := by
  refine ⟨?_, ?_, ?_⟩
  · rw [load_three_stars_length]
    norm_num
  · rw [load_three_stars]
    refine List.Nodup.map_on ?_ (List.nodup_range _)
    intro x hx y hy hxy
    exact expand_three_stars_inj x y (List.mem_range.1 hx) (List.mem_range.1 hy) hxy
  · intro a b c ha hb hc
    have hn : List.count '*' "10.*.*.*".toList = 3 := by decide
    refine load_blacklist_rejects_expansion u _ [] "10.*.*.*".toList [a, b, c] (by decide)
      (by decide) (by decide) (by rw [hn]; rfl) ?_
    intro v hv
    simp only [List.mem_cons, List.mem_singleton, List.not_mem_nil, or_false] at hv
    rcases hv with rfl | rfl | rfl <;> assumption

theorem C12_three_stars_entries_witness :
    (1 < 256 ∧ 2 < 256 ∧ 3 < 256) ∧
      instantiate "10.*.*.*".toList [1, 2, 3] = "10.1.2.3".toList ∧
      allowed (load_blacklist 0 false (some "10.*.*.*\n".toList) [])
        (instantiate "10.*.*.*".toList [1, 2, 3]) = false :=
  ⟨by decide, by decide,
    (C12_three_stars_entries 0).2.2 1 2 3 (by decide) (by decide) (by decide)⟩

/-! ### read_http_response: ends of the connection, transient errors, malformed responses -/

/-- C21, failing input: the header block of a chunked response arrives complete and the peer
closes before the first chunk.  The chunked reader returns 0 on the zero-byte read, the
response still has content_length 0, so neither test of read_http_response holds: it returns
the response object, with an empty body, and not failure.  A response with a Content-Length of
5 whose connection ends after 3 body bytes, and a chunked response whose connection ends
after the first chunk, are refused (`nullptr`). -/
theorem C21_chunked_close_before_first_chunk (maxline : Int) :
    Connection.read_http_response maxline
        ⟨true, false, false, sample_chunked_block,
          [RecvEvent.data 1, RecvEvent.data 64, RecvEvent.data 64]⟩
        (zero_buffer 64) sample_uri =
      Exit.value (some sample_chunked_response,
        sample_chunked_block ++ zero_buffer 17, ⟨false, false, false, [], []⟩) ∧
      sample_chunked_response.body = [] ∧ sample_chunked_response.chunked = true ∧
      sample_chunked_response.code = 200 ∧
      returned_response
        (Connection.read_http_response 4096
          ⟨true, false, false, sample_length_block ++ "hel".toList,
            [RecvEvent.data 1, RecvEvent.data 64, RecvEvent.data 64, RecvEvent.data 64]⟩
          (zero_buffer 64) sample_uri) = some none ∧
      returned_response
        (Connection.read_http_response 4096
          ⟨true, false, false, sample_chunked_block ++ "5\r\nhello\r\n".toList,
            [RecvEvent.data 1, RecvEvent.data 47, RecvEvent.data 47, RecvEvent.data 64,
              RecvEvent.data 64, RecvEvent.data 64]⟩
          (zero_buffer 64) sample_uri) = some none := by
  refine ⟨?_, by decide, by decide, by decide, by decide, by decide⟩
  rfl

theorem strto_parts_none (base : Nat) (hb : 0 < base) (s : Str)
    (h : ∀ ch ∈ s.head?, no_number_start base ch = true) : strto_parts base s = none := by
  cases s with
  | nil => simp [strto_parts, strip_sign, skip_hex_marker]
  | cons c r =>
    have hc := h c (by simp)
    simp only [no_number_start, Bool.and_eq_true, Bool.not_eq_true', bne_iff_ne, ne_eq] at hc
    obtain ⟨⟨⟨hsp, hminus⟩, hplus⟩, hdig⟩ := hc
    have hdrop : (c :: r).dropWhile isspace = c :: r := by simp [List.dropWhile, hsp]
    have hsign : strip_sign (c :: r) = (false, c :: r) := by
      unfold strip_sign
      split
      · rename_i heq; simp only [List.cons.injEq] at heq; exact absurd heq.1 hminus
      · rename_i heq; simp only [List.cons.injEq] at heq; exact absurd heq.1 hplus
      · rfl
    have hzero : c ≠ '0' := by
      intro e
      subst e
      have : is_digit base '0' = true := by
        simp only [is_digit, digit_val]
        simp [hb]
      rw [this] at hdig
      exact absurd hdig (by simp)
    have hskip : skip_hex_marker base (c :: r) = c :: r := by
      unfold skip_hex_marker
      split
      · rename_i heq; simp only [List.cons.injEq] at heq; exact absurd heq.1 hzero
      · rfl
    simp [strto_parts, hdrop, hsign, hskip, List.takeWhile, hdig]

theorem stoi_none (s : Str) (h : ∀ ch ∈ s.head?, no_number_start 10 ch = true) :
    stoi s = none := by
  simp [stoi, strto_parts_none 10 (by decide) s h]

theorem stoull_none (base : Nat) (hb : 0 < base) (s : Str)
    (h : ∀ ch ∈ s.head?, no_number_start base ch = true) : stoull s base = none := by
  simp [stoull, strto_parts_none base hb s h]

theorem head_take (s : Str) (j : Nat) : ∀ ch ∈ (s.take j).head?, ch ∈ s.head? := by
  intro ch h
  cases s with
  | nil => simp at h
  | cons c r =>
    cases j with
    | zero => simp at h
    | succ j => simpa using h

theorem read_chunk_size_throws (err : Bool) (tail buf : Str) (k : Nat) (s1 s2 : List RecvEvent)
    (sl : Str) (hcr : '\r' ∉ sl) (hbad : ∀ ch ∈ sl.head?, no_number_start 16 ch = true)
    (hk : sl.length + 2 ≤ min k buf.length)
    (hrs : read_n_script s1 (sl.length + 2) = some s2) :
    ((Connection.mk true err false (sl ++ '\r' :: '\n' :: tail)
        (RecvEvent.data k :: s1)).read_chunk_size buf).1 = ChunkSize.throws := by
  have hplen : (sl ++ '\r' :: '\n' :: tail).length = sl.length + 2 + tail.length := by
    simp; omega
  -- the peek
  have hm : sl.length + 2 ≤ min k (min buf.length (sl ++ '\r' :: '\n' :: tail).length) := by
    rw [hplen]; omega
  have hrecv := recv_data err (sl ++ '\r' :: '\n' :: tail) buf 0 buf.length k s1 true true
    (by omega)
  generalize min k (min buf.length (sl ++ '\r' :: '\n' :: tail).length) = m at hm hrecv
  obtain ⟨x, hx⟩ := write_take_head buf (sl ++ ['\r', '\n']) tail m (by simp; omega)
  have hpq : sl ++ ['\r', '\n'] ++ tail = sl ++ '\r' :: '\n' :: tail := by simp
  rw [hpq] at hx
  have hx' : write_at buf 0 ((sl ++ '\r' :: '\n' :: tail).take m) = sl ++ '\r' :: '\n' :: x := by
    rw [hx]; simp
  have hfind := find_crlf_first sl x hcr
  -- the read of the size line
  obtain ⟨e, he⟩ := read_n_ok err (sl ++ '\r' :: '\n' :: tail) (sl ++ '\r' :: '\n' :: x) s1 0
    (sl.length + 2) s2 hrs (by rw [hplen]; omega) (by omega)
  rw [take_chunk, drop_chunk] at he
  have hb2 : write_at (sl ++ '\r' :: '\n' :: x) 0 (sl ++ ['\r', '\n'])
      = sl ++ '\r' :: '\n' :: x := by
    rw [write_at_zero]
    have : (sl ++ '\r' :: '\n' :: x).drop (sl ++ ['\r', '\n']).length = x := by
      have : (sl ++ ['\r', '\n']).length = sl.length + 2 := by simp
      rw [this, drop_chunk]
    rw [this]; simp
  rw [hb2] at he
  have hsub : ∀ cut, cut ≤ sl.length →
      stoull (substr (sl ++ '\r' :: '\n' :: x) 0 cut) 16 = none := by
    intro cut hcut
    have : substr (sl ++ '\r' :: '\n' :: x) 0 cut = sl.take cut := by
      simp only [substr, List.drop_zero]
      rw [List.take_append_of_le_length hcut]
    rw [this]
    exact stoull_none 16 (by decide) _ (fun ch hch => hbad ch (head_take sl cut ch hch))
  unfold Connection.read_chunk_size
  simp only [if_true] at hrecv
  rw [hrecv, hx']
  have hpos : ¬ ((m : Int) ≤ 0) := by omega
  simp only [hpos, if_false, hfind, he]
  have hpos2 : ¬ (((sl.length + 2 : Nat) : Int) ≤ 0) := by omega
  simp only [hpos2, if_false]
  have hcut : (match find (sl ++ '\r' :: '\n' :: x) [';'] with
      | some chunk_extension_index => min chunk_extension_index sl.length
      | none => sl.length) ≤ sl.length := by
    split
    · exact Nat.min_le_right _ _
    · exact le_refl _
  rw [hsub _ hcut]

theorem read_body_chunked_throws (err : Bool) (tail buf : Str) (k : Nat)
    (s1 s2 : List RecvEvent) (response : HTTPResponse)
    (sl : Str) (hcr : '\r' ∉ sl) (hbad : ∀ ch ∈ sl.head?, no_number_start 16 ch = true)
    (hk : sl.length + 2 ≤ min k buf.length)
    (hrs : read_n_script s1 (sl.length + 2) = some s2) :
    (Connection.mk true err false (sl ++ '\r' :: '\n' :: tail)
        (RecvEvent.data k :: s1)).read_http_response_body_chunked buf response = none := by
  have h := read_chunk_size_throws err tail buf k s1 s2 sl hcr hbad hk hrs
  unfold Connection.read_http_response_body_chunked
  simp only [List.length_cons, Connection.read_chunks_loop]
  generalize (Connection.mk true err false (sl ++ '\r' :: '\n' :: tail)
        (RecvEvent.data k :: s1)).read_chunk_size buf = r at h
  obtain ⟨r1, r2, r3⟩ := r
  simp only at h
  subst h
  rfl

theorem parse_throws_status (header : Str) (proxy_info : ProxyURI)
    (h : stoi (read_token (read_token ((getlines header).headD [])).2).1 = none) :
    HTTPResponse.parse header proxy_info = none := by
  unfold HTTPResponse.parse
  simp only []
  rw [h]

theorem parse_throws_length (header : Str) (proxy_info : ProxyURI)
    (hc : contains (block_headers header) "Content-Length".toList = true)
    (h : stoull (get_header (block_headers header) "Content-Length".toList) 10 = none) :
    HTTPResponse.parse header proxy_info = none := by
  have hc2 := contains_default_headers (read_token ((getlines header).headD [])).1 proxy_info
    (block_headers header) "Content-Length".toList (by decide) (by decide) (by decide)
  have hg2 := get_header_default_headers (read_token ((getlines header).headD [])).1 proxy_info
    (block_headers header) "Content-Length".toList (by decide) (by decide) (by decide)
  unfold HTTPResponse.parse
  simp only []
  split
  · rfl
  · rw [hc2, hc, if_pos rfl, hg2, h]

/-- C23, failing inputs: the responses 'HTTP/1.1 abc OK' (status code token no number),
'HTTP/1.1 200 OK' with 'Content-Length: abc', and a chunked response whose first chunk-size
line is 'zz'.  In each case `std::stoi` or `std::stoull` throws and the exception leaves
read_http_response: the call returns nothing, neither a response object nor `nullptr`.  For
'HTTP/1.1 2xx OK', whose code token is no decimal number either, `std::stoi` reads the leading
2 and read_http_response returns a response object with code 2. -/
theorem C23_exception_escapes :
    Connection.read_http_response 4096
        ⟨true, false, false, "HTTP/1.1 abc OK\r\n\r\n".toList,
          [RecvEvent.data 1, RecvEvent.data 64, RecvEvent.data 64]⟩
        (zero_buffer 64) sample_uri = Exit.throws ∧
      Connection.read_http_response 4096
        ⟨true, false, false, "HTTP/1.1 200 OK\r\nContent-Length: abc\r\n\r\n".toList,
          [RecvEvent.data 1, RecvEvent.data 64, RecvEvent.data 64]⟩
        (zero_buffer 64) sample_uri = Exit.throws ∧
      Connection.read_http_response 4096 sample_bad_chunk_connection (zero_buffer 64)
        sample_uri = Exit.throws ∧
      (returned_response
        (Connection.read_http_response 4096
          ⟨true, false, false, "HTTP/1.1 2xx OK\r\n\r\n".toList,
            [RecvEvent.data 1, RecvEvent.data 64, RecvEvent.data 64]⟩
          (zero_buffer 64) sample_uri)).map (Option.map HTTPResponse.code) = some (some 2) := by
  decide

/-- Nothing handles the exceptions of the conversions.  For every response whose header block
read_http_header delivers: if `std::stoi` throws on the status code token, or the block has a
Content-Length whose value makes `std::stoull` throw, or the response is chunked and the
first chunk-size line (complete in the first peek) begins with a byte that is no hexadecimal
digit, sign or white space, then the exception leaves read_http_response, which returns
neither a response object nor failure.  The conversions throw on every text that is empty or
begins with a byte that is no digit of the base, no sign and no white space. -/
theorem malformed_response_throws (maxline : Int) (c : Connection) (buf : Str)
    (proxy_info : ProxyURI) (n : Int) (buf1 header : Str) (c1 : Connection)
    (hread : c.read_http_header buf = (n, buf1, header, c1)) (hn : 0 < n) :
    (stoi (read_token (read_token ((getlines header).headD [])).2).1 = none →
        c.read_http_response maxline buf proxy_info = Exit.throws) ∧
      (contains (block_headers header) "Content-Length".toList = true →
        stoull (get_header (block_headers header) "Content-Length".toList) 10 = none →
        c.read_http_response maxline buf proxy_info = Exit.throws) ∧
      (∀ (response : HTTPResponse) (err : Bool) (sl tail : Str) (k : Nat)
          (s1 s2 : List RecvEvent),
        HTTPResponse.parse header proxy_info = some response → response.chunked = true →
        c1 = Connection.mk true err false (sl ++ '\r' :: '\n' :: tail) (RecvEvent.data k :: s1) →
        '\r' ∉ sl → (∀ ch ∈ sl.head?, no_number_start 16 ch = true) →
        sl.length + 2 ≤ min k buf1.length → read_n_script s1 (sl.length + 2) = some s2 →
        c.read_http_response maxline buf proxy_info = Exit.throws) ∧
      (∀ s : Str,
        ((∀ ch ∈ s.head?, no_number_start 10 ch = true) → stoi s = none ∧ stoull s 10 = none) ∧
          ((∀ ch ∈ s.head?, no_number_start 16 ch = true) → stoull s 16 = none)) := by
  have hpos : ¬ n ≤ 0 := by omega
  refine ⟨?_, ?_, ?_, ?_⟩
  · intro h
    unfold Connection.read_http_response
    rw [hread]
    simp only [hpos, if_false, parse_throws_status header proxy_info h]
  · intro hc h
    unfold Connection.read_http_response
    rw [hread]
    simp only [hpos, if_false, parse_throws_length header proxy_info hc h]
  · intro response err sl tail k s1 s2 hparse hch hc1 hcr hbad hk hrs
    unfold Connection.read_http_response
    rw [hread]
    simp only [hpos, if_false, hparse]
    unfold Connection.read_http_response_body
    rw [if_pos hch, hc1, read_body_chunked_throws err tail buf1 k s1 s2 response sl hcr hbad hk hrs]
  · intro s
    exact ⟨fun h => ⟨stoi_none s h, stoull_none 10 (by decide) s h⟩,
      fun h => stoull_none 16 (by decide) s h⟩

theorem malformed_response_throws_example :
    0 < (sample_bad_status_connection.read_http_header (zero_buffer 64)).1 ∧
      stoi "abc".toList = none ∧
      sample_bad_status_connection.read_http_response 4096 (zero_buffer 64) sample_uri =
        Exit.throws ∧
      0 < (sample_bad_chunk_connection.read_http_header (zero_buffer 64)).1 ∧
      sample_bad_chunk_connection.read_http_response 4096 (zero_buffer 64) sample_uri =
        Exit.throws :=
  ⟨by decide, by decide,
    (malformed_response_throws 4096 sample_bad_status_connection (zero_buffer 64) sample_uri
      _ _ _ _ rfl (by decide)).1 (by decide),
    by decide,
    (malformed_response_throws 4096 sample_bad_chunk_connection (zero_buffer 64) sample_uri
      _ _ _ _ rfl (by decide)).2.2.1 sample_chunked_response false "zz".toList
      "hello\r\n0\r\n\r\n".toList 64 [RecvEvent.data 64] [] (by decide) (by decide) (by decide)
      (by decide) (by decide) (by decide) (by decide)⟩

/-! ### parse_links -/

theorem length_le_of_isPrefixOf (pat s : Str) (h : pat.isPrefixOf s = true) :
    pat.length ≤ s.length := by
  induction pat generalizing s with
  | nil => simp
  | cons p ps ih =>
    cases s with
    | nil => simp [List.isPrefixOf] at h
    | cons c cs =>
      simp only [List.isPrefixOf, Bool.and_eq_true] at h
      have := ih cs h.2
      simp only [List.length_cons]
      omega

theorem mem_of_isPrefixOf (pat s : Str) (h : pat.isPrefixOf s = true) :
    ∀ x ∈ pat, x ∈ s := by
  induction pat generalizing s with
  | nil => intro x hx; simp at hx
  | cons p ps ih =>
    cases s with
    | nil => simp [List.isPrefixOf] at h
    | cons c cs =>
      simp only [List.isPrefixOf, Bool.and_eq_true, beq_iff_eq] at h
      intro x hx
      rcases List.mem_cons.1 hx with hx | hx
      · rw [hx, h.1]; simp
      · exact List.mem_cons_of_mem _ (ih cs h.2 x hx)

theorem find_none_after_first (pat s : Str) (h : find s pat = none) :
    after_first pat s = none := by
  induction s with
  | nil =>
    simp only [find] at h
    simp only [after_first]
    split at h
    · simp at h
    · rename_i hp; simp [hp]
  | cons c cs ih =>
    simp only [find] at h
    simp only [after_first]
    split at h
    · simp at h
    · rename_i hp
      rw [if_neg hp]
      apply ih
      cases hf : find cs pat with
      | none => rfl
      | some i => rw [hf] at h; simp at h

theorem find_some_after_first (pat s : Str) (i : Nat) (h : find s pat = some i) :
    after_first pat s = some (s.drop (i + pat.length)) ∧ i + pat.length ≤ s.length := by
  induction s generalizing i with
  | nil =>
    simp only [find] at h
    split at h
    · rename_i hp
      simp only [Option.some.injEq] at h
      subst h
      have hp2 : pat = [] := by simpa using hp
      subst hp2
      simp [after_first]
    · simp at h
  | cons c cs ih =>
    simp only [find] at h
    simp only [after_first]
    split at h
    · rename_i hp
      simp only [Option.some.injEq] at h
      subst h
      rw [if_pos hp]
      exact ⟨by simp, by simpa using length_le_of_isPrefixOf pat (c :: cs) hp⟩
    · rename_i hp
      rw [if_neg hp]
      cases hf : find cs pat with
      | none => rw [hf] at h; simp at h
      | some j =>
        rw [hf] at h
        simp only [Option.map_some', Option.some.injEq] at h
        subst h
        obtain ⟨h1, h2⟩ := ih j hf
        refine ⟨?_, by simp only [List.length_cons]; omega⟩
        rw [h1]
        have : j + 1 + pat.length = (j + pat.length) + 1 := by omega
        rw [this, List.drop_succ_cons]

theorem find_none_iff_occurs (pat s : Str) : find s pat = none ↔ occurs pat s = false := by
  induction s with
  | nil =>
    simp only [find, occurs]
    by_cases hp : pat.isEmpty = true <;> simp [hp]
  | cons c cs ih =>
    simp only [find, occurs]
    by_cases hp : pat.isPrefixOf (c :: cs) = true
    · simp [hp]
    · simp only [hp, if_false, Bool.false_or]
      rw [← ih]
      cases find cs pat <;> simp

theorem occurs_iff (pat s : Str) : occurs pat s = true ↔ ∃ a b, s = a ++ pat ++ b := by
  induction s with
  | nil =>
    simp only [occurs]
    constructor
    · intro h
      exact ⟨[], [], by simpa using h⟩
    · rintro ⟨a, b, h⟩
      have : pat = [] := by
        have := congrArg List.length h
        simp only [List.length_nil, List.length_append] at this
        exact List.length_eq_zero.1 (by omega)
      simp [this]
  | cons c cs ih =>
    simp only [occurs, Bool.or_eq_true]
    constructor
    · rintro (h | h)
      · obtain ⟨t, ht⟩ := List.isPrefixOf_iff_prefix.1 h
        exact ⟨[], t, by simpa using ht.symm⟩
      · obtain ⟨a, b, hab⟩ := ih.1 h
        exact ⟨c :: a, b, by simp [hab]⟩
    · rintro ⟨a, b, h⟩
      cases a with
      | nil =>
        left
        exact List.isPrefixOf_iff_prefix.2 ⟨b, by simpa using h.symm⟩
      | cons a0 a =>
        right
        simp only [List.cons_append, List.cons.injEq] at h
        exact ih.2 ⟨a, b, h.2⟩

theorem find_none_of_not_mem (c : Char) (pat s : Str) (hc : c ∈ pat) (hs : c ∉ s) :
    find s pat = none := by
  induction s with
  | nil =>
    simp only [find]
    have : pat.isEmpty = false := by cases pat <;> simp at hc ⊢
    simp [this]
  | cons d ds ih =>
    simp only [find]
    have hp : ¬ pat.isPrefixOf (d :: ds) = true := fun h => hs (mem_of_isPrefixOf pat _ h c hc)
    rw [if_neg hp, ih (fun e => hs (List.mem_cons_of_mem _ e))]
    rfl

theorem split_at_quote (c : Char) (s : Str) (h : c ∈ s) :
    s = s.takeWhile (fun x => x != c) ++ c :: (s.dropWhile (fun x => x != c)).drop 1 ∧
      c ∉ s.takeWhile (fun x => x != c) := by
  induction s with
  | nil => simp at h
  | cons d ds ih =>
    by_cases hd : d = c
    · subst hd
      simp [List.takeWhile, List.dropWhile]
    · have hmem : c ∈ ds := by
        rcases List.mem_cons.1 h with h | h
        · exact absurd h.symm hd
        · exact h
      obtain ⟨h1, h2⟩ := ih hmem
      have hb : (d != c) = true := by simpa using hd
      simp only [List.takeWhile, List.dropWhile, hb, List.cons_append, List.cons.injEq, true_and,
        List.mem_cons, not_or]
      exact ⟨h1, fun e => hd e.symm, h2⟩

theorem select_links_nil (dflt : ProxyURI) (cached : ProxyURI → Bool) (base : ProxyURI) :
    select_links dflt cached base [] = [] := rfl

theorem select_links_cons (dflt : ProxyURI) (cached : ProxyURI → Bool) (base : ProxyURI)
    (link : Str) (values : List Str) :
    select_links dflt cached base (link :: values) =
      (if find link "https://".toList = none then
        if cached (parse_uri dflt link base) = false then [parse_uri dflt link base] else []
      else []) ++ select_links dflt cached base values := by
  unfold select_links
  generalize "https://".toList = pat
  by_cases ho : find link pat = none
  · have ho2 := (find_none_iff_occurs _ _).1 ho
    by_cases hc : cached (parse_uri dflt link base) = false
    · simp [List.filter_cons, ho, ho2, hc]
    · simp [List.filter_cons, ho, ho2, hc]
  · have ho2 : occurs pat link = true := by
      cases h : occurs pat link with
      | true => rfl
      | false => exact absurd ((find_none_iff_occurs _ _).2 h) ho
    simp [List.filter_cons, ho, ho2]

theorem parse_links_loop_done (dflt : ProxyURI) (cached : ProxyURI → Bool) (body : Str)
    (base : ProxyURI) (fuel start : Nat) (links : List ProxyURI)
    (h : start ≤ body.length → '"' ∉ body.drop start) :
    Prefetcher.parse_links_loop dflt cached body base (fuel + 1) start links = some links := by
  have hf : find_from body "href=\"".toList start = none := by
    unfold find_from
    split
    · rename_i hs
      rw [find_none_of_not_mem '"' _ _ (by decide) (h hs)]
      rfl
    · rfl
  simp only [Prefetcher.parse_links_loop, hf]

theorem parse_links_loop_spec (dflt : ProxyURI) (cached : ProxyURI → Bool) (body : Str)
    (base : ProxyURI) :
    ∀ (fuel n start : Nat) (links : List ProxyURI), start ≤ body.length →
      body.length + 1 - start ≤ fuel → body.length - start ≤ n →
      Prefetcher.parse_links_loop dflt cached body base fuel start links =
        some (links ++ select_links dflt cached base (href_values_upto n (body.drop start))) := by
  intro fuel
  induction fuel with
  | zero => intro n start links hs hf _; omega
  | succ fuel ih =>
    intro n start links hs hfuel hn
    have hlen : (body.drop start).length = body.length - start := by simp
    cases hfind : find (body.drop start) "href=\"".toList with
    | none =>
      have hff : find_from body "href=\"".toList start = none := by
        simp only [find_from, if_pos hs, hfind, Option.map_none']
      have hv : href_values_upto n (body.drop start) = [] := by
        cases n with
        | zero => rfl
        | succ n => simp only [href_values_upto, find_none_after_first _ _ hfind]
      simp only [Prefetcher.parse_links_loop, hff, hv, select_links_nil, List.append_nil]
    | some i =>
      have hff : find_from body "href=\"".toList start = some (i + start) := by
        simp only [find_from, if_pos hs, hfind, Option.map_some']
      obtain ⟨haf, hi⟩ := find_some_after_first _ _ _ hfind
      have h6 : "href=\"".toList.length = 6 := by decide
      rw [h6] at haf hi
      rw [hlen] at hi
      have hdrop : (body.drop start).drop (i + 6) = body.drop (i + start + 6) := by
        rw [List.drop_drop]
        congr 1
        omega
      rw [hdrop] at haf
      have hle : i + start + 6 ≤ body.length := by omega
      obtain ⟨n1, rfl⟩ : ∃ n1, n = n1 + 1 := ⟨n - 1, by omega⟩
      by_cases hq : '"' ∈ body.drop (i + start + 6)
      · obtain ⟨hsplit, hnot⟩ := split_at_quote '"' _ hq
        have hfq : find (body.drop (i + start + 6)) ['"'] =
            some ((body.drop (i + start + 6)).takeWhile (fun x => x != '"')).length := by
          conv_lhs => rw [hsplit]
          exact find_char_first '"' _ _ hnot
        have hffq : find_from body ['"'] (i + start + 6) =
            some (((body.drop (i + start + 6)).takeWhile (fun x => x != '"')).length +
              (i + start + 6)) := by
          simp only [find_from, if_pos hle, hfq, Option.map_some']
        have hlen2 := congrArg List.length hsplit
        simp only [List.length_drop, List.length_append, List.length_cons] at hlen2
        generalize htw : (body.drop (i + start + 6)).takeWhile (fun x => x != '"') = tw at *
        generalize hpost : ((body.drop (i + start + 6)).dropWhile (fun x => x != '"')).drop 1
          = post at *
        have hlink : substr body (i + start + 6) (tw.length + (i + start + 6) - (i + start + 6))
            = tw := by
          unfold substr
          rw [Nat.add_sub_cancel, hsplit]
          simp
        have hrest : body.drop (tw.length + (i + start + 6) + 1) = post := by
          have : body.drop (tw.length + (i + start + 6) + 1)
              = (body.drop (i + start + 6)).drop (tw.length + 1) := by
            rw [List.drop_drop]
            congr 1
            omega
          rw [this, hsplit, List.drop_append]
          simp
        have hv : href_values_upto (n1 + 1) (body.drop start) =
            tw :: href_values_upto n1 post := by
          simp only [href_values_upto, haf, hq, if_true, htw, hpost]
        have hrec := ih n1 (tw.length + (i + start + 6) + 1)
          (if find tw "https://".toList = none then
            if cached (parse_uri dflt tw base) = false then links ++ [parse_uri dflt tw base]
            else links
          else links) (by omega) (by omega) (by omega)
        simp only [Prefetcher.parse_links_loop, hff, hffq, hlink, hrec, hrest, hv,
          select_links_cons]
        congr 1
        split_ifs <;> simp
      · have hfq : find_from body ['"'] (i + start + 6) = none := by
          simp only [find_from, if_pos hle, find_char_not_mem '"' _ hq, Option.map_none']
        have hv : href_values_upto (n1 + 1) (body.drop start) = [] := by
          simp only [href_values_upto, haf, hq, if_false]
        obtain ⟨fuel1, rfl⟩ : ∃ fuel1, fuel = fuel1 + 1 := ⟨fuel - 1, by omega⟩
        have hstop := parse_links_loop_done dflt cached body base fuel1 (i + start + 6 + 1) links
          (fun _ hm => hq (List.mem_of_mem_drop (by
            rw [← List.drop_drop] at hm
            exact hm)))
        rw [Prefetcher.parse_links_loop]
        simp only [hff, hfq, hstop, hv, select_links_nil, List.append_nil]

theorem after_first_length (pat s rest : Str) (h : after_first pat s = some rest) :
    rest.length + pat.length ≤ s.length := by
  induction s with
  | nil =>
    simp only [after_first] at h
    split at h
    · rename_i hp
      have hp2 : pat = [] := by simpa using hp
      simp only [Option.some.injEq] at h
      subst h
      simp [hp2]
    · simp at h
  | cons c cs ih =>
    simp only [after_first] at h
    split at h
    · rename_i hp
      have := length_le_of_isPrefixOf pat (c :: cs) hp
      simp only [Option.some.injEq] at h
      subst h
      simp only [List.length_drop]
      omega
    · have := ih h
      simp only [List.length_cons]
      omega

theorem length_after_quote (c : Char) (s : Str) :
    ((s.dropWhile (fun x => x != c)).drop 1).length ≤ s.length := by
  have h := congrArg List.length (List.takeWhile_append_dropWhile (fun x => x != c) s)
  simp only [List.length_append] at h
  simp only [List.length_drop]
  omega

theorem href_values_upto_stable (n m : Nat) (s : Str) (hn : s.length ≤ n) (hm : s.length ≤ m) :
    href_values_upto n s = href_values_upto m s := by
  induction n generalizing m s with
  | zero =>
    have hs : s = [] := List.length_eq_zero.1 (by omega)
    subst hs
    cases m with
    | zero => rfl
    | succ m => simp only [href_values_upto, after_first]; rfl
  | succ n ih =>
    cases haf : after_first "href=\"".toList s with
    | none =>
      cases m with
      | zero => simp only [href_values_upto, haf]
      | succ m => simp only [href_values_upto, haf]
    | some rest =>
      have hl := after_first_length _ _ _ haf
      have h6 : "href=\"".toList.length = 6 := by decide
      rw [h6] at hl
      obtain ⟨m1, rfl⟩ : ∃ m1, m = m1 + 1 := ⟨m - 1, by omega⟩
      have hp := length_after_quote '"' rest
      simp only [href_values_upto, haf]
      split
      · rw [ih m1 _ (by omega) (by omega)]
      · rfl

/-- C24: parse_links returns the empty list for every response whose content_type differs
from "text/html".  For a text/html response (while the shutdown flag is not set) the loop
ends within body.length + 1 iterations, and with any larger bound, and the result is, in
order: parse_uri(link, response URI) for the href values of the body (scanned from left to
right, each the text between 'href="' and the next '"', the scan going on behind that '"')
in which "https://" does not occur and whose URI the page cache does not hold.  With the
shutdown flag set the result is empty. -/
theorem C24_parse_links (dflt : ProxyURI) (cached : ProxyURI → Bool) (response : HTTPResponse) :
    (response.content_type ≠ "text/html".toList →
        ∀ done, Prefetcher.parse_links dflt cached done response = some []) ∧
      (response.content_type = "text/html".toList →
        Prefetcher.parse_links dflt cached false response =
          some (select_links dflt cached response.proxy_uri (href_values response.body))) ∧
      (∀ fuel, response.body.length + 1 ≤ fuel →
        Prefetcher.parse_links_loop dflt cached response.body response.proxy_uri fuel 0 [] =
          some (select_links dflt cached response.proxy_uri (href_values response.body))) ∧
      (∀ n, response.body.length ≤ n →
        href_values_upto n response.body = href_values response.body) ∧
      (∀ link, occurs "https://".toList link = true ↔
        ∃ a b, link = a ++ "https://".toList ++ b) ∧
      Prefetcher.parse_links dflt cached true response = some [] := by
  have hloop : ∀ fuel, response.body.length + 1 ≤ fuel →
      Prefetcher.parse_links_loop dflt cached response.body response.proxy_uri fuel 0 [] =
        some (select_links dflt cached response.proxy_uri (href_values response.body)) := by
    intro fuel hf
    have := parse_links_loop_spec dflt cached response.body response.proxy_uri fuel
      response.body.length 0 [] (Nat.zero_le _) (by omega) (by omega)
    simpa [href_values] using this
  refine ⟨?_, ?_, hloop, ?_, ?_, ?_⟩
  · intro h done
    unfold Prefetcher.parse_links
    rw [if_pos h]
  · intro h
    unfold Prefetcher.parse_links
    rw [if_neg (not_not.2 h), if_neg (by decide)]
    exact hloop _ (le_refl _)
  · intro n hn
    exact href_values_upto_stable n _ _ hn (le_refl _)
  · intro link
    exact occurs_iff _ link
  · unfold Prefetcher.parse_links
    split
    · rfl
    · rfl

theorem C24_parse_links_witness :
    sample_html_response.content_type = "text/html".toList ∧
      href_values sample_html_response.body =
        ["next".toList, "https://s.test/".toList, "http://y.test:81/p".toList] ∧
      Prefetcher.parse_links empty_uri (fun uri => decide (uri.host = "y.test".toList)) false
          sample_html_response =
        some (select_links empty_uri (fun uri => decide (uri.host = "y.test".toList))
          sample_html_response.proxy_uri (href_values sample_html_response.body)) ∧
      Prefetcher.parse_links empty_uri (fun _ => false) false sample_html_response =
        some [parse_uri empty_uri "next".toList sample_uri,
          parse_uri empty_uri "http://y.test:81/p".toList sample_uri] :=
  ⟨by decide, by decide,
    (C24_parse_links empty_uri (fun uri => decide (uri.host = "y.test".toList))
      sample_html_response).2.1 (by decide),
    ((C24_parse_links empty_uri (fun _ => false) sample_html_response).2.1 (by decide)).trans
      (by decide)⟩

end Proxy
